import Mathlib

/-!
# forged_heroes `cli_tui`: the record store, the record form and the router

A shallow embedding of `store.go`, `models.go`, `tool_editor.go`, `tool_list.go`
and `main.go`.

Modelling decisions, all visible in the definitions below.

* A Go slice of parameters is a header (`ptr`, `len`, `cap`) into a heap of
  backing arrays, because the Store, the List snapshot and the Form copy `Tool`
  values by assignment and so share backing arrays.  `nil` is `none`.
* The Store sits behind a pointer in the Go code; here it is a component of the
  `World` that every operation threads through, together with the heap and the
  JSON file.
* `time.Now()`, the success of the file write and the capacity the runtime
  picks when `append` reallocates are inputs of the operation that uses them.
* Go `int` is `Int`; no arithmetic in the code comes near the 64-bit range.
* A Go index out of range is a panic; an operation that can panic returns
  `Option`, `none` being the panic.
-/

namespace ForgedHeroes

/-! ## models.go -/

/-- Parameter of a tool (`models.go`).  `Default` (an `interface{}`) is kept as
the text of its JSON value, `Options` as an optional list (`none` is the nil
slice), `Min` and `Max` (`*float64`) as the optional bit pattern of the float;
the code never reads or writes these four fields.  The Go field `Type` is
`Type_` here, `Type` being reserved. -/
structure Parameter where
  ID : String
  Name : String
  Type_ : String
  Description : String
  Required : Bool
  Default : Option String
  Options : Option (List String)
  Min : Option Nat
  Max : Option Nat
deriving DecidableEq, Repr

/-- The zero value of `Parameter`, which fills the unused tail of a freshly
allocated backing array. -/
def Parameter.zero : Parameter :=
  ⟨"", "", "", "", false, none, none, none, none⟩

/-- ParameterTypes defines valid parameter types. -/
def ParameterTypes : List String := ["string", "number", "boolean", "object", "array"]

/-- DefaultCategories defines default tool categories. -/
def DefaultCategories : List String := ["General", "CLI", "API", "Data"]

/-- A reading of `time.Now()`: the nanosecond count that `UnixNano` returns and
the civil fields that `Format` prints. -/
structure Time where
  unixNano : Int
  year : Nat
  month : Nat
  day : Nat
  hour : Nat
  minute : Nat
  second : Nat
deriving DecidableEq, Repr

/-- The zero `time.Time`. -/
def Time.zero : Time := ⟨0, 1, 1, 1, 0, 0, 0⟩

/-- Header of a non-nil `[]Parameter`: the address of its backing array in the
heap, its length and its capacity.  Every slice the code stores starts at the
first element of its backing array. -/
structure Slice where
  ptr : Nat
  len : Nat
  cap : Nat
deriving DecidableEq, Repr

/-- The slice literal `[]Parameter{}`: non-nil, length and capacity 0. -/
def Slice.empty : Slice := ⟨0, 0, 0⟩

/-- Tool represents a tool specification (`models.go`); `Parameters = none` is
the nil slice. -/
structure Tool where
  ID : String
  Name : String
  Description : String
  Category : String
  Parameters : Option Slice
  Status : String
  LastModified : Time
deriving DecidableEq, Repr

/-- The zero value of `Tool`. -/
def Tool.zero : Tool := ⟨"", "", "", "", none, "", Time.zero⟩

/-! ## The heap of parameter backing arrays -/

/-- The backing arrays of all parameter slices, by address. -/
abbrev Heap := List (List Parameter)

/-- The elements `s[0], ..., s[len-1]` of a slice. -/
def Heap.read (h : Heap) (s : Slice) : List Parameter :=
  (h.getD s.ptr []).take s.len

/-- The elements of a possibly nil slice; a nil slice has none. -/
def Heap.readOpt (h : Heap) (s : Option Slice) : List Parameter :=
  match s with
  | none => []
  | some s => h.read s

/-- Go `len(s)` of a possibly nil slice. -/
def sliceLen (s : Option Slice) : Nat :=
  match s with
  | none => 0
  | some s => s.len

/-- The assignment `s[i] = f(s[i])` on an index already checked to be in range:
it writes into the backing array, so every slice sharing the array sees it. -/
def Heap.modifyAt (h : Heap) (s : Slice) (i : Nat) (f : Parameter → Parameter) : Heap :=
  h.modify (fun arr => arr.modify f i) s.ptr

/-- Go `append(s, x)` for one element.  With spare capacity the element is
written in place behind the last one; otherwise a new backing array with room
for `spare` further elements is allocated and the old elements are copied. -/
def Heap.append (h : Heap) (spare : Nat) (s : Option Slice) (x : Parameter) : Heap × Slice :=
  match s with
  | some s =>
    if s.len < s.cap then
      (h.modify (fun arr => arr.set s.len x) s.ptr, ⟨s.ptr, s.len + 1, s.cap⟩)
    else
      (h ++ [h.read s ++ [x] ++ List.replicate spare Parameter.zero],
        ⟨h.length, s.len + 1, s.len + 1 + spare⟩)
  | none =>
    (h ++ [[x] ++ List.replicate spare Parameter.zero], ⟨h.length, 1, 1 + spare⟩)

/-- The statement `s = append(s[:i], s[i+1:]...)` for `i + 1 < len(s)`: the tail
is moved one place down inside the backing array, whose last used cell keeps its
old content, and the result is one element shorter. -/
def Heap.removeAt (h : Heap) (s : Slice) (i : Nat) : Heap × Slice :=
  (h.modify (fun arr => arr.take i ++ (arr.take s.len).drop (i + 1) ++ arr.drop (s.len - 1)) s.ptr,
    ⟨s.ptr, s.len - 1, s.cap⟩)

/-! ## store.go -/

/-- The Go `map[string]Tool`. -/
abbrev ToolMap := AList (fun _ : String => Tool)

/-- Store handles all data operations. -/
structure Store where
  filePath : String
  tools : ToolMap
deriving DecidableEq

/-- What the JSON file holds: nothing (no file), an unfinished write, or the
encoding of a map, each record with the elements of its parameter slice. -/
inductive File where
  | absent
  | truncated
  | holds (records : List (String × Tool × List Parameter))
deriving DecidableEq, Repr

/-- How one attempt to write the file ends: both steps succeed, `os.Create`
fails, or the encoder fails after the file was created. -/
inductive SaveOutcome where
  | ok
  | createFails
  | encodeFails
deriving DecidableEq, Repr

/-- Everything the operations reach through pointers: the parameter backing
arrays, the Store and the file the Store writes. -/
structure World where
  heap : Heap
  store : Store
  disk : File
deriving DecidableEq

/-- Pads the decimal digits of `x` with zeros to at least `width` characters,
as `time.Format` does for each numeric field. -/
def appendInt (x width : Nat) : String :=
  String.mk (List.replicate (width - (Nat.repr x).length) '0') ++ Nat.repr x

/-- generateID generates a unique ID for a tool:
`time.Now().Format("20060102150405")`. -/
def generateID (now : Time) : String :=
  appendInt now.year 4 ++ appendInt now.month 2 ++ appendInt now.day 2 ++
    appendInt now.hour 2 ++ appendInt now.minute 2 ++ appendInt now.second 2

/-- What `json.Encoder.Encode(s.tools)` writes. -/
def Store.encode (h : Heap) (s : Store) : List (String × Tool × List Parameter) :=
  s.tools.entries.map (fun e => (e.1, e.2, h.readOpt e.2.Parameters))

/-- save writes tools to the JSON file; the result is the error, `none` for
nil. -/
def Store.save (w : World) (o : SaveOutcome) : World × Option String :=
  match o with
  | .createFails => (w, some "create")
  | .encodeFails => ({ w with disk := File.truncated }, some "encode")
  | .ok => ({ w with disk := File.holds (w.store.encode w.heap) }, none)

/-- AddTool (`store.go`).  `idNow` is the reading of the clock inside
`generateID`, `modNow` the one stored as `LastModified`.  The error of `save`
is dropped, as in the source. -/
def Store.AddTool (w : World) (tool : Tool) (idNow modNow : Time) (o : SaveOutcome) : World :=
  let tool := { tool with ID := generateID idNow }
  let tool := { tool with LastModified := modNow }
  let tool := if tool.Parameters = none then { tool with Parameters := some Slice.empty } else tool
  let w := { w with store := { w.store with tools := w.store.tools.insert tool.ID tool } }
  (Store.save w o).1

/-- UpdateTool (`store.go`); the second component is the returned error. -/
def Store.UpdateTool (w : World) (tool : Tool) (modNow : Time) (o : SaveOutcome) :
    World × Option String :=
  match w.store.tools.lookup tool.ID with
  | some existingTool =>
    let tool := if tool.Parameters = none then
      { tool with Parameters := existingTool.Parameters } else tool
    let tool := { tool with LastModified := modNow }
    let w := { w with store := { w.store with tools := w.store.tools.insert tool.ID tool } }
    ((Store.save w o).1, none)
  | none => (w, some "tool not found")

/-- DeleteTool removes a tool from the store. -/
def Store.DeleteTool (w : World) (id : String) (o : SaveOutcome) : World × Option String :=
  match w.store.tools.lookup id with
  | none => (w, some "tool not found")
  | some _ =>
    let w := { w with store := { w.store with tools := w.store.tools.erase id } }
    ((Store.save w o).1, none)

/-- GetTools returns all tools in the store.  Go's `range` over a map visits
the entries in an unspecified order; the model visits them in the order of the
association list. -/
def Store.GetTools (s : Store) : List Tool :=
  s.tools.entries.map (fun e => e.2)

/-! ## The bubbletea messages and commands

`bubbletea` and `bubbles` are dependencies, not code of the repository.  The
model keeps what the repository's code observes of them; where the library
computes something the repository never inspects (how a bound editing key
changes a text, which item the list widget selects), the result is an input
supplied by the environment `Env`, so that every statement below holds whatever
the library does there. -/

/-- The key types the code distinguishes by `msg.Type`, and every other named
key by the name `keyNames` gives it ("tab", "ctrl+c", "up", ...).  `KeyUnknown`
is a key type without a name. -/
inductive KeyType where
  | KeyRunes
  | KeyEnter
  | KeyEsc
  | KeyNamed (name : String)
  | KeyUnknown
deriving DecidableEq, Repr

/-- The `tea.KeyMsg` struct. -/
structure KeyMsg where
  Type_ : KeyType
  Runes : List Char
  Alt : Bool
  Paste : Bool
deriving DecidableEq, Repr

/-- The method `Key.String()`: "alt+" when Alt is set, then the runes for
`KeyRunes` (in brackets when pasted) or the name of the key; the empty string
for a key type without a name. -/
def KeyMsg.String (k : KeyMsg) : String :=
  match k.Type_ with
  | .KeyRunes =>
    (if k.Alt then "alt+" else "") ++ (if k.Paste then "[" else "") ++ String.mk k.Runes ++
      (if k.Paste then "]" else "")
  | .KeyEnter => (if k.Alt then "alt+" else "") ++ "enter"
  | .KeyEsc => (if k.Alt then "alt+" else "") ++ "esc"
  | .KeyNamed name => (if k.Alt then "alt+" else "") ++ name
  | .KeyUnknown => ""

/-- The messages the models switch on.  `RefreshToolsMsg` is the repository's
own message type (`tool_list.go`). -/
inductive Msg where
  | WindowSizeMsg (Width Height : Int)
  | KeyMsg (k : KeyMsg)
  | RefreshToolsMsg
deriving DecidableEq, Repr

/-- What the runtime does when it runs a command: `Quit` ends the process, the
others are the text input's cursor blink and clipboard read and whatever the
list widget asks for. -/
inductive Effect where
  | Quit
  | Blink
  | Paste
  | ListWidget (n : Nat)
deriving DecidableEq, Repr

/-- A `tea.Cmd`, as the list of effects running it has; `nil` is the empty
list and `tea.Quit` is `[Effect.Quit]`. -/
abbrev Cmd := List Effect

/-- The command `tea.Batch(cmds...)`: nil commands are dropped, and the batch
of no command is nil. -/
def Batch (cmds : List Cmd) : Cmd := cmds.flatten

/-- What the surroundings contribute to the handling of one message: the
readings of `time.Now()` (in `addNewParameter`, `getTool`, `generateID` and the
`LastModified` assignment of the Store), the spare capacity the runtime
allocates if `append` has to grow a slice, how the file write ends, what the
text input library does to a text and cursor position on one of its bound
editing keys, and the cursor and command of the list widget after it handled
the message. -/
structure Env where
  nowParam : Time
  nowGet : Time
  nowID : Time
  nowMod : Time
  spare : Nat
  save : SaveOutcome
  edit : String → List Char → Nat → List Char × Nat
  listIndex : Nat
  listCmd : Cmd

/-! ## bubbles/textinput -/

namespace textinput

/-- The fields of `textinput.Model` that the editor sets or reads. -/
structure Model where
  Placeholder : String
  CharLimit : Int
  Width : Int
  value : List Char
  focus : Bool
  pos : Nat
deriving DecidableEq, Repr

/-- The model `textinput.New()` returns. -/
def New : Model := ⟨"", 0, 0, [], false, 0⟩

/-- Go `unicode.IsControl`. -/
def IsControl (r : Char) : Bool :=
  r.toNat < 0x20 || (0x7f ≤ r.toNat && r.toNat < 0xa0)

/-- The sanitizer of the text input: invalid runes and control characters are
dropped, tabs and line breaks become a space. -/
def Sanitize (runes : List Char) : List Char :=
  runes.filterMap fun r =>
    if r = Char.ofNat 0xFFFD then none
    else if r = '\r' ∨ r = '\n' then some ' '
    else if r = '\t' then some ' '
    else if IsControl r then none
    else some r

/-- The method `setValueInternal`: the text is cut at `CharLimit` when that is
positive, and the cursor goes to the end when it was at the start of an empty
text or would be behind the end. -/
def Model.setValueInternal (m : Model) (runes : List Char) : Model :=
  let value := if 0 < m.CharLimit ∧ m.CharLimit < runes.length then
    runes.take m.CharLimit.toNat else runes
  let pos := if (m.pos = 0 ∧ m.value.length = 0) ∨ value.length < m.pos then
    value.length else m.pos
  { m with value := value, pos := pos }

/-- SetValue sets the value of the text input. -/
def Model.SetValue (m : Model) (s : String) : Model :=
  m.setValueInternal (Sanitize s.data)

/-- Value returns the value of the text input. -/
def Model.Value (m : Model) : String := String.mk m.value

/-- Focus sets the focus state on the model. -/
def Model.Focus (m : Model) : Model := { m with focus := true }

/-- Blur removes the focus state on the model. -/
def Model.Blur (m : Model) : Model := { m with focus := false }

/-- Focused returns the focus state on the model. -/
def Model.Focused (m : Model) : Bool := m.focus

/-- The method `insertRunesFromUserInput`: the sanitized runes, as many as the
character limit leaves room for, are inserted at the cursor. -/
def Model.insertRunesFromUserInput (m : Model) (v : List Char) : Model :=
  let paste := Sanitize v
  if 0 < m.CharLimit ∧ m.CharLimit - m.value.length ≤ 0 then m
  else
    let paste := if 0 < m.CharLimit then paste.take (m.CharLimit - m.value.length).toNat
      else paste
    { m with pos := m.pos + paste.length }.setValueInternal
      (m.value.take m.pos ++ paste ++ m.value.drop m.pos)

/-- The keys of the default key map of the text input. -/
def boundKeys : List String :=
  ["right", "ctrl+f", "left", "ctrl+b", "alt+right", "ctrl+right", "alt+f", "alt+left",
   "ctrl+left", "alt+b", "alt+backspace", "ctrl+w", "alt+delete", "alt+d", "ctrl+k", "ctrl+u",
   "backspace", "ctrl+h", "delete", "ctrl+d", "home", "ctrl+a", "end", "ctrl+e", "ctrl+v",
   "tab", "down", "ctrl+n", "up", "ctrl+p"]

/-- The method `Update` of the text input.  Without focus it ignores every
message.  With focus, a key of the key map moves the cursor or edits the text
as the library sees fit (`env.edit`; "ctrl+v" asks for the clipboard), every
other key inserts its runes, and the cursor blinks anew when it moved.  Focus,
character limit and width are never changed. -/
def Model.Update (env : Env) (m : Model) (msg : Msg) : Model × Cmd :=
  if !m.focus then (m, [])
  else
    match msg with
    | .KeyMsg k =>
      if k.String = "ctrl+v" then (m, [Effect.Paste])
      else
        let m' :=
          if k.String ∈ boundKeys then
            { m with value := (env.edit k.String m.value m.pos).1,
                     pos := (env.edit k.String m.value m.pos).2 }
          else m.insertRunesFromUserInput k.Runes
        (m', if m'.pos ≠ m.pos then [Effect.Blink] else [])
    | _ => (m, [])

end textinput

/-! ## tool_editor.go -/

/-- The struct `toolEditorModel`.  The two slices of text inputs are lists:
their backing arrays are allocated by the editor's own constructors and are
reachable only from the one editor value the Router holds. -/
structure toolEditorModel where
  nameInput : textinput.Model
  descriptionInput : textinput.Model
  categoryInput : textinput.Model
  parameterInputs : List textinput.Model
  focused : Int
  inputs : List textinput.Model
  tool : Tool
  originalTool : Tool
  width : Int
  height : Int
  saving : Bool
  editingParameters : Bool
  currentParameter : Int
  parameterChanged : Bool
  showParameterHelp : Bool
  selectedParamIndex : Int
deriving DecidableEq, Repr

/-- The loop `for i := range xs { if i == focused { xs[i].Focus() } else
{ xs[i].Blur() } }`, which the editor runs after every change of focus. -/
def focusOnly : List textinput.Model → Int → List textinput.Model
  | [], _ => []
  | x :: xs, k => (if k = 0 then x.Focus else x.Blur) :: focusOnly xs (k - 1)

/-- newToolEditorModel creates a new editor for creating a tool. -/
def newToolEditorModel : toolEditorModel :=
  let name : textinput.Model :=
    { ({ textinput.New with Placeholder := "New Tool" } : textinput.Model).Focus with
      CharLimit := 50, Width := 40 }
  let description : textinput.Model :=
    { textinput.New with Placeholder := "Tool description", CharLimit := 200, Width := 40 }
  let category : textinput.Model :=
    { textinput.New with
      Placeholder := "Category (e.g., CLI, API, Data)", CharLimit := 30, Width := 40 }
  { nameInput := name
    descriptionInput := description
    categoryInput := category
    parameterInputs := []
    focused := 0
    inputs := [name, description, category]
    tool := { Tool.zero with Parameters := some Slice.empty }
    originalTool := Tool.zero
    width := 0
    height := 0
    saving := false
    editingParameters := false
    currentParameter := 0
    parameterChanged := false
    showParameterHelp := false
    selectedParamIndex := -1 }

/-- newToolEditorModelWithTool creates a new editor with an existing tool.
The assignment `m.tool = tool` copies the slice header of `tool.Parameters`,
not the parameters. -/
def newToolEditorModelWithTool (tool : Tool) : toolEditorModel :=
  let m := newToolEditorModel
  let m := { m with tool := tool }
  let m := if m.tool.Parameters = none then
    { m with tool := { m.tool with Parameters := some Slice.empty } } else m
  let m := { m with originalTool := tool }
  let m := { m with nameInput := m.nameInput.SetValue tool.Name }
  let m := { m with descriptionInput := m.descriptionInput.SetValue tool.Description }
  let m := { m with categoryInput := m.categoryInput.SetValue tool.Category }
  let m := { m with inputs := [m.nameInput, m.descriptionInput, m.categoryInput] }
  { m with inputs := m.inputs.modifyHead textinput.Model.Focus }

/-- Go `strconv.FormatBool`. -/
def FormatBool (b : Bool) : String := if b then "true" else "false"

/-- Go `unicode.ToLower` on the runes that matter for a comparison with an
ASCII string: the ASCII capitals, and the two runes outside ASCII whose lower
case is an ASCII letter (the Kelvin sign and the dotted capital I).  Every other
rune is left as it is; Go maps it to a rune outside ASCII. -/
def runeToLower (r : Char) : Char :=
  if r = Char.ofNat 0x212A then 'k'
  else if r = Char.ofNat 0x130 then 'i'
  else r.toLower

/-- Go `strings.ToLower`, up to the runes outside ASCII (see `runeToLower`). -/
def ToLower (s : String) : String := String.mk (s.data.map runeToLower)

/-- createParameterInputs creates text inputs for editing a parameter. -/
def createParameterInputs (param : Parameter) (isNew : Bool) : List textinput.Model :=
  let nameInput : textinput.Model :=
    ({ textinput.New with
      Placeholder := "Parameter name", CharLimit := 30, Width := 40 } : textinput.Model).Focus
  let typeInput : textinput.Model :=
    { textinput.New with
      Placeholder := "Type (string, number, boolean, object, array)", CharLimit := 20,
      Width := 40 }
  let descInput : textinput.Model :=
    { textinput.New with Placeholder := "Parameter description", CharLimit := 100, Width := 40 }
  let requiredInput : textinput.Model :=
    { textinput.New with Placeholder := "Required (true/false)", CharLimit := 5, Width := 20 }
  if !isNew then
    [nameInput.SetValue param.Name, typeInput.SetValue param.Type_,
     descInput.SetValue param.Description, requiredInput.SetValue (FormatBool param.Required)]
  else
    [nameInput, typeInput.SetValue "string", descInput, requiredInput.SetValue "true"]

/-- addNewParameter adds a new parameter to the tool. -/
def toolEditorModel.addNewParameter (env : Env) (h : Heap) (m : toolEditorModel) :
    Heap × toolEditorModel :=
  let paramID := "p" ++ toString env.nowParam.unixNano
  let newParam : Parameter :=
    { ID := paramID, Name := "", Type_ := "string", Description := "", Required := true,
      Default := none, Options := none, Min := none, Max := none }
  let r := h.append env.spare m.tool.Parameters newParam
  (r.1, { m with
    tool := { m.tool with Parameters := some r.2 }
    parameterInputs := createParameterInputs newParam true
    editingParameters := true
    currentParameter := (r.2.len : Int) - 1
    focused := 0 })

/-- deleteParameter removes a parameter from the tool. -/
def toolEditorModel.deleteParameter (h : Heap) (m : toolEditorModel) (index : Int) :
    Heap × toolEditorModel :=
  if index < 0 ∨ index ≥ (sliceLen m.tool.Parameters : Int) then (h, m)
  else
    match m.tool.Parameters with
    | none => (h, m)
    | some s =>
      let r : Heap × Slice :=
        if index = (s.len : Int) - 1 then (h, { s with len := index.toNat })
        else h.removeAt s index.toNat
      let m := { m with tool := { m.tool with Parameters := some r.2 } }
      let m := if m.selectedParamIndex ≥ (r.2.len : Int) then
        { m with selectedParamIndex := (r.2.len : Int) - 1 } else m
      (r.1, m)

/-- editParameter enters edit mode for the selected parameter. -/
def toolEditorModel.editParameter (h : Heap) (m : toolEditorModel) (index : Int) :
    toolEditorModel :=
  if index < 0 ∨ index ≥ (sliceLen m.tool.Parameters : Int) then m
  else
    { m with
      parameterInputs := focusOnly (createParameterInputs
        ((h.readOpt m.tool.Parameters).getD index.toNat Parameter.zero) false) 0
      editingParameters := true
      currentParameter := index
      focused := 0 }

/-- saveParameter saves the current parameter being edited: the four values
are written into element `currentParameter` of the slice, in its backing
array. -/
def toolEditorModel.saveParameter (h : Heap) (m : toolEditorModel) : Heap × toolEditorModel :=
  if (m.parameterInputs.length : Int) < 4 ∨ m.currentParameter < 0 ∨
      m.currentParameter ≥ (sliceLen m.tool.Parameters : Int) then (h, m)
  else
    match m.parameterInputs, m.tool.Parameters with
    | i0 :: i1 :: i2 :: i3 :: _, some s =>
      let name := i0.Value
      let paramType := i1.Value
      let description := i2.Value
      let requiredStr := i3.Value
      let paramType := if ParameterTypes.contains paramType then paramType else "string"
      let required := if ToLower requiredStr = "false" then false else true
      (h.modifyAt s m.currentParameter.toNat (fun p =>
          { p with Name := name, Type_ := paramType, Description := description,
                   Required := required }),
        { m with
          editingParameters := false
          parameterChanged := true
          focused := 0
          inputs := focusOnly m.inputs 0 })
    | _, _ => (h, m)

/-- cancelParameterEdit cancels the current parameter edit. -/
def toolEditorModel.cancelParameterEdit (m : toolEditorModel) : toolEditorModel :=
  { m with editingParameters := false, focused := 0, inputs := focusOnly m.inputs 0 }

/-- getTool returns a tool based on the current input values. -/
def toolEditorModel.getTool (m : toolEditorModel) (now : Time) : Tool :=
  let tool := m.tool
  let tool := { tool with Name := m.nameInput.Value }
  let tool := { tool with Description := m.descriptionInput.Value }
  let tool := { tool with Category := m.categoryInput.Value }
  let tool := { tool with LastModified := now }
  let tool := if tool.Parameters = none then { tool with Parameters := some Slice.empty }
    else tool
  if tool.Status = "" then { tool with Status := "active" } else tool

/-- The three assignments `m.nameInput = m.inputs[0]`, `m.descriptionInput =
m.inputs[1]`, `m.categoryInput = m.inputs[2]`; they panic when `inputs` has
fewer than three elements. -/
def toolEditorModel.syncInputs (m : toolEditorModel) : Option toolEditorModel :=
  match m.inputs with
  | a :: b :: c :: _ => some { m with nameInput := a, descriptionInput := b, categoryInput := c }
  | _ => none

/-- The index expression `xs[i]` for a Go `int` index; `none` is the panic. -/
def indexInt (xs : List textinput.Model) (i : Int) : Option textinput.Model :=
  if i < 0 then none else xs[i.toNat]?

/-- The "edit parameter" action of `Update` (the cases "alt+e", "e+alt" and Alt
with the rune e or E). -/
def toolEditorModel.editSelected (h : Heap) (m : toolEditorModel) : toolEditorModel :=
  if m.selectedParamIndex ≥ 0 ∧ m.selectedParamIndex < (sliceLen m.tool.Parameters : Int) then
    m.editParameter h m.selectedParamIndex
  else if (sliceLen m.tool.Parameters : Int) > 0 then
    let m := { m with selectedParamIndex := 0 }
    m.editParameter h m.selectedParamIndex
  else m

/-- The "delete parameter" action of `Update` (the cases "alt+d", "d+alt" and
Alt with the rune d or D). -/
def toolEditorModel.deleteSelected (h : Heap) (m : toolEditorModel) : Heap × toolEditorModel :=
  if m.selectedParamIndex ≥ 0 ∧ m.selectedParamIndex < (sliceLen m.tool.Parameters : Int) then
    m.deleteParameter h m.selectedParamIndex
  else (h, m)

/-- The tail of `Update` ("Update all inputs"): every field input handles the
message, the three named inputs are synced from `inputs`, and the name,
description and category of the record under edit are set from them. -/
def toolEditorModel.updateAllInputs (env : Env) (m : toolEditorModel) (msg : Msg) :
    Option (toolEditorModel × Cmd) :=
  let rs : List (textinput.Model × Cmd) := m.inputs.map (fun i => i.Update env msg)
  let m := { m with inputs := rs.map Prod.fst }
  match m.syncInputs with
  | none => none
  | some m =>
    let m := { m with tool := { m.tool with Name := m.nameInput.Value } }
    let m := { m with tool := { m.tool with Description := m.descriptionInput.Value } }
    let m := { m with tool := { m.tool with Category := m.categoryInput.Value } }
    some (m, Batch (rs.map Prod.snd))

/-- The block of `Update` guarded by `if m.editingParameters`. -/
def toolEditorModel.updateEditing (env : Env) (h : Heap) (m : toolEditorModel) (k : KeyMsg) :
    Heap × toolEditorModel × Cmd :=
  if k.String = "esc" then (h, m.cancelParameterEdit, [])
  else if k.String = "enter" then
    if m.focused = (m.parameterInputs.length : Int) - 1 then
      ((m.saveParameter h).1, (m.saveParameter h).2, [])
    else
      let m := { m with focused := m.focused + 1 }
      let m := if m.focused ≥ (m.parameterInputs.length : Int) then { m with focused := 0 } else m
      (h, { m with parameterInputs := focusOnly m.parameterInputs m.focused }, [])
  else if k.String = "tab" then
    let m := { m with focused := m.focused + 1 }
    let m := if m.focused ≥ (m.parameterInputs.length : Int) then { m with focused := 0 } else m
    (h, { m with parameterInputs := focusOnly m.parameterInputs m.focused }, [])
  else if k.String = "shift+tab" then
    let m := { m with focused := m.focused - 1 }
    let m := if m.focused < 0 then
      { m with focused := (m.parameterInputs.length : Int) - 1 } else m
    (h, { m with parameterInputs := focusOnly m.parameterInputs m.focused }, [])
  else
    let rs : List (textinput.Model × Cmd) :=
      m.parameterInputs.map (fun i => i.Update env (Msg.KeyMsg k))
    (h, { m with parameterInputs := rs.map Prod.fst }, Batch (rs.map Prod.snd))

/-- The `default` case of the key switch of `Update`: Alt with one of the
runes p, e, d, then "?" and "enter"; any other key goes on to the tail of
`Update`. -/
def toolEditorModel.updateDefault (env : Env) (h : Heap) (m : toolEditorModel) (k : KeyMsg) :
    Option (Heap × toolEditorModel × Cmd) :=
  if k.Alt ∧ (String.mk k.Runes = "p" ∨ String.mk k.Runes = "P") then
    some ((m.addNewParameter env h).1, (m.addNewParameter env h).2, [])
  else if k.Alt ∧ (String.mk k.Runes = "e" ∨ String.mk k.Runes = "E") then
    some (h, m.editSelected h, [])
  else if k.Alt ∧ (String.mk k.Runes = "d" ∨ String.mk k.Runes = "D") then
    some ((m.deleteSelected h).1, (m.deleteSelected h).2, [])
  else if k.String = "?" then some (h, { m with showParameterHelp := true }, [])
  else if k.String = "enter" then
    if m.focused = (m.inputs.length : Int) - 1 then
      some (h, { m with saving := true }, [Effect.Quit])
    else
      let m := { m with focused := m.focused + 1 }
      let m := if m.focused ≥ (m.inputs.length : Int) then { m with focused := 0 } else m
      let m := { m with inputs := focusOnly m.inputs m.focused }
      (m.syncInputs).map (fun m => (h, m, []))
  else (m.updateAllInputs env (Msg.KeyMsg k)).map (fun r => (h, r.1, r.2))

/-- The key switch of `Update`, reached with the help overlay hidden and the
parameter editor closed, after the check of the "q" key. -/
def toolEditorModel.updateSwitch (env : Env) (h : Heap) (m : toolEditorModel) (k : KeyMsg) :
    Option (Heap × toolEditorModel × Cmd) :=
  if k.String = "ctrl+c" then some (h, m, [Effect.Quit])
  else if k.String = "tab" ∨ k.String = "shift+tab" ∨ k.String = "up" ∨ k.String = "down" then
    let m :=
      if k.String = "up" ∨ k.String = "shift+tab" then
        let m := { m with focused := m.focused - 1 }
        if m.focused < 0 then { m with focused := (m.inputs.length : Int) - 1 } else m
      else
        let m := { m with focused := m.focused + 1 }
        if m.focused ≥ (m.inputs.length : Int) then { m with focused := 0 } else m
    let m := { m with inputs := focusOnly m.inputs m.focused }
    (m.syncInputs).map (fun m => (h, m, []))
  else if k.String = "alt+up" ∨ k.String = "up+alt" then
    if sliceLen m.tool.Parameters = 0 then some (h, m, [])
    else
      let m := { m with selectedParamIndex := m.selectedParamIndex - 1 }
      let m := if m.selectedParamIndex < 0 then
        { m with selectedParamIndex := (sliceLen m.tool.Parameters : Int) - 1 } else m
      some (h, m, [])
  else if k.String = "alt+down" ∨ k.String = "down+alt" then
    if sliceLen m.tool.Parameters = 0 then some (h, m, [])
    else
      let m := { m with selectedParamIndex := m.selectedParamIndex + 1 }
      let m := if m.selectedParamIndex ≥ (sliceLen m.tool.Parameters : Int) then
        { m with selectedParamIndex := 0 } else m
      some (h, m, [])
  else if k.String = "alt+p" ∨ k.String = "p+alt" then
    some ((m.addNewParameter env h).1, (m.addNewParameter env h).2, [])
  else if k.String = "alt+e" ∨ k.String = "e+alt" then some (h, m.editSelected h, [])
  else if k.String = "alt+d" ∨ k.String = "d+alt" then
    some ((m.deleteSelected h).1, (m.deleteSelected h).2, [])
  else m.updateDefault env h k

/-- Update method with parameter management support (`tool_editor.go`).  The
heap is the one holding the backing array of `m.tool.Parameters`; the result is
`none` when the Go code panics on an index out of range. -/
def toolEditorModel.Update (env : Env) (h : Heap) (m : toolEditorModel) (msg : Msg) :
    Option (Heap × toolEditorModel × Cmd) :=
  match msg with
  | .WindowSizeMsg width height =>
    let m := { m with width := width, height := height }
    let m := { m with inputs := m.inputs.map (fun (i : textinput.Model) => { i with Width := width - 20 }) }
    let m := { m with
      parameterInputs :=
        m.parameterInputs.map (fun (i : textinput.Model) => { i with Width := width - 20 }) }
    (m.syncInputs).map (fun m => (h, m, []))
  | .KeyMsg k =>
    if m.showParameterHelp then
      if k.Type_ = KeyType.KeyEsc ∨ k.Type_ = KeyType.KeyEnter then
        some (h, { m with showParameterHelp := false }, [])
      else some (h, m, [])
    else if m.editingParameters then some (m.updateEditing env h k)
    else if k.String = "q" then
      match indexInt m.inputs m.focused with
      | none => none
      | some input =>
        if !input.Focused then some (h, m, [Effect.Quit]) else m.updateSwitch env h k
    else m.updateSwitch env h k
  | .RefreshToolsMsg => (m.updateAllInputs env Msg.RefreshToolsMsg).map (fun r => (h, r.1, r.2))

/-! ## tool_list.go -/

/-- toolItem is a wrapper around Tool to implement list.Item. -/
structure toolItem where
  Tool : Tool
deriving DecidableEq, Repr

/-- Title of a list item. -/
def toolItem.Title (i : toolItem) : String := i.Tool.Name

/-- Description of a list item: the parameter details, read through the slice
of the wrapped record. -/
def toolItem.Description (h : Heap) (i : toolItem) : String :=
  if sliceLen i.Tool.Parameters = 0 then "No parameters defined"
  else String.intercalate ", "
    ((h.readOpt i.Tool.Parameters).map (fun param => param.Name ++ " (" ++ param.Type_ ++ ")"))

/-- FilterValue of a list item. -/
def toolItem.FilterValue (i : toolItem) : String := i.Tool.Name

/-- indexOf finds the index of a tool in a slice by ID. -/
def indexOf : List Tool → String → Int
  | [], _ => -1
  | t :: ts, id => if t.ID = id then 0 else
    (if indexOf ts id = -1 then -1 else indexOf ts id + 1)

namespace list

/-- What the repository uses of the list widget `list.Model` of bubbles: its
items, the index of the item it has selected, its size and title. -/
structure Model where
  items : List toolItem
  index : Nat
  width : Int
  height : Int
  Title : String
deriving DecidableEq, Repr

/-- The widget `list.New(items, delegate, width, height)`. -/
def New (items : List toolItem) (width height : Int) : Model := ⟨items, 0, width, height, "List"⟩

/-- SelectedItem returns the selected item, `none` when there is none. -/
def Model.SelectedItem (l : Model) : Option toolItem := l.items[l.index]?

/-- The method `Update` of the widget: navigation, filtering and paging are the
library's; the environment supplies the index it selects and its command. -/
def Model.Update (env : Env) (l : Model) : Model × Cmd :=
  ({ l with index := env.listIndex }, env.listCmd)

end list

/-- The struct `toolListModel`; `store` tells whether the pointer to the Store
is set (only `SetStore` sets it). -/
structure toolListModel where
  list : list.Model
  width : Int
  height : Int
  selected : Int
  tools : List Tool
  store : Bool
deriving DecidableEq, Repr

/-- The constructor `newToolListModel(tools)`. -/
def newToolListModel (tools : List Tool) : toolListModel :=
  { list := { list.New (tools.map (fun tool => toolItem.mk tool)) 0 0 with
      Title := "Tools" }
    width := 0
    height := 0
    selected := 0
    tools := tools
    store := false }

/-- SetStore sets the store for this model to enable refreshing. -/
def toolListModel.SetStore (m : toolListModel) : toolListModel := { m with store := true }

/-- RefreshTools updates the tool list with fresh data from the store. -/
def toolListModel.RefreshTools (s : Store) (m : toolListModel) : toolListModel :=
  if m.store then
    let m := { m with tools := s.GetTools }
    { m with list := { m.list with
        items := m.tools.map (fun tool => toolItem.mk tool) } }
  else m

/-- The method `Update` of the list model. -/
def toolListModel.Update (env : Env) (s : Store) (m : toolListModel) (msg : Msg) :
    toolListModel × Cmd :=
  match msg with
  | .WindowSizeMsg width height =>
    ({ m with width := width, height := height,
              list := { m.list with width := width, height := height - 4 } }, [])
  | .RefreshToolsMsg => (m.RefreshTools s, [])
  | .KeyMsg _ =>
    let r := m.list.Update env
    let m := { m with list := r.1 }
    match m.list.SelectedItem with
    | some i => ({ m with selected := indexOf m.tools i.Tool.ID }, r.2)
    | none => (m, r.2)

/-! ## main.go -/

/-- The struct `appModel`.  Its `store` pointer is the Store of the `World`. -/
structure appModel where
  currentView : String
  toolList : toolListModel
  toolEditor : toolEditorModel
  width : Int
  height : Int
deriving DecidableEq, Repr

/-- The constructor `newAppModel(store)`. -/
def newAppModel (store : Store) : appModel :=
  { currentView := "list"
    toolList := newToolListModel store.GetTools
    toolEditor := newToolEditorModel
    width := 0
    height := 0 }

/-- The part of `appModel.Update` behind the key switch ("Update the current
view"). -/
def appModel.updateCurrentView (env : Env) (w : World) (m : appModel) (msg : Msg) :
    Option (World × appModel × Cmd) :=
  if m.currentView = "list" then
    let r := m.toolList.Update env w.store msg
    some (w, { m with toolList := r.1 }, Batch [r.2])
  else if m.currentView = "editor" then
    match msg with
    | .KeyMsg _ => some (w, m, Batch [])
    | _ =>
      (m.toolEditor.Update env w.heap msg).map
        (fun r => ({ w with heap := r.1 }, { m with toolEditor := r.2.1 }, Batch [r.2.2]))
  else some (w, m, Batch [])

/-- The branch of `appModel.Update` for a key while the editor is the current
view. -/
def appModel.updateEditorKey (env : Env) (w : World) (m : appModel) (k : KeyMsg) :
    Option (World × appModel × Cmd) :=
  match m.toolEditor.Update env w.heap (Msg.KeyMsg k) with
  | none => none
  | some (h, updatedEditor, cmd) =>
    let w := { w with heap := h }
    let m := { m with toolEditor := updatedEditor }
    if updatedEditor.saving then
      let tool := updatedEditor.getTool env.nowGet
      let w := if tool.ID = "" then Store.AddTool w tool env.nowID env.nowMod env.save
        else (Store.UpdateTool w tool env.nowMod env.save).1
      let tools := w.store.GetTools
      let m := { m with toolList := newToolListModel tools }
      let m := { m with toolList := m.toolList.RefreshTools w.store }
      some (w, { m with currentView := "list" }, [])
    else if k.String = "esc" then some (w, { m with currentView := "list" }, [])
    else if cmd ≠ [] then some (w, m, cmd)
    else if k.String = "q" ∨ k.String = "ctrl+c" then
      some (w, { m with currentView := "list" }, [])
    else some (w, m, [])

/-- The method `appModel.Update` (`main.go`), the Router. -/
def appModel.Update (env : Env) (w : World) (m : appModel) (msg : Msg) :
    Option (World × appModel × Cmd) :=
  match msg with
  | .WindowSizeMsg width height =>
    let m := { m with width := width, height := height }
    let r := m.toolList.Update env w.store msg
    let m := { m with toolList := r.1 }
    (m.toolEditor.Update env w.heap msg).map
      (fun e => ({ w with heap := e.1 }, { m with toolEditor := e.2.1 }, Batch [r.2, e.2.2]))
  | .KeyMsg k =>
    if m.currentView = "editor" then m.updateEditorKey env w k
    else if (k.String = "ctrl+c" ∨ k.String = "q") ∧ m.currentView = "list" then
      some (w, m, [Effect.Quit])
    else if k.String = "enter" ∧ m.currentView = "list" then
      if m.toolList.tools.length > 0 ∧ m.toolList.selected ≥ 0 then
        match m.toolList.tools[m.toolList.selected.toNat]? with
        | none => none
        | some selectedTool =>
          some (w, { m with toolEditor := newToolEditorModelWithTool selectedTool,
                            currentView := "editor" }, [])
      else some (w, { m with toolEditor := newToolEditorModel, currentView := "editor" }, [])
    else m.updateCurrentView env w msg
  | .RefreshToolsMsg => m.updateCurrentView env w msg

/-! ## Well-formed slices and reachable Form states -/

/-- A slice header lies within its backing array: its length is at most its
capacity, and the backing array at its address has room for the capacity.  Go
guarantees this of every slice value; the types of the model do not, so the
statements about the elements of a slice assume it. -/
def Slice.within (h : Heap) (s : Slice) : Prop :=
  s.len ≤ s.cap ∧ s.cap ≤ (h.getD s.ptr []).length

instance Slice.decidableWithin (h : Heap) (s : Slice) : Decidable (s.within h) := by
  unfold Slice.within; infer_instance

/-- The Form states the program can be in: the two constructors of
`tool_editor.go` give the initial states, on any heap, and `Update` leads from
one state to the next. -/
inductive FormReachable : Heap → toolEditorModel → Prop where
  | new (h : Heap) : FormReachable h newToolEditorModel
  | withTool (h : Heap) (tool : Tool) : FormReachable h (newToolEditorModelWithTool tool)
  | update (env : Env) (msg : Msg) (h h' : Heap) (m m' : toolEditorModel) (cmd : Cmd) :
      FormReachable h m → m.Update env h msg = some (h', m', cmd) → FormReachable h' m'

/-! ## Sequences of Store operations, and the focus of the Form -/

/-- One call of a mutating Store operation, with the clock readings and the
outcome of the file write that the call meets. -/
inductive StoreOp where
  | add (tool : Tool) (idNow modNow : Time) (o : SaveOutcome)
  | update (tool : Tool) (modNow : Time) (o : SaveOutcome)
  | delete (id : String) (o : SaveOutcome)
deriving DecidableEq, Repr

/-- The world after one call; the returned error is dropped. -/
def StoreOp.apply (w : World) : StoreOp → World
  | .add tool idNow modNow o => Store.AddTool w tool idNow modNow o
  | .update tool modNow o => (Store.UpdateTool w tool modNow o).1
  | .delete id o => (Store.DeleteTool w id o).1

/-- The world after a sequence of calls, made one after the other. -/
def StoreOp.run (w : World) (ops : List StoreOp) : World := ops.foldl StoreOp.apply w

/-- Every record of the map is stored under its own ID, which is not empty. -/
def Store.keyed (s : Store) : Prop :=
  ∀ k t, s.tools.lookup k = some t → t.ID = k ∧ t.ID ≠ ""

/-- Which of n inputs hold focus when exactly the one at index k does (none
when k is not an index). -/
def focusPattern : Nat → Int → List Bool
  | 0, _ => []
  | n + 1, k => decide (k = 0) :: focusPattern n (k - 1)

/-- The focus invariant of the Form: there are three field inputs; with the
parameter editor closed the focus index is in 0..2 and exactly the field at
that index holds focus; in Editing there are four parameter inputs, the focus
index is in 0..3 and exactly the parameter input at that index holds focus. -/
def toolEditorModel.focusInv (m : toolEditorModel) : Prop :=
  m.inputs.length = 3 ∧
  (m.editingParameters = false →
    0 ≤ m.focused ∧ m.focused < 3 ∧
    m.inputs.map textinput.Model.Focused = focusPattern 3 m.focused) ∧
  (m.editingParameters = true →
    0 ≤ m.focused ∧ m.focused < 4 ∧
    m.parameterInputs.map textinput.Model.Focused = focusPattern 4 m.focused)

/-- What a change of focus leaves alone: the record under edit, the saving
flag, and the texts of the field inputs and of the parameter inputs. -/
def toolEditorModel.sameData (m m' : toolEditorModel) : Prop :=
  m'.tool = m.tool ∧ m'.saving = m.saving ∧
  m'.inputs.map textinput.Model.Value = m.inputs.map textinput.Model.Value ∧
  m'.parameterInputs.map textinput.Model.Value = m.parameterInputs.map textinput.Model.Value

/-- The index invariant of the Form: the selection is -1 or an index of the
record's parameter slice, and in Editing `currentParameter` is an index of
it. -/
def toolEditorModel.paramInv (m : toolEditorModel) : Prop :=
  (-1 ≤ m.selectedParamIndex ∧ m.selectedParamIndex < (sliceLen m.tool.Parameters : Int)) ∧
  (m.editingParameters = true →
    0 ≤ m.currentParameter ∧ m.currentParameter < (sliceLen m.tool.Parameters : Int))

/-! ## The app states the Router reaches -/

/-- The app states the Router reaches: `main` starts the app on a Store whose
records are stored under their own non-empty IDs (as in every map the Store's
own operations build from the empty one), and `appModel.Update` leads from one
state to the next. -/
inductive AppReachable : World → appModel → Prop where
  | start (w : World) : w.store.keyed → AppReachable w (newAppModel w.store)
  | update (env : Env) (msg : Msg) (w w' : World) (m m' : appModel) (cmd : Cmd) :
      AppReachable w m → appModel.Update env w m msg = some (w', m', cmd) → AppReachable w' m'

/-- The ID invariant of the app: the Store's records are stored under their
own IDs, every record of the List is in the Store, and the record under edit
has no ID yet or the ID of a record in the Store. -/
def appModel.idInv (w : World) (m : appModel) : Prop :=
  w.store.keyed ∧
  (∀ t ∈ m.toolList.tools, w.store.tools.lookup t.ID ≠ none) ∧
  (m.toolEditor.tool.ID = "" ∨ w.store.tools.lookup m.toolEditor.tool.ID ≠ none)

/-! ## Sample states -/

/-- A clock reading: 2024-01-01 12:00:00. -/
def noon : Time := ⟨1704110400000000000, 2024, 1, 1, 12, 0, 0⟩

/-- A later reading within the same second. -/
def noonLater : Time := ⟨1704110400700000000, 2024, 1, 1, 12, 0, 0⟩

/-- A world with an empty store, no backing array and no file. -/
def emptyWorld : World := ⟨[], ⟨"../data/tools.json", ∅⟩, File.absent⟩

/-- A candidate record named "Echo". -/
def echoTool : Tool := { Tool.zero with Name := "Echo", Category := "CLI" }

/-- A candidate record named "Grep". -/
def grepTool : Tool := { Tool.zero with Name := "Grep", Category := "CLI" }

/-- A parameter named "path". -/
def pathParam : Parameter := { Parameter.zero with ID := "p1", Name := "path", Type_ := "string" }

/-- A parameter named "depth". -/
def depthParam : Parameter := { Parameter.zero with ID := "p2", Name := "depth", Type_ := "number" }

/-- A stored record with two parameters in the backing array at address 0. -/
def storedTool : Tool :=
  ⟨"20240101120000", "Find", "finds files", "CLI", some ⟨0, 2, 2⟩, "active", noon⟩

/-- A world whose store holds `storedTool`. -/
def oneToolWorld : World :=
  ⟨[[pathParam, depthParam]], ⟨"../data/tools.json", AList.insert storedTool.ID storedTool ∅⟩,
    File.absent⟩

/-- An environment in which the clock stands at `noon`, writes succeed, the
runtime allocates no spare capacity and the library's bound keys change
nothing. -/
def quietEnv : Env :=
  { nowParam := noon, nowGet := noon, nowID := noon, nowMod := noon, spare := 0, save := .ok,
    edit := fun _ v p => (v, p), listIndex := 0, listCmd := [] }

/-- The message of a named key such as "tab" or "ctrl+c". -/
def namedKey (name : String) : Msg := .KeyMsg ⟨.KeyNamed name, [], false, false⟩

/-- The message of a named key pressed with Alt. -/
def altNamedKey (name : String) : Msg := .KeyMsg ⟨.KeyNamed name, [], true, false⟩

/-- The message of a typed character. -/
def runeKey (c : Char) : Msg := .KeyMsg ⟨.KeyRunes, [c], false, false⟩

/-- The message of a character typed with Alt. -/
def altRuneKey (c : Char) : Msg := .KeyMsg ⟨.KeyRunes, [c], true, false⟩

/-- The Enter key. -/
def enterKey : KeyMsg := ⟨.KeyEnter, [], false, false⟩

/-- The Esc key. -/
def escKey : KeyMsg := ⟨.KeyEsc, [], false, false⟩

/-- The Router handling a sequence of messages one after the other, starting
from a world and an app state. -/
def deliver (env : Env) : World × appModel × Cmd → List Msg → Option (World × appModel × Cmd)
  | s, [] => some s
  | s, msg :: rest =>
    match appModel.Update env s.1 s.2.1 msg with
    | none => none
    | some s' => deliver env s' rest

/-- The app as `main` starts it on a world. -/
def startApp (w : World) : World × appModel × Cmd := (w, newAppModel w.store, [])

/-- The parameters of the record stored under `id`, as the Store reads them. -/
def storedParameters (w : World) (id : String) : Option (List Parameter) :=
  (w.store.tools.lookup id).map (fun t => w.heap.readOpt t.Parameters)

/-- The app on an empty store after Enter on the empty List: the Form is the
active view and holds a blank record. -/
def blankFormApp : appModel :=
  { newAppModel emptyWorld.store with toolEditor := newToolEditorModel, currentView := "editor" }

/-- The blank Form with "Echo" as name and "CLI" as category and the focus on
the last field. -/
def echoFormApp : appModel :=
  { blankFormApp with
    toolEditor := { newToolEditorModel with
      nameInput := newToolEditorModel.nameInput.SetValue "Echo"
      categoryInput := newToolEditorModel.categoryInput.SetValue "CLI"
      focused := 2
      inputs := focusOnly newToolEditorModel.inputs 2 } }

/-- The key of the typed character q. -/
def qKey : KeyMsg := ⟨.KeyRunes, ['q'], false, false⟩

/-- The Form handling a sequence of messages one after the other, starting
from a heap and a Form state. -/
def deliverForm (env : Env) :
    Heap × toolEditorModel × Cmd → List Msg → Option (Heap × toolEditorModel × Cmd)
  | s, [] => some s
  | s, msg :: rest =>
    match s.2.1.Update env s.1 msg with
    | none => none
    | some s' => deliverForm env s' rest

/-- The Form opened on `storedTool`. -/
def storedToolForm : toolEditorModel := newToolEditorModelWithTool storedTool

/-- A text input with a character limit holding a text. -/
def typedInput (limit : Int) (text : String) : textinput.Model :=
  ({ textinput.New with CharLimit := limit } : textinput.Model).SetValue text

/-- A name input holding "root". -/
def rootInput : textinput.Model := typedInput 30 "root"

/-- A type input holding "frobnicate". -/
def frobnicateInput : textinput.Model := typedInput 20 "frobnicate"

/-- A description input holding "where to start". -/
def startInput : textinput.Model := typedInput 100 "where to start"

/-- A required input holding "FALSE". -/
def falseInput : textinput.Model := typedInput 5 "FALSE"

/-- The Form opened on `storedTool`, editing its first parameter, with the four
parameter inputs holding "root", "frobnicate", "where to start" and "FALSE". -/
def frobnicateForm : toolEditorModel :=
  { storedToolForm with
    parameterInputs := [rootInput, frobnicateInput, startInput, falseInput]
    editingParameters := true
    currentParameter := 0 }

/-- A parameter whose name has 31 characters. -/
def longNameParam : Parameter :=
  { pathParam with Name := "a_parameter_name_of_31_runes__x" }

/-- The Form opened on a record whose only parameter is `longNameParam`. -/
def longNameForm : toolEditorModel :=
  newToolEditorModelWithTool { storedTool with Parameters := some ⟨0, 1, 1⟩ }

/-- The Form opened on `storedTool` after the edit key alt+e: the sub-editor is
Editing the first parameter. -/
def editingForm : toolEditorModel := storedToolForm.editSelected oneToolWorld.heap

/-- The tab key. -/
def tabKey : KeyMsg := ⟨.KeyNamed "tab", [], false, false⟩

/-- The shift+tab key. -/
def shiftTabKey : KeyMsg := ⟨.KeyNamed "shift+tab", [], false, false⟩

/-- The Form opened on `storedTool` with the help overlay shown. -/
def helpForm : toolEditorModel := { storedToolForm with showParameterHelp := true }

/-- A stored record whose name has 51 characters. -/
def longNameTool : Tool :=
  { storedTool with Name := "a_tool_name_that_is_one_character_beyond_the_limit_" }

/-- A world whose store holds `longNameTool`. -/
def longNameWorld : World :=
  ⟨[[pathParam, depthParam]],
    ⟨"../data/tools.json", AList.insert longNameTool.ID longNameTool ∅⟩, File.absent⟩

/-- An environment like `quietEnv` in which the text input's "home" key moves
the cursor to the start of the text, as the library's key map binds it. -/
def homeEnv : Env :=
  { quietEnv with edit := fun key v p => if key = "home" then (v, 0) else (v, p) }

/-- Three calls on the empty store: a record is added, updated under its ID,
and a record that does not exist is deleted. -/
def sampleOps : List StoreOp :=
  [.add echoTool noon noon .ok,
   .update { grepTool with ID := "20240101120000" } noonLater .ok,
   .delete "missing" .createFails]

/-- The blank Form with a record whose parameter slice is nil. -/
def nilParametersForm : toolEditorModel :=
  { newToolEditorModel with tool := { echoTool with ID := "7" } }

/-- A parameter whose name holds the replacement character U+FFFD between an
a and a b; its type is "string" and its description is empty. -/
def replacementParam : Parameter :=
  { pathParam with Name := String.mk ['a', Char.ofNat 0xFFFD, 'b'] }

/-- The Form opened on `storedTool` after an x is typed into the name and
Enter is pressed twice: the name reads "Findx" and the focus is on the last
field. -/
def findxForm : toolEditorModel :=
  { storedToolForm with
    nameInput := { storedToolForm.nameInput with value := "Findx".toList, focus := false,
                                                 pos := 5 }
    categoryInput := { storedToolForm.categoryInput with focus := true }
    focused := 2
    inputs := [{ storedToolForm.nameInput with value := "Findx".toList, focus := false, pos := 5 },
      storedToolForm.descriptionInput, { storedToolForm.categoryInput with focus := true }]
    tool := { storedTool with Name := "Findx" } }

/-- The app with `findxForm` as the active view, over the List of
`oneToolWorld`. -/
def findxFormApp : appModel :=
  { newAppModel oneToolWorld.store with toolEditor := findxForm, currentView := "editor" }

/-- The keys that lead from the start of the app to `findxFormApp`: Enter on
the List, an x, and Enter on the first and on the second field. -/
def findxKeys : List Msg := [.KeyMsg enterKey, runeKey 'x', .KeyMsg enterKey, .KeyMsg enterKey]

/-! # Lemmas -/

theorem save_store (w : World) (o : SaveOutcome) : (Store.save w o).1.store = w.store := by
  cases o <;> rfl

theorem save_heap (w : World) (o : SaveOutcome) : (Store.save w o).1.heap = w.heap := by
  cases o <;> rfl

theorem appendInt_length (x width : Nat) : width ≤ (appendInt x width).length := by
  simp only [appendInt, String.length_append, String.length_mk, List.length_replicate]
  omega

theorem generateID_ne_empty (now : Time) : generateID now ≠ "" := by
  intro h
  have hl := congrArg String.length h
  have h4 := appendInt_length now.year 4
  simp only [generateID, String.length_append] at hl
  simp at hl
  omega

theorem updateEditorKey_saving (env : Env) (w : World) (m : appModel) (k : KeyMsg) (h : Heap)
    (ed : toolEditorModel) (cmd : Cmd)
    (hup : m.toolEditor.Update env w.heap (Msg.KeyMsg k) = some (h, ed, cmd))
    (hsav : ed.saving = true) :
    m.updateEditorKey env w k = some
      ((if (ed.getTool env.nowGet).ID = "" then
          Store.AddTool { w with heap := h } (ed.getTool env.nowGet) env.nowID env.nowMod env.save
        else (Store.UpdateTool { w with heap := h } (ed.getTool env.nowGet) env.nowMod
          env.save).1),
       { m with
          toolEditor := ed
          toolList := newToolListModel
            (if (ed.getTool env.nowGet).ID = "" then
              Store.AddTool { w with heap := h } (ed.getTool env.nowGet) env.nowID env.nowMod
                env.save
            else (Store.UpdateTool { w with heap := h } (ed.getTool env.nowGet) env.nowMod
              env.save).1).store.GetTools
          currentView := "list" }, []) := by
  simp only [appModel.updateEditorKey, hup, hsav, if_true, toolListModel.RefreshTools,
    newToolListModel]
  rfl

theorem AddTool_empty_GetTools (heap : Heap) (path : String) (disk : File) (r : Tool)
    (idNow modNow : Time) (o : SaveOutcome) :
    ∃ t, (Store.AddTool ⟨heap, ⟨path, ∅⟩, disk⟩ r idNow modNow o).store.GetTools = [t] ∧
      t.Name = r.Name ∧ t.Description = r.Description ∧ t.Category = r.Category ∧
      t.Status = r.Status := by
  by_cases hp : r.Parameters = none <;>
    simp [Store.AddTool, Store.GetTools, hp, save_store, AList.insert_entries]

theorem getTool_fields (m : toolEditorModel) (now : Time) :
    (m.getTool now).ID = m.tool.ID ∧ (m.getTool now).Name = m.nameInput.Value ∧
    (m.getTool now).Description = m.descriptionInput.Value ∧
    (m.getTool now).Category = m.categoryInput.Value := by
  unfold toolEditorModel.getTool
  by_cases hp : m.tool.Parameters = none <;> by_cases hs : m.tool.Status = "" <;> simp [hp, hs]

theorem focusOnly_length (xs : List textinput.Model) (k : Int) :
    (focusOnly xs k).length = xs.length := by
  induction xs generalizing k with
  | nil => rfl
  | cons x xs ih => simp [focusOnly, ih]

theorem textinput_Update_no_quit (env : Env) (i : textinput.Model) (msg : Msg) :
    Effect.Quit ∉ (i.Update env msg).2 := by
  unfold textinput.Model.Update
  cases msg <;> simp
  split_ifs <;> simp

theorem Batch_no_quit (cs : List Cmd) (h : ∀ c ∈ cs, Effect.Quit ∉ c) :
    Effect.Quit ∉ Batch cs := by
  simp only [Batch, List.mem_flatten, not_exists, not_and]
  intro c hc
  exact h c hc

theorem Batch_Update_no_quit (env : Env) (xs : List textinput.Model) (msg : Msg) :
    Effect.Quit ∉ Batch ((xs.map (fun i => i.Update env msg)).map Prod.snd) := by
  apply Batch_no_quit
  intro c hc
  simp only [List.map_map, List.mem_map, Function.comp] at hc
  obtain ⟨i, _, rfl⟩ := hc
  exact textinput_Update_no_quit env i msg

theorem syncInputs_total (m : toolEditorModel) (hlen : m.inputs.length = 3) :
    ∃ m', m.syncInputs = some m' ∧ m'.saving = m.saving := by
  unfold toolEditorModel.syncInputs
  match hm : m.inputs, hlen with
  | [a, b, c], _ => exact ⟨_, rfl, rfl⟩

theorem updateAllInputs_total (env : Env) (m : toolEditorModel) (msg : Msg)
    (hlen : m.inputs.length = 3) :
    ∃ m' cmd, m.updateAllInputs env msg = some (m', cmd) ∧ m'.saving = m.saving ∧
      Effect.Quit ∉ cmd := by
  unfold toolEditorModel.updateAllInputs
  obtain ⟨m', hm', hs⟩ := syncInputs_total
    { m with inputs := (m.inputs.map (fun i => i.Update env msg)).map Prod.fst }
    (by simp [hlen])
  simp only [hm']
  exact ⟨_, _, rfl, hs, Batch_Update_no_quit env m.inputs msg⟩

theorem updateEditing_no_quit (env : Env) (h : Heap) (m : toolEditorModel) (k : KeyMsg) :
    Effect.Quit ∉ (m.updateEditing env h k).2.2 := by
  unfold toolEditorModel.updateEditing
  split_ifs <;> first
    | exact Batch_Update_no_quit env m.parameterInputs (Msg.KeyMsg k)
    | simp

theorem syncInputs_map_total (h : Heap) (m : toolEditorModel) (hlen : m.inputs.length = 3) :
    ∃ r, (m.syncInputs).map (fun m => (h, m, ([] : Cmd))) = some r ∧
      (Effect.Quit ∈ r.2.2 → r.2.1.saving = true) := by
  obtain ⟨m', hm', _⟩ := syncInputs_total m hlen
  exact ⟨_, by rw [hm']; rfl, by simp⟩

theorem updateDefault_total (env : Env) (h : Heap) (m : toolEditorModel) (k : KeyMsg)
    (hlen : m.inputs.length = 3) :
    ∃ r, m.updateDefault env h k = some r ∧ (Effect.Quit ∈ r.2.2 → r.2.1.saving = true) := by
  unfold toolEditorModel.updateDefault
  split_ifs with h1 h2 h3 h4 h5 h6
  · exact ⟨_, rfl, by simp⟩
  · exact ⟨_, rfl, by simp⟩
  · exact ⟨_, rfl, by simp⟩
  · exact ⟨_, rfl, by simp⟩
  · exact ⟨_, rfl, by simp⟩
  · apply syncInputs_map_total
    split_ifs <;> simp [focusOnly_length, hlen]
  · obtain ⟨m', cmd, hm', _, hq⟩ := updateAllInputs_total env m (Msg.KeyMsg k) hlen
    exact ⟨_, by rw [hm']; rfl, fun hc => absurd hc hq⟩

theorem updateSwitch_total (env : Env) (h : Heap) (m : toolEditorModel) (k : KeyMsg)
    (hlen : m.inputs.length = 3) (hk : k.String ≠ "ctrl+c") :
    ∃ r, m.updateSwitch env h k = some r ∧ (Effect.Quit ∈ r.2.2 → r.2.1.saving = true) := by
  unfold toolEditorModel.updateSwitch
  rw [if_neg hk]
  split_ifs
  any_goals exact ⟨_, rfl, by simp⟩
  · apply syncInputs_map_total
    simp only [focusOnly_length]
    split_ifs <;> exact hlen
  · apply syncInputs_map_total
    simp only [focusOnly_length]
    split_ifs <;> exact hlen
  · exact updateDefault_total env h m k hlen

theorem editor_Update_quits (env : Env) (h : Heap) (m : toolEditorModel) (k : KeyMsg)
    (hhelp : m.showParameterHelp = false) (hedit : m.editingParameters = false)
    (hq : k.String = "ctrl+c" ∨
      (k.String = "q" ∧ ∃ input, indexInt m.inputs m.focused = some input ∧ input.focus = false)) :
    m.Update env h (Msg.KeyMsg k) = some (h, m, [Effect.Quit]) := by
  unfold toolEditorModel.Update
  rcases hq with hc | ⟨hq, input, hi, hf⟩
  · have hne : k.String ≠ "q" := by rw [hc]; decide
    simp [hhelp, hedit, hne, toolEditorModel.updateSwitch, hc]
  · simp [hhelp, hedit, hq, hi, textinput.Model.Focused, hf]

theorem editor_Update_total (env : Env) (h : Heap) (m : toolEditorModel) (k : KeyMsg)
    (hlen : m.inputs.length = 3)
    (hfoc : m.editingParameters = false → 0 ≤ m.focused ∧ m.focused < 3)
    (hq : ¬ (m.showParameterHelp = false ∧ m.editingParameters = false ∧
      (k.String = "ctrl+c" ∨
        (k.String = "q" ∧
          ∃ input, indexInt m.inputs m.focused = some input ∧ input.focus = false)))) :
    ∃ r, m.Update env h (Msg.KeyMsg k) = some r ∧
      (Effect.Quit ∈ r.2.2 → r.2.1.saving = true) := by
  unfold toolEditorModel.Update
  simp only []
  by_cases hhelp : m.showParameterHelp = true
  · simp only [hhelp, if_true]
    split_ifs <;> exact ⟨_, rfl, by simp⟩
  · by_cases hedit : m.editingParameters = true
    · simp only [hhelp, hedit, if_true]
      exact ⟨_, rfl, fun hc => absurd hc (updateEditing_no_quit env h m k)⟩
    · simp only [Bool.not_eq_true] at hhelp hedit
      have hf := hfoc hedit
      have hq' : ¬ (k.String = "ctrl+c" ∨
          (k.String = "q" ∧
            ∃ input, indexInt m.inputs m.focused = some input ∧ input.focus = false)) :=
        fun hc => hq ⟨hhelp, hedit, hc⟩
      have hk : k.String ≠ "ctrl+c" := fun hc => hq' (Or.inl hc)
      simp only [hhelp, hedit, Bool.false_eq_true, if_false]
      by_cases hkq : k.String = "q"
      · simp only [hkq, if_true]
        have hidx : ∃ input, indexInt m.inputs m.focused = some input := by
          unfold indexInt
          rw [if_neg (by omega)]
          have : m.focused.toNat < m.inputs.length := by omega
          exact ⟨_, List.getElem?_eq_getElem this⟩
        obtain ⟨input, hi⟩ := hidx
        have hfocus : input.focus = true := by
          by_contra hne
          exact hq' (Or.inr ⟨hkq, input, hi, by simpa using hne⟩)
        simp only [hi, textinput.Model.Focused, hfocus]
        simpa [hkq] using updateSwitch_total env h m k hlen hk
      · simp only [hkq, if_false]
        exact updateSwitch_total env h m k hlen hk

theorem updateEditorKey_cmd (env : Env) (w : World) (m : appModel) (k : KeyMsg) (h : Heap)
    (ed : toolEditorModel) (cmd : Cmd)
    (hup : m.toolEditor.Update env w.heap (Msg.KeyMsg k) = some (h, ed, cmd)) :
    ∃ w' m' c, m.updateEditorKey env w k = some (w', m', c) ∧
      (Effect.Quit ∈ c ↔ ed.saving = false ∧ k.String ≠ "esc" ∧ Effect.Quit ∈ cmd) := by
  unfold appModel.updateEditorKey
  simp only [hup]
  by_cases hs : ed.saving = true
  · simp only [hs, if_true]
    exact ⟨_, _, _, rfl, by simp⟩
  · simp only [hs, Bool.false_eq_true, if_false]
    have hs' : ed.saving = false := by simpa using hs
    by_cases he : k.String = "esc"
    · simp only [he, if_true]
      exact ⟨_, _, _, rfl, by simp⟩
    · simp only [he, if_false]
      by_cases hc : cmd = []
      · subst hc
        simp only [ne_eq, not_true_eq_false, if_false]
        split_ifs <;> exact ⟨_, _, _, rfl, by simp⟩
      · simp only [ne_eq, hc, not_false_eq_true, if_true]
        exact ⟨_, _, _, rfl, by simp [hs', he]⟩

theorem read_length (h : Heap) (s : Slice) (hv : s.within h) : (h.read s).length = s.len := by
  unfold Heap.read
  rw [List.length_take]
  have := hv.1
  have := hv.2
  omega

theorem getD_modify (h : Heap) (g : List Parameter → List Parameter) (p : Nat)
    (hg : g [] = []) : (h.modify g p).getD p [] = g (h.getD p []) := by
  simp only [List.getD_eq_getElem?_getD, List.getElem?_modify_eq]
  cases h[p]? <;> simp [hg]

theorem read_modifyAt (h : Heap) (s : Slice) (i : Nat) (f : Parameter → Parameter) :
    (h.modifyAt s i f).read s = (h.read s).modify f i := by
  unfold Heap.modifyAt Heap.read
  rw [getD_modify _ _ _ (by simp), List.take_modify]

theorem take_succ_set (arr : List Parameter) (n : Nat) (x : Parameter) (hn : n < arr.length) :
    (arr.set n x).take (n + 1) = arr.take n ++ [x] := by
  rw [List.set_eq_take_append_cons_drop, if_pos hn]
  have hl : (arr.take n).length = n := List.length_take_of_le (Nat.le_of_lt hn)
  rw [List.take_append_eq_append_take, hl, List.take_of_length_le (by omega)]
  simp

theorem getD_append_length (h : Heap) (arr : List Parameter) :
    (h ++ [arr]).getD h.length [] = arr := by
  simp

theorem read_append (h : Heap) (spare : Nat) (s : Option Slice) (x : Parameter)
    (hv : ∀ s', s = some s' → s'.within h) :
    (h.append spare s x).1.read (h.append spare s x).2 = h.readOpt s ++ [x] ∧
    (h.append spare s x).2.len = sliceLen s + 1 ∧
    (h.append spare s x).2.within (h.append spare s x).1 := by
  cases s with
  | none =>
    simp [Heap.append, Heap.read, Heap.readOpt, sliceLen, Slice.within]
    omega
  | some s =>
    have hw := hv s rfl
    have hrl := read_length h s hw
    simp only [Heap.append, Heap.readOpt, sliceLen]
    split_ifs with hlt
    · have hlen : s.len < (h.getD s.ptr []).length := lt_of_lt_of_le hlt hw.2
      refine ⟨?_, rfl, ?_⟩
      · simp only [Heap.read]
        rw [getD_modify _ _ _ (by simp), take_succ_set _ _ _ hlen]
      · simp only [Slice.within]
        rw [getD_modify _ _ _ (by simp)]
        simp only [List.length_set]
        exact ⟨hlt, hw.2⟩
    · refine ⟨?_, rfl, ?_⟩
      · generalize h.read s = r at hrl
        simp only [Heap.read, getD_append_length]
        exact List.take_left' (by simp [hrl])
      · generalize h.read s = r at hrl
        simp only [Slice.within, getD_append_length]
        simp [hrl]
        omega

theorem read_removeAt (h : Heap) (s : Slice) (i : Nat) (hv : s.within h) (hi : i < s.len) :
    (h.removeAt s i).1.read (h.removeAt s i).2 = (h.read s).eraseIdx i ∧
    (h.removeAt s i).2.within (h.removeAt s i).1 := by
  have hl : s.len ≤ (h.getD s.ptr []).length := le_trans hv.1 hv.2
  simp only [Heap.removeAt, Heap.read, Slice.within]
  rw [getD_modify _ _ _ (by simp)]
  constructor
  · rw [List.eraseIdx_eq_take_drop_succ, List.take_take, Nat.min_eq_left (Nat.le_of_lt hi)]
    have h1 : (List.take i (h.getD s.ptr []) ++
        List.drop (i + 1) (List.take s.len (h.getD s.ptr []))).length = s.len - 1 := by
      simp only [List.length_append, List.length_take, List.length_drop]
      omega
    rw [List.take_append_eq_append_take, h1, List.take_of_length_le (by omega)]
    simp
  · simp only [List.length_append, List.length_take, List.length_drop, Nat.min_eq_left hl]
    have := hv.1
    have := hv.2
    omega

theorem read_shorten (h : Heap) (s : Slice) (hv : s.within h) (hpos : 0 < s.len) :
    h.read { s with len := s.len - 1 } = (h.read s).eraseIdx (s.len - 1) := by
  have hl : s.len ≤ (h.getD s.ptr []).length := le_trans hv.1 hv.2
  simp only [Heap.read]
  rw [List.eraseIdx_eq_take_drop_succ, List.take_take, Nat.min_eq_left (Nat.sub_le _ _)]
  have : s.len - 1 + 1 = s.len := by omega
  rw [this, List.drop_of_length_le (by simp), List.append_nil]

theorem AddTool_outcome (w : World) (tool : Tool) (idNow modNow : Time) (o o' : SaveOutcome) :
    (Store.AddTool w tool idNow modNow o).store = (Store.AddTool w tool idNow modNow o').store ∧
    (Store.AddTool w tool idNow modNow o).heap = (Store.AddTool w tool idNow modNow o').heap := by
  simp only [Store.AddTool, save_store, save_heap, and_self]

theorem UpdateTool_outcome (w : World) (tool : Tool) (modNow : Time) (o o' : SaveOutcome) :
    (Store.UpdateTool w tool modNow o).2 = (Store.UpdateTool w tool modNow o').2 ∧
    (Store.UpdateTool w tool modNow o).1.store = (Store.UpdateTool w tool modNow o').1.store ∧
    (Store.UpdateTool w tool modNow o).1.heap = (Store.UpdateTool w tool modNow o').1.heap := by
  unfold Store.UpdateTool
  cases w.store.tools.lookup tool.ID <;> simp [save_store, save_heap]

theorem DeleteTool_outcome (w : World) (id : String) (o o' : SaveOutcome) :
    (Store.DeleteTool w id o).2 = (Store.DeleteTool w id o').2 ∧
    (Store.DeleteTool w id o).1.store = (Store.DeleteTool w id o').1.store ∧
    (Store.DeleteTool w id o).1.heap = (Store.DeleteTool w id o').1.heap := by
  unfold Store.DeleteTool
  cases w.store.tools.lookup id <;> simp [save_store, save_heap]

theorem editor_Update_save (env : Env) (o : SaveOutcome) (h : Heap) (m : toolEditorModel)
    (msg : Msg) :
    toolEditorModel.Update { env with save := o } h m msg = toolEditorModel.Update env h m msg :=
  rfl

theorem updateEditorKey_outcome (env : Env) (o : SaveOutcome) (w : World) (m : appModel)
    (k : KeyMsg) :
    (m.updateEditorKey { env with save := o } w k).map (fun r => (r.1.store, r.1.heap, r.2)) =
      (m.updateEditorKey env w k).map (fun r => (r.1.store, r.1.heap, r.2)) := by
  unfold appModel.updateEditorKey
  rw [editor_Update_save]
  cases m.toolEditor.Update env w.heap (Msg.KeyMsg k) with
  | none => rfl
  | some r =>
    obtain ⟨h, ed, cmd⟩ := r
    by_cases hs : ed.saving = true
    · simp only [hs, if_true, Option.map_some', Option.some.injEq, Prod.mk.injEq]
      by_cases hid : (ed.getTool env.nowGet).ID = ""
      · have ha := AddTool_outcome { w with heap := h } (ed.getTool env.nowGet) env.nowID
          env.nowMod o env.save
        simp only [hid, if_true, ha.1, ha.2, and_self]
      · have hu := UpdateTool_outcome { w with heap := h } (ed.getTool env.nowGet)
          env.nowMod o env.save
        simp only [hid, if_false, hu.2.1, hu.2.2, and_self]
    · simp only [hs]
      rfl

theorem Router_outcome (env : Env) (o : SaveOutcome) (w : World) (m : appModel) (msg : Msg) :
    (appModel.Update { env with save := o } w m msg).map (fun r => (r.1.store, r.1.heap, r.2)) =
      (appModel.Update env w m msg).map (fun r => (r.1.store, r.1.heap, r.2)) := by
  cases msg with
  | WindowSizeMsg width height => rfl
  | RefreshToolsMsg => rfl
  | KeyMsg k =>
    unfold appModel.Update
    by_cases hv : m.currentView = "editor"
    · simp only [hv, if_true]
      exact updateEditorKey_outcome env o w m k
    · simp only [hv, if_false]
      rfl

theorem saveParameter_eq (h : Heap) (m : toolEditorModel) (s : Slice)
    (i0 i1 i2 i3 : textinput.Model) (rest : List textinput.Model)
    (hin : m.parameterInputs = i0 :: i1 :: i2 :: i3 :: rest)
    (hs : m.tool.Parameters = some s)
    (h0 : 0 ≤ m.currentParameter) (h1 : m.currentParameter < s.len) :
    m.saveParameter h =
      (h.modifyAt s m.currentParameter.toNat (fun p =>
          { p with Name := i0.Value,
                   Type_ := if ParameterTypes.contains i1.Value then i1.Value else "string",
                   Description := i2.Value,
                   Required := if ToLower i3.Value = "false" then false else true }),
        { m with
          editingParameters := false
          parameterChanged := true
          focused := 0
          inputs := focusOnly m.inputs 0 }) := by
  unfold toolEditorModel.saveParameter
  have hg : ¬ ((m.parameterInputs.length : Int) < 4 ∨ m.currentParameter < 0 ∨
      m.currentParameter ≥ (sliceLen m.tool.Parameters : Int)) := by
    simp only [hin, hs, sliceLen, List.length_cons]
    omega
  rw [if_neg hg]
  simp only [hin, hs]

theorem saveParameter_read (h : Heap) (m : toolEditorModel) (s : Slice)
    (i0 i1 i2 i3 : textinput.Model) (rest : List textinput.Model)
    (hin : m.parameterInputs = i0 :: i1 :: i2 :: i3 :: rest)
    (hs : m.tool.Parameters = some s)
    (h0 : 0 ≤ m.currentParameter) (h1 : m.currentParameter < s.len) :
    (m.saveParameter h).1.readOpt (m.saveParameter h).2.tool.Parameters =
      (h.readOpt m.tool.Parameters).modify (fun p =>
          { p with Name := i0.Value,
                   Type_ := if ParameterTypes.contains i1.Value then i1.Value else "string",
                   Description := i2.Value,
                   Required := if ToLower i3.Value = "false" then false else true })
        m.currentParameter.toNat := by
  rw [saveParameter_eq h m s i0 i1 i2 i3 rest hin hs h0 h1]
  simp only [hs, Heap.readOpt, read_modifyAt]

theorem getElem?_read (h : Heap) (s : Slice) (hv : s.within h) (i : Nat) (hi : i < s.len) :
    ∃ p, (h.read s)[i]? = some p := by
  have hl := read_length h s hv
  exact ⟨_, List.getElem?_eq_getElem (by omega)⟩

theorem contains_iff_mem (l : List String) (t : String) : l.contains t = true ↔ t ∈ l := by
  simp [List.contains]

theorem coerced_type_mem (t : String) :
    (if ParameterTypes.contains t then t else "string") ∈ ParameterTypes := by
  by_cases ht : ParameterTypes.contains t = true
  · rw [if_pos ht]
    exact (contains_iff_mem _ _).mp ht
  · rw [if_neg ht]
    decide

theorem coerced_type_eq (t : String) :
    (if ParameterTypes.contains t then t else "string") =
      (if t ∈ ParameterTypes then t else "string") := by
  by_cases ht : t ∈ ParameterTypes
  · rw [if_pos ht, if_pos ((contains_iff_mem _ _).mpr ht)]
  · rw [if_neg ht, if_neg (fun hc => ht ((contains_iff_mem _ _).mp hc))]

theorem mem_modify (l : List Parameter) (f : Parameter → Parameter) (i : Nat) (p : Parameter)
    (hp : p ∈ l.modify f i) : p ∈ l ∨ ∃ q ∈ l, p = f q := by
  obtain ⟨j, hj⟩ := List.mem_iff_getElem?.mp hp
  rw [List.getElem?_modify] at hj
  cases hq : l[j]? with
  | none => simp [hq] at hj
  | some q =>
    have hql : q ∈ l := List.mem_iff_getElem?.mpr ⟨j, hq⟩
    simp only [hq, Option.map_eq_map, Option.map_some', Option.some.injEq] at hj
    by_cases hij : i = j
    · right
      exact ⟨q, hql, by simpa [hij] using hj.symm⟩
    · left
      simp only [hij, if_false] at hj
      exact hj ▸ hql

theorem runeToLower_eq_iff (c x : Char) (hx : x ∈ ['f', 'a', 'l', 's', 'e']) :
    runeToLower c = x ↔ c.toLower = x := by
  unfold runeToLower
  by_cases h1 : c = Char.ofNat 0x212A
  · subst h1
    simp only [List.mem_cons, List.mem_singleton, List.not_mem_nil, or_false] at hx
    rcases hx with rfl | rfl | rfl | rfl | rfl <;> decide
  · by_cases h2 : c = Char.ofNat 0x130
    · subst h2
      simp only [List.mem_cons, List.mem_singleton, List.not_mem_nil, or_false] at hx
      rcases hx with rfl | rfl | rfl | rfl | rfl <;> decide
    · rw [if_neg h1, if_neg h2]

theorem map_runeToLower_eq_iff (l t : List Char) (ht : ∀ x ∈ t, x ∈ ['f', 'a', 'l', 's', 'e']) :
    l.map runeToLower = t ↔ l.map Char.toLower = t := by
  induction l generalizing t with
  | nil => simp
  | cons c l ih =>
    cases t with
    | nil => simp
    | cons x t =>
      simp only [List.map_cons, List.cons.injEq]
      rw [runeToLower_eq_iff c x (ht x (List.mem_cons_self _ _)),
        ih t (fun y hy => ht y (List.mem_cons_of_mem _ hy))]

theorem ToLower_eq_false_iff (text : String) :
    ToLower text = "false" ↔ text.data.map Char.toLower = ['f', 'a', 'l', 's', 'e'] := by
  unfold ToLower
  rw [← map_runeToLower_eq_iff _ _ (fun x hx => hx)]
  constructor
  · intro h
    have := congrArg String.data h
    simpa using this
  · intro h
    rw [h]

theorem syncInputs_flags (m m' : toolEditorModel) (hm : m.syncInputs = some m') :
    m'.showParameterHelp = m.showParameterHelp ∧ m'.editingParameters = m.editingParameters := by
  unfold toolEditorModel.syncInputs at hm
  split at hm
  · simp only [Option.some.injEq] at hm
    subst hm
    exact ⟨rfl, rfl⟩
  · exact absurd hm (by simp)

theorem syncInputs_map_flags (h h' : Heap) (m m' : toolEditorModel) (c c' : Cmd)
    (hm : (m.syncInputs).map (fun m => (h, m, c)) = some (h', m', c')) :
    m'.showParameterHelp = m.showParameterHelp ∧ m'.editingParameters = m.editingParameters := by
  cases hs : m.syncInputs with
  | none => simp [hs] at hm
  | some m'' =>
    simp only [hs, Option.map_some', Option.some.injEq, Prod.mk.injEq] at hm
    obtain ⟨_, rfl, _⟩ := hm
    exact syncInputs_flags m m'' hs

theorem updateAllInputs_flags (env : Env) (m m' : toolEditorModel) (msg : Msg) (c : Cmd)
    (hm : m.updateAllInputs env msg = some (m', c)) :
    m'.showParameterHelp = m.showParameterHelp ∧ m'.editingParameters = m.editingParameters := by
  unfold toolEditorModel.updateAllInputs at hm
  simp only at hm
  split at hm
  · exact absurd hm (by simp)
  · next m'' hs =>
    simp only [Option.some.injEq, Prod.mk.injEq] at hm
    obtain ⟨rfl, _⟩ := hm
    have hf := syncInputs_flags _ m'' hs
    exact hf

theorem saveParameter_help (h : Heap) (m : toolEditorModel) :
    (m.saveParameter h).2.showParameterHelp = m.showParameterHelp := by
  unfold toolEditorModel.saveParameter
  split_ifs
  · rfl
  · split <;> rfl

theorem updateEditing_help (env : Env) (h : Heap) (m : toolEditorModel) (k : KeyMsg) :
    (m.updateEditing env h k).2.1.showParameterHelp = m.showParameterHelp := by
  unfold toolEditorModel.updateEditing
  split_ifs <;> first | rfl | exact saveParameter_help h m | (simp only []; split_ifs <;> rfl)

theorem editParameter_help (h : Heap) (m : toolEditorModel) (i : Int) :
    (m.editParameter h i).showParameterHelp = m.showParameterHelp := by
  unfold toolEditorModel.editParameter
  split_ifs <;> rfl

theorem editSelected_help (h : Heap) (m : toolEditorModel) :
    (m.editSelected h).showParameterHelp = m.showParameterHelp := by
  unfold toolEditorModel.editSelected
  split_ifs
  · exact editParameter_help h m _
  · exact editParameter_help h _ _
  · rfl

theorem deleteParameter_help (h : Heap) (m : toolEditorModel) (i : Int) :
    (m.deleteParameter h i).2.showParameterHelp = m.showParameterHelp := by
  unfold toolEditorModel.deleteParameter
  split_ifs
  · rfl
  · split
    · rfl
    · simp only []
      split_ifs <;> rfl

theorem deleteSelected_help (h : Heap) (m : toolEditorModel) :
    (m.deleteSelected h).2.showParameterHelp = m.showParameterHelp := by
  unfold toolEditorModel.deleteSelected
  split_ifs
  · exact deleteParameter_help h m _
  · rfl

theorem updateDefault_inv (env : Env) (h h' : Heap) (m m' : toolEditorModel) (k : KeyMsg)
    (c : Cmd) (hh : m.showParameterHelp = false) (he : m.editingParameters = false)
    (hr : m.updateDefault env h k = some (h', m', c)) :
    m'.showParameterHelp = true → m'.editingParameters = false := by
  have hadd : (m.addNewParameter env h).2.showParameterHelp = m.showParameterHelp := rfl
  unfold toolEditorModel.updateDefault at hr
  split_ifs at hr <;> first
    | (have hf := syncInputs_map_flags _ _ _ _ _ _ hr
       intro _
       rw [hf.2]
       first
       | exact he
       | (simp only []; split_ifs <;> exact he))
    | (cases hu : m.updateAllInputs env (Msg.KeyMsg k) with
       | none => simp [hu] at hr
       | some r =>
         obtain ⟨m'', c''⟩ := r
         simp only [hu, Option.map_some', Option.some.injEq, Prod.mk.injEq] at hr
         obtain ⟨_, rfl, _⟩ := hr
         intro _
         rw [(updateAllInputs_flags env m m'' _ c'' hu).2]
         exact he)
    | (simp only [Option.some.injEq, Prod.mk.injEq] at hr
       obtain ⟨_, rfl, _⟩ := hr
       intro hc
       first
       | exact he
       | (rw [editSelected_help, hh] at hc; exact absurd hc (by decide))
       | (rw [deleteSelected_help, hh] at hc; exact absurd hc (by decide))
       | (rw [hadd, hh] at hc; exact absurd hc (by decide)))

theorem updateSwitch_inv (env : Env) (h h' : Heap) (m m' : toolEditorModel) (k : KeyMsg)
    (c : Cmd) (hh : m.showParameterHelp = false) (he : m.editingParameters = false)
    (hr : m.updateSwitch env h k = some (h', m', c)) :
    m'.showParameterHelp = true → m'.editingParameters = false := by
  have hadd : (m.addNewParameter env h).2.showParameterHelp = m.showParameterHelp := rfl
  unfold toolEditorModel.updateSwitch at hr
  split_ifs at hr <;> first
    | exact updateDefault_inv env h h' m m' k c hh he hr
    | (have hf := syncInputs_map_flags _ _ _ _ _ _ hr
       intro _
       rw [hf.2]
       first
       | exact he
       | (simp only []; split_ifs <;> exact he))
    | (simp only [Option.some.injEq, Prod.mk.injEq] at hr
       obtain ⟨_, rfl, _⟩ := hr
       intro hc
       first
       | exact he
       | (split_ifs <;> exact he)
       | (rw [editSelected_help, hh] at hc; exact absurd hc (by decide))
       | (rw [deleteSelected_help, hh] at hc; exact absurd hc (by decide))
       | (rw [hadd, hh] at hc; exact absurd hc (by decide)))

theorem Update_inv (env : Env) (h h' : Heap) (m m' : toolEditorModel) (msg : Msg) (c : Cmd)
    (hinv : m.showParameterHelp = true → m.editingParameters = false)
    (hr : m.Update env h msg = some (h', m', c)) :
    m'.showParameterHelp = true → m'.editingParameters = false := by
  unfold toolEditorModel.Update at hr
  cases msg with
  | WindowSizeMsg width height =>
    have hf := syncInputs_map_flags _ _ _ _ _ _ hr
    intro hc
    rw [hf.1] at hc
    rw [hf.2]
    exact hinv hc
  | RefreshToolsMsg =>
    simp only at hr
    cases hu : m.updateAllInputs env Msg.RefreshToolsMsg with
    | none => simp [hu] at hr
    | some r =>
      obtain ⟨m'', c''⟩ := r
      simp only [hu, Option.map_some', Option.some.injEq, Prod.mk.injEq] at hr
      obtain ⟨_, rfl, _⟩ := hr
      have hf := updateAllInputs_flags env m m'' _ c'' hu
      intro hc
      rw [hf.1] at hc
      rw [hf.2]
      exact hinv hc
  | KeyMsg k =>
    simp only at hr
    by_cases hh : m.showParameterHelp = true
    · simp only [hh, if_true] at hr
      split_ifs at hr <;>
        (simp only [Option.some.injEq, Prod.mk.injEq] at hr
         obtain ⟨_, rfl, _⟩ := hr
         first
         | (intro hc; simp at hc)
         | exact hinv)
    · have hh' : m.showParameterHelp = false := by simpa using hh
      simp only [hh', Bool.false_eq_true, if_false] at hr
      by_cases he : m.editingParameters = true
      · simp only [he, if_true, Option.some.injEq] at hr
        intro hc
        have := updateEditing_help env h m k
        rw [hr] at this
        simp only at this
        rw [this, hh'] at hc
        exact absurd hc (by decide)
      · have he' : m.editingParameters = false := by simpa using he
        simp only [he', Bool.false_eq_true, if_false] at hr
        split_ifs at hr
        · split at hr
          · exact absurd hr (by simp)
          · split_ifs at hr
            · simp only [Option.some.injEq, Prod.mk.injEq] at hr
              obtain ⟨_, rfl, _⟩ := hr
              intro _
              exact he'
            · exact updateSwitch_inv env h h' m m' k c hh' he' hr
        · exact updateSwitch_inv env h h' m m' k c hh' he' hr

theorem FormReachable_inv (h : Heap) (m : toolEditorModel) (hr : FormReachable h m) :
    m.showParameterHelp = true → m.editingParameters = false := by
  induction hr with
  | new h => intro hc; exact absurd hc (by decide)
  | withTool h tool =>
    intro _
    unfold newToolEditorModelWithTool
    simp only []
    split_ifs <;> rfl
  | update env msg h h' m m' cmd _ hup ih => exact Update_inv env h h' m m' msg cmd ih hup

theorem saveParameter_guard (h : Heap) (m : toolEditorModel)
    (hg : (m.parameterInputs.length : Int) < 4 ∨ m.currentParameter < 0 ∨
      (sliceLen m.tool.Parameters : Int) ≤ m.currentParameter) :
    m.saveParameter h = (h, m) := by
  unfold toolEditorModel.saveParameter
  rw [if_pos hg]

theorem newToolEditorModelWithTool_closed (tool : Tool) :
    (newToolEditorModelWithTool tool).parameterInputs = [] ∧
    (newToolEditorModelWithTool tool).editingParameters = false ∧
    (newToolEditorModelWithTool tool).showParameterHelp = false := by
  unfold newToolEditorModelWithTool
  simp only []
  split_ifs <;> exact ⟨rfl, rfl, rfl⟩

theorem deleteParameter_read (h : Heap) (m : toolEditorModel) (s : Slice) (i : Int)
    (hs : m.tool.Parameters = some s) (hv : s.within h) (h0 : 0 ≤ i) (h1 : i < s.len) :
    (m.deleteParameter h i).1.readOpt (m.deleteParameter h i).2.tool.Parameters =
      (h.readOpt m.tool.Parameters).eraseIdx i.toNat ∧
    sliceLen (m.deleteParameter h i).2.tool.Parameters = s.len - 1 ∧
    (m.deleteParameter h i).2.selectedParamIndex =
      (if m.selectedParamIndex ≥ (s.len : Int) - 1 then (s.len : Int) - 2
        else m.selectedParamIndex) := by
  have hg : ¬ (i < 0 ∨ i ≥ (sliceLen m.tool.Parameters : Int)) := by
    simp only [hs, sliceLen]
    omega
  unfold toolEditorModel.deleteParameter
  rw [if_neg hg]
  simp only [hs]
  by_cases hlast : i = (s.len : Int) - 1
  · have hi : i.toNat = s.len - 1 := by omega
    simp only [hlast, if_true, Heap.readOpt, sliceLen]
    refine ⟨?_, ?_, ?_⟩
    · split_ifs <;> (simp only []; rw [← hlast, hi]; exact read_shorten h s hv (by omega))
    · split_ifs <;> (simp only []; omega)
    · split_ifs <;> (simp only []; try omega)
  · have hi : i.toNat < s.len := by omega
    have hr := read_removeAt h s i.toNat hv hi
    simp only [hlast, if_false, Heap.readOpt, sliceLen]
    refine ⟨?_, ?_, ?_⟩
    · split_ifs <;> exact hr.1
    · split_ifs <;> rfl
    · simp only [Heap.removeAt]
      split_ifs <;> (simp only []; try omega)

theorem createParameterInputs_new (p : Parameter) :
    (createParameterInputs p true).map textinput.Model.Value = ["", "string", "", "true"] := by
  unfold createParameterInputs
  simp only [Bool.not_true, Bool.false_eq_true, if_false]
  decide

theorem addNewParameter_read (env : Env) (h : Heap) (m : toolEditorModel)
    (hv : ∀ s, m.tool.Parameters = some s → s.within h) :
    (m.addNewParameter env h).1.readOpt (m.addNewParameter env h).2.tool.Parameters =
      h.readOpt m.tool.Parameters ++
        [{ ID := "p" ++ toString env.nowParam.unixNano, Name := "", Type_ := "string",
           Description := "", Required := true, Default := none, Options := none,
           Min := none, Max := none }] ∧
    (m.addNewParameter env h).2.currentParameter = (h.readOpt m.tool.Parameters).length := by
  have ha := read_append h env.spare m.tool.Parameters
    { ID := "p" ++ toString env.nowParam.unixNano, Name := "", Type_ := "string",
      Description := "", Required := true, Default := none, Options := none,
      Min := none, Max := none } hv
  unfold toolEditorModel.addNewParameter
  simp only [Heap.readOpt]
  refine ⟨ha.1, ?_⟩
  rw [ha.2.1]
  cases hs : m.tool.Parameters with
  | none => simp [sliceLen, Heap.readOpt]
  | some s =>
    have := read_length h s (hv s hs)
    simp [sliceLen, Heap.readOpt, this]

theorem Update_alt_p (env : Env) (h : Heap) (m : toolEditorModel) (k : KeyMsg)
    (hk : k.String = "alt+p") (hhelp : m.showParameterHelp = false)
    (hedit : m.editingParameters = false) :
    m.Update env h (Msg.KeyMsg k) =
      some ((m.addNewParameter env h).1, (m.addNewParameter env h).2, []) := by
  simp [toolEditorModel.Update, toolEditorModel.updateSwitch, hhelp, hedit, hk]

theorem SetValue_value (m : textinput.Model) (text : String) (hl : 0 < m.CharLimit) :
    (m.SetValue text).value = (textinput.Sanitize text.data).take m.CharLimit.toNat ∧
    (m.SetValue text).focus = m.focus := by
  refine ⟨?_, rfl⟩
  unfold textinput.Model.SetValue textinput.Model.setValueInternal
  simp only [hl, true_and]
  split_ifs with hlt
  · rfl
  · rw [List.take_of_length_le]
    omega

theorem take_data_fits (text : String) (limit : Nat)
    (hs : textinput.Sanitize text.data = text.data) (hl : text.length ≤ limit) :
    String.mk ((textinput.Sanitize text.data).take limit) = text := by
  have hl' : text.data.length ≤ limit := hl
  rw [hs, List.take_of_length_le hl']

theorem createParameterInputs_edit (p : Parameter) :
    (focusOnly (createParameterInputs p false) 0).map (fun x => x.value) =
      [(textinput.Sanitize p.Name.data).take 30, (textinput.Sanitize p.Type_.data).take 20,
       (textinput.Sanitize p.Description.data).take 100, (FormatBool p.Required).data] ∧
    (focusOnly (createParameterInputs p false) 0).map textinput.Model.Focused =
      [true, false, false, false] := by
  unfold createParameterInputs
  simp only [Bool.not_false, if_true, focusOnly, List.map_cons, List.map_nil]
  refine ⟨?_, by simp [textinput.Model.Focused, textinput.Model.Focus, textinput.Model.Blur]⟩
  simp only [textinput.Model.Focus, textinput.Model.Blur]
  rw [(SetValue_value _ p.Name (by decide)).1, (SetValue_value _ p.Type_ (by decide)).1,
    (SetValue_value _ p.Description (by decide)).1]
  cases p.Required <;> simp <;> decide

theorem editParameter_eq (h : Heap) (m : toolEditorModel) (i : Int) (p : Parameter)
    (h0 : 0 ≤ i) (hp : (h.readOpt m.tool.Parameters)[i.toNat]? = some p) :
    m.editParameter h i =
      { m with
        parameterInputs := focusOnly (createParameterInputs p false) 0
        editingParameters := true
        currentParameter := i
        focused := 0 } := by
  have hlt : i.toNat < (h.readOpt m.tool.Parameters).length := by
    by_contra hc
    rw [List.getElem?_eq_none (by omega)] at hp
    exact absurd hp (by simp)
  have hle : (h.readOpt m.tool.Parameters).length ≤ sliceLen m.tool.Parameters := by
    cases hs : m.tool.Parameters with
    | none => simp [Heap.readOpt, sliceLen]
    | some s =>
      simp only [Heap.readOpt, Heap.read, sliceLen, List.length_take]
      omega
  have hg : ¬ (i < 0 ∨ i ≥ (sliceLen m.tool.Parameters : Int)) := by omega
  unfold toolEditorModel.editParameter
  rw [if_neg hg]
  have hd : (h.readOpt m.tool.Parameters).getD i.toNat Parameter.zero = p := by
    rw [List.getD_eq_getElem?_getD, hp]
    rfl
  rw [hd]

theorem Update_esc_editing (env : Env) (h : Heap) (m : toolEditorModel) (k : KeyMsg)
    (hk : k.String = "esc") (hhelp : m.showParameterHelp = false)
    (hedit : m.editingParameters = true) :
    m.Update env h (Msg.KeyMsg k) = some (h, m.cancelParameterEdit, []) := by
  simp [toolEditorModel.Update, toolEditorModel.updateEditing, hhelp, hedit, hk]

theorem String_alt_ne (s t : String) (ht : t.data.head? ≠ some 'a') : "alt+" ++ s ≠ t := by
  intro h
  apply ht
  rw [← h]
  rfl

theorem String_eq_Alt (k : KeyMsg) (t : String) (ht : t.data.head? ≠ some 'a') (ht' : t ≠ "")
    (hk : k.String = t) : k.Alt = false := by
  cases hA : k.Alt
  · rfl
  · exfalso
    unfold KeyMsg.String at hk
    rw [hA] at hk
    cases hT : k.Type_ <;> rw [hT] at hk <;> simp only [if_true] at hk
    · rw [String.append_assoc, String.append_assoc] at hk
      exact String_alt_ne _ _ ht hk
    · exact String_alt_ne _ _ ht hk
    · exact String_alt_ne _ _ ht hk
    · exact String_alt_ne _ _ ht hk
    · exact ht' hk.symm

theorem Update_closed_key (env : Env) (h : Heap) (m : toolEditorModel) (k : KeyMsg)
    (hhelp : m.showParameterHelp = false) (hedit : m.editingParameters = false)
    (hq : k.String ≠ "q") :
    m.Update env h (Msg.KeyMsg k) = m.updateSwitch env h k := by
  simp [toolEditorModel.Update, hhelp, hedit, hq]

theorem updateSwitch_enter (env : Env) (h : Heap) (m : toolEditorModel) (k : KeyMsg)
    (hk : k.String = "enter") :
    m.updateSwitch env h k =
      if m.focused = (m.inputs.length : Int) - 1 then
        some (h, { m with saving := true }, [Effect.Quit])
      else
        (toolEditorModel.syncInputs
          { m with
            focused := if m.focused + 1 ≥ (m.inputs.length : Int) then 0 else m.focused + 1
            inputs := focusOnly m.inputs
              (if m.focused + 1 ≥ (m.inputs.length : Int) then 0 else m.focused + 1) }).map
          (fun m => (h, m, [])) := by
  have hA : k.Alt = false := String_eq_Alt k "enter" (by decide) (by decide) hk
  simp only [toolEditorModel.updateSwitch, toolEditorModel.updateDefault, hk, hA,
    String.reduceEq, or_self, if_false, false_and, Bool.false_eq_true, if_true]
  split_ifs <;> rfl

theorem focusOnly_map_value (xs : List textinput.Model) (k : Int) :
    (focusOnly xs k).map (fun x => x.value) = xs.map (fun x => x.value) := by
  induction xs generalizing k with
  | nil => rfl
  | cons x xs ih =>
    simp only [focusOnly, List.map_cons, ih]
    split_ifs <;> rfl

theorem focusOnly_map_Value (xs : List textinput.Model) (k : Int) :
    (focusOnly xs k).map textinput.Model.Value = xs.map textinput.Model.Value := by
  induction xs generalizing k with
  | nil => rfl
  | cons x xs ih =>
    simp only [focusOnly, List.map_cons, ih]
    split_ifs <;> rfl

theorem syncInputs_three (m : toolEditorModel) (hlen : m.inputs.length = 3) :
    ∃ a b c, m.inputs = [a, b, c] ∧
      m.syncInputs = some { m with nameInput := a, descriptionInput := b, categoryInput := c } := by
  match hi : m.inputs, hlen with
  | [a, b, c], _ => exact ⟨a, b, c, rfl, by simp only [toolEditorModel.syncInputs, hi]⟩

theorem Update_help (env : Env) (h : Heap) (m : toolEditorModel) (k : KeyMsg)
    (hhelp : m.showParameterHelp = true) :
    m.Update env h (Msg.KeyMsg k) =
      some (h, (if k.Type_ = KeyType.KeyEsc ∨ k.Type_ = KeyType.KeyEnter then
        { m with showParameterHelp := false } else m), []) := by
  simp only [toolEditorModel.Update, hhelp, if_true]
  split_ifs <;> rfl

theorem updateSwitch_alt_down (env : Env) (h : Heap) (m : toolEditorModel) (k : KeyMsg)
    (hk : k.String = "alt+down") :
    m.updateSwitch env h k =
      some (h, (if sliceLen m.tool.Parameters = 0 then m
        else if m.selectedParamIndex + 1 ≥ (sliceLen m.tool.Parameters : Int) then
          { m with selectedParamIndex := 0 }
        else { m with selectedParamIndex := m.selectedParamIndex + 1 }), []) := by
  simp only [toolEditorModel.updateSwitch, hk]
  simp
  split_ifs <;> rfl

theorem updateSwitch_alt_up (env : Env) (h : Heap) (m : toolEditorModel) (k : KeyMsg)
    (hk : k.String = "alt+up") :
    m.updateSwitch env h k =
      some (h, (if sliceLen m.tool.Parameters = 0 then m
        else if m.selectedParamIndex - 1 < 0 then
          { m with selectedParamIndex := (sliceLen m.tool.Parameters : Int) - 1 }
        else { m with selectedParamIndex := m.selectedParamIndex - 1 }), []) := by
  simp only [toolEditorModel.updateSwitch, hk]
  simp
  split_ifs <;> rfl

theorem readOpt_length (h : Heap) (s : Option Slice) (hv : ∀ s', s = some s' → s'.within h) :
    (h.readOpt s).length = sliceLen s := by
  cases s with
  | none => rfl
  | some s' => exact read_length h s' (hv s' rfl)

theorem AddTool_tools (w : World) (tool : Tool) (idNow modNow : Time) (o : SaveOutcome) :
    ∃ t, t.ID = generateID idNow ∧
      (Store.AddTool w tool idNow modNow o).store.tools = w.store.tools.insert t.ID t := by
  unfold Store.AddTool
  simp only [save_store]
  split_ifs <;> exact ⟨_, rfl, rfl⟩

theorem AddTool_keyed (w : World) (tool : Tool) (idNow modNow : Time) (o : SaveOutcome)
    (hw : w.store.keyed) : (Store.AddTool w tool idNow modNow o).store.keyed := by
  obtain ⟨t, hid, ht⟩ := AddTool_tools w tool idNow modNow o
  intro k r hl
  rw [ht] at hl
  by_cases hk : k = t.ID
  · subst hk
    rw [AList.lookup_insert] at hl
    cases hl
    exact ⟨rfl, by rw [hid]; exact generateID_ne_empty idNow⟩
  · rw [AList.lookup_insert_ne hk] at hl
    exact hw k r hl

theorem UpdateTool_keyed (w : World) (tool : Tool) (modNow : Time) (o : SaveOutcome)
    (hw : w.store.keyed) : (Store.UpdateTool w tool modNow o).1.store.keyed := by
  unfold Store.UpdateTool
  cases hl : w.store.tools.lookup tool.ID with
  | none => exact hw
  | some old =>
    simp only [save_store]
    have hne : tool.ID ≠ "" := by
      have := (hw tool.ID old hl)
      rw [this.1] at this
      exact this.2
    intro k r hr
    by_cases hk : k = tool.ID
    · subst hk
      split_ifs at hr <;> rw [AList.lookup_insert] at hr <;> cases hr <;> exact ⟨rfl, hne⟩
    · split_ifs at hr <;> rw [AList.lookup_insert_ne hk] at hr <;> exact hw k r hr

theorem DeleteTool_keyed (w : World) (id : String) (o : SaveOutcome)
    (hw : w.store.keyed) : (Store.DeleteTool w id o).1.store.keyed := by
  unfold Store.DeleteTool
  cases hl : w.store.tools.lookup id with
  | none => exact hw
  | some old =>
    simp only [save_store]
    intro k r hr
    by_cases hk : k = id
    · subst hk
      rw [AList.lookup_erase] at hr
      cases hr
    · rw [AList.lookup_erase_ne hk] at hr
      exact hw k r hr

theorem run_keyed (ops : List StoreOp) (w : World) (hw : w.store.keyed) :
    (StoreOp.run w ops).store.keyed := by
  induction ops generalizing w with
  | nil => exact hw
  | cons op ops ih =>
    apply ih
    cases op with
    | add tool idNow modNow o => exact AddTool_keyed w tool idNow modNow o hw
    | update tool modNow o => exact UpdateTool_keyed w tool modNow o hw
    | delete id o => exact DeleteTool_keyed w id o hw

theorem newToolEditorModelWithTool_tool (tool : Tool) :
    (newToolEditorModelWithTool tool).tool =
      (if tool.Parameters = none then { tool with Parameters := some Slice.empty } else tool) := by
  unfold newToolEditorModelWithTool
  simp only []
  split_ifs <;> rfl

theorem newToolEditorModelWithTool_inputs (tool : Tool) :
    (newToolEditorModelWithTool tool).nameInput =
      newToolEditorModel.nameInput.SetValue tool.Name ∧
    (newToolEditorModelWithTool tool).descriptionInput =
      newToolEditorModel.descriptionInput.SetValue tool.Description ∧
    (newToolEditorModelWithTool tool).categoryInput =
      newToolEditorModel.categoryInput.SetValue tool.Category ∧
    (newToolEditorModelWithTool tool).inputs =
      [newToolEditorModel.nameInput.SetValue tool.Name,
       newToolEditorModel.descriptionInput.SetValue tool.Description,
       newToolEditorModel.categoryInput.SetValue tool.Category] ∧
    (newToolEditorModelWithTool tool).focused = 0 ∧
    (newToolEditorModelWithTool tool).saving = false ∧
    (newToolEditorModelWithTool tool).selectedParamIndex = -1 := by
  unfold newToolEditorModelWithTool
  simp only []
  split_ifs <;> exact ⟨rfl, rfl, rfl, rfl, rfl, rfl, rfl⟩

theorem newToolEditorModelWithTool_values (tool : Tool) :
    (newToolEditorModelWithTool tool).nameInput.value =
      (textinput.Sanitize tool.Name.data).take 50 ∧
    (newToolEditorModelWithTool tool).descriptionInput.value =
      (textinput.Sanitize tool.Description.data).take 200 ∧
    (newToolEditorModelWithTool tool).categoryInput.value =
      (textinput.Sanitize tool.Category.data).take 30 := by
  obtain ⟨h1, h2, h3, _⟩ := newToolEditorModelWithTool_inputs tool
  rw [h1, h2, h3]
  exact ⟨(SetValue_value _ _ (by decide)).1, (SetValue_value _ _ (by decide)).1,
    (SetValue_value _ _ (by decide)).1⟩

theorem Router_enter_list (env : Env) (w : World) (m : appModel) (k : KeyMsg)
    (hview : m.currentView = "list") (hk : k.String = "enter") :
    appModel.Update env w m (Msg.KeyMsg k) =
      if m.toolList.tools.length > 0 ∧ m.toolList.selected ≥ 0 then
        match m.toolList.tools[m.toolList.selected.toNat]? with
        | none => none
        | some selectedTool =>
          some (w, { m with toolEditor := newToolEditorModelWithTool selectedTool,
                            currentView := "editor" }, [])
      else some (w, { m with toolEditor := newToolEditorModel, currentView := "editor" }, []) := by
  simp only [appModel.Update, hview, hk, String.reduceEq, if_false, or_self, false_and,
    and_self, if_true]

theorem indexInt_map (xs : List textinput.Model) (g : textinput.Model → textinput.Model)
    (i : Int) : indexInt (xs.map g) i = (indexInt xs i).map g := by
  unfold indexInt
  split_ifs
  · rfl
  · rw [List.getElem?_map]

theorem updateAllInputs_three (env : Env) (m : toolEditorModel) (msg : Msg)
    (hlen : m.inputs.length = 3) :
    ∃ m' cmd, m.updateAllInputs env msg = some (m', cmd) ∧
      m'.inputs = m.inputs.map (fun i => (i.Update env msg).1) ∧
      m'.inputs = [m'.nameInput, m'.descriptionInput, m'.categoryInput] ∧
      m'.tool = { m.tool with Name := m'.nameInput.Value,
                              Description := m'.descriptionInput.Value,
                              Category := m'.categoryInput.Value } ∧
      cmd = Batch (m.inputs.map (fun i => (i.Update env msg).2)) ∧
      m'.focused = m.focused ∧ m'.saving = m.saving ∧
      m'.parameterInputs = m.parameterInputs ∧
      m'.editingParameters = m.editingParameters ∧
      m'.showParameterHelp = m.showParameterHelp ∧
      m'.selectedParamIndex = m.selectedParamIndex ∧
      m'.currentParameter = m.currentParameter := by
  match hi : m.inputs, hlen with
  | [a, b, c], _ =>
    simp only [toolEditorModel.updateAllInputs, toolEditorModel.syncInputs, hi, List.map_cons,
      List.map_nil]
    exact ⟨_, _, rfl, rfl, rfl, rfl, rfl, rfl, rfl, rfl, rfl, rfl, rfl, rfl⟩

theorem updateSwitch_plain (env : Env) (h : Heap) (m : toolEditorModel) (k : KeyMsg)
    (hA : k.Alt = false)
    (hk : k.String ∉ ["ctrl+c", "tab", "shift+tab", "up", "down", "alt+up", "up+alt",
      "alt+down", "down+alt", "alt+p", "p+alt", "alt+e", "e+alt", "alt+d", "d+alt", "?",
      "enter"]) :
    m.updateSwitch env h k =
      (m.updateAllInputs env (Msg.KeyMsg k)).map (fun r => (h, r.1, r.2)) := by
  simp only [List.mem_cons, List.mem_singleton, List.not_mem_nil, not_or, or_false] at hk
  obtain ⟨h1, h2, h3, h4, h5, h6, h7, h8, h9, h10, h11, h12, h13, h14, h15, h16, h17⟩ := hk
  simp only [toolEditorModel.updateSwitch, toolEditorModel.updateDefault, hA, h1, h2, h3, h4, h5,
    h6, h7, h8, h9, h10, h11, h12, h13, h14, h15, h16, h17, or_self, if_false, false_and,
    Bool.false_eq_true]

theorem textinput_Update_focus (env : Env) (i : textinput.Model) (msg : Msg) :
    (i.Update env msg).1.focus = i.focus ∧ (i.Update env msg).1.CharLimit = i.CharLimit := by
  unfold textinput.Model.Update
  cases hf : i.focus
  · exact ⟨hf, rfl⟩
  · simp only [Bool.not_true, Bool.false_eq_true, if_false]
    cases msg with
    | WindowSizeMsg _ _ => exact ⟨hf, rfl⟩
    | RefreshToolsMsg => exact ⟨hf, rfl⟩
    | KeyMsg k =>
      simp only []
      by_cases hv : k.String = "ctrl+v"
      · rw [if_pos hv]
        exact ⟨hf, rfl⟩
      · rw [if_neg hv]
        simp only []
        by_cases hb : k.String ∈ textinput.boundKeys
        · rw [if_pos hb]
          exact ⟨rfl, rfl⟩
        · rw [if_neg hb]
          unfold textinput.Model.insertRunesFromUserInput textinput.Model.setValueInternal
          simp only []
          split_ifs <;> first | exact ⟨rfl, rfl⟩ | exact ⟨hf, rfl⟩

theorem textinput_Update_unfocused (env : Env) (i : textinput.Model) (msg : Msg)
    (hf : i.focus = false) : i.Update env msg = (i, []) := by
  simp [textinput.Model.Update, hf]

theorem textinput_Update_q (env : Env) (i : textinput.Model) (k : KeyMsg)
    (hk : k.String = "q") (hr : k.Runes = ['q']) (hf : i.focus = true)
    (hroom : ¬ (0 < i.CharLimit ∧ i.CharLimit ≤ i.value.length)) :
    (i.Update env (Msg.KeyMsg k)).1.value = i.value.take i.pos ++ ['q'] ++ i.value.drop i.pos := by
  have hs : textinput.Sanitize ['q'] = ['q'] := by decide
  have hnb : ¬ ("q" ∈ textinput.boundKeys) := by decide
  simp only [textinput.Model.Update, hf, hk, hr, Bool.not_true, Bool.false_eq_true, if_false,
    show ("q" = "ctrl+v") = False from by decide, hnb,
    textinput.Model.insertRunesFromUserInput, hs]
  rw [if_neg (by intro hc; exact hroom ⟨hc.1, by omega⟩)]
  simp only [textinput.Model.setValueInternal]
  have hlen : (i.value.take i.pos ++ ['q'] ++ i.value.drop i.pos).length = i.value.length + 1 := by
    simp only [List.length_append, List.length_take, List.length_drop, List.length_singleton]
    omega
  by_cases hc : 0 < i.CharLimit
  · have hlt : i.value.length < i.CharLimit := by
      by_contra hge
      exact hroom ⟨hc, by omega⟩
    have ht : (['q'] : List Char).take (i.CharLimit - i.value.length).toNat = ['q'] := by
      have : 1 ≤ (i.CharLimit - (i.value.length : Int)).toNat := by omega
      rw [List.take_of_length_le (by simpa using this)]
    simp only [hc, if_true, ht, true_and]
    rw [if_neg (by rw [hlen]; push_cast; omega)]
  · simp only [hc, if_false, false_and]

theorem Update_q (env : Env) (h : Heap) (m : toolEditorModel) (k : KeyMsg)
    (input : textinput.Model)
    (hhelp : m.showParameterHelp = false) (hedit : m.editingParameters = false)
    (hk : k.String = "q") (hin : indexInt m.inputs m.focused = some input) :
    m.Update env h (Msg.KeyMsg k) =
      if input.Focused = false then some (h, m, [Effect.Quit])
      else (m.updateAllInputs env (Msg.KeyMsg k)).map (fun r => (h, r.1, r.2)) := by
  have hA : k.Alt = false := String_eq_Alt k "q" (by decide) (by decide) hk
  have hsw := updateSwitch_plain env h m k hA (by rw [hk]; decide)
  simp only [toolEditorModel.Update, hhelp, hedit, hk, hin, hsw, Bool.false_eq_true, if_false,
    if_true]
  cases input.Focused <;> simp

theorem focusOnly_Focused (xs : List textinput.Model) (k : Int) :
    (focusOnly xs k).map textinput.Model.Focused = focusPattern xs.length k := by
  induction xs generalizing k with
  | nil => rfl
  | cons x xs ih =>
    simp only [focusOnly, List.map_cons, ih, List.length_cons, focusPattern]
    by_cases hk : k = 0
    · simp [hk, textinput.Model.Focus, textinput.Model.Focused]
    · simp [hk, textinput.Model.Blur, textinput.Model.Focused]

theorem focusPattern_length (n : Nat) (k : Int) : (focusPattern n k).length = n := by
  induction n generalizing k with
  | zero => rfl
  | succ n ih => simp [focusPattern, ih]

theorem focusPattern_getElem? (n : Nat) (k : Int) (i : Nat) (b : Bool)
    (hb : (focusPattern n k)[i]? = some b) : (b = true ↔ (i : Int) = k) := by
  induction n generalizing k i with
  | zero => simp [focusPattern] at hb
  | succ n ih =>
    cases i with
    | zero =>
      simp only [focusPattern, List.getElem?_cons_zero, Option.some.injEq] at hb
      subst hb
      simp only [decide_eq_true_eq, Nat.cast_zero]
      exact eq_comm
    | succ i =>
      simp only [focusPattern, List.getElem?_cons_succ] at hb
      have := ih (k - 1) i hb
      rw [this]
      push_cast
      omega

theorem focusInv_congr (m m' : toolEditorModel)
    (he : m'.editingParameters = m.editingParameters) (hf : m'.focused = m.focused)
    (hi : m'.inputs.map textinput.Model.Focused = m.inputs.map textinput.Model.Focused)
    (hp : m'.parameterInputs.map textinput.Model.Focused =
      m.parameterInputs.map textinput.Model.Focused)
    (hm : m.focusInv) : m'.focusInv := by
  unfold toolEditorModel.focusInv at hm ⊢
  rw [he, hf, hi, hp]
  refine ⟨?_, hm.2⟩
  have := congrArg List.length hi
  simp only [List.length_map] at this
  rw [this]
  exact hm.1

theorem map_Update_Focused (env : Env) (xs : List textinput.Model) (msg : Msg) :
    (xs.map (fun i => (i.Update env msg).1)).map textinput.Model.Focused =
      xs.map textinput.Model.Focused := by
  rw [List.map_map]
  apply List.map_congr_left
  intro i _
  exact (textinput_Update_focus env i msg).1

theorem map_Width_Focused (xs : List textinput.Model) (w : Int) :
    (xs.map (fun (i : textinput.Model) => { i with Width := w })).map textinput.Model.Focused =
      xs.map textinput.Model.Focused := by
  rw [List.map_map]
  rfl

theorem createParameterInputs_Focused (p : Parameter) (isNew : Bool) :
    (createParameterInputs p isNew).map textinput.Model.Focused = [true, false, false, false] := by
  cases isNew <;> rfl

theorem createParameterInputs_length (p : Parameter) (isNew : Bool) :
    (createParameterInputs p isNew).length = 4 := by
  cases isNew <;> rfl

theorem focusInv_closed (m : toolEditorModel) (hlen : m.inputs.length = 3)
    (hedit : m.editingParameters = false) (h0 : 0 ≤ m.focused) (h3 : m.focused < 3)
    (hp : m.inputs.map textinput.Model.Focused = focusPattern 3 m.focused) : m.focusInv :=
  ⟨hlen, fun _ => ⟨h0, h3, hp⟩, fun he => by rw [hedit] at he; cases he⟩

theorem focusInv_editing (m : toolEditorModel) (hlen : m.inputs.length = 3)
    (hedit : m.editingParameters = true) (h0 : 0 ≤ m.focused) (h4 : m.focused < 4)
    (hp : m.parameterInputs.map textinput.Model.Focused = focusPattern 4 m.focused) :
    m.focusInv :=
  ⟨hlen, fun he => (by rw [hedit] at he; cases he), fun _ => ⟨h0, h4, hp⟩⟩

theorem focusInv_parameterInputs_length (m : toolEditorModel) (hm : m.focusInv)
    (hedit : m.editingParameters = true) : m.parameterInputs.length = 4 := by
  have := congrArg List.length (hm.2.2 hedit).2.2
  simpa [focusPattern_length] using this

theorem syncInputs_fields (m m' : toolEditorModel) (hs : m.syncInputs = some m') :
    m'.inputs = m.inputs ∧ m'.parameterInputs = m.parameterInputs ∧ m'.focused = m.focused ∧
    m'.editingParameters = m.editingParameters ∧ m'.tool = m.tool ∧ m'.saving = m.saving ∧
    m'.showParameterHelp = m.showParameterHelp ∧
    m'.selectedParamIndex = m.selectedParamIndex ∧
    m'.inputs.take 3 = [m'.nameInput, m'.descriptionInput, m'.categoryInput] := by
  unfold toolEditorModel.syncInputs at hs
  split at hs
  · rename_i a b c rest hi
    cases hs
    refine ⟨rfl, rfl, rfl, rfl, rfl, rfl, rfl, rfl, ?_⟩
    show m.inputs.take 3 = [a, b, c]
    rw [hi]
    rfl
  · cases hs

theorem syncInputs_focusInv (m m' : toolEditorModel) (hs : m.syncInputs = some m')
    (hm : m.focusInv) : m'.focusInv := by
  obtain ⟨h1, h2, h3, h4, _⟩ := syncInputs_fields m m' hs
  exact focusInv_congr m m' h4 h3 (by rw [h1]) (by rw [h2]) hm

theorem refocus_focusInv (m : toolEditorModel) (f : Int) (hlen : m.inputs.length = 3)
    (hedit : m.editingParameters = false) (h0 : 0 ≤ f) (h3 : f < 3) :
    ({ m with focused := f, inputs := focusOnly m.inputs f } : toolEditorModel).focusInv := by
  refine ⟨?_, fun _ => ⟨h0, h3, ?_⟩, fun he => ?_⟩
  · show (focusOnly m.inputs f).length = 3
    rw [focusOnly_length, hlen]
  · show (focusOnly m.inputs f).map textinput.Model.Focused = focusPattern 3 f
    rw [focusOnly_Focused, hlen]
  · have he' : m.editingParameters = true := he
    rw [hedit] at he'
    cases he'

theorem cancelParameterEdit_focusInv (m : toolEditorModel) (hm : m.focusInv) :
    m.cancelParameterEdit.focusInv := by
  refine ⟨?_, fun _ => ⟨le_refl _, (show (0 : Int) < 3 by decide), ?_⟩, fun he => ?_⟩
  · show (focusOnly m.inputs 0).length = 3
    rw [focusOnly_length, hm.1]
  · show (focusOnly m.inputs 0).map textinput.Model.Focused = focusPattern 3 0
    rw [focusOnly_Focused, hm.1]
  · cases he

theorem saveParameter_state (h : Heap) (m : toolEditorModel) :
    (m.saveParameter h).2 = m ∨
    (m.saveParameter h).2 =
      { m with editingParameters := false, parameterChanged := true, focused := 0,
               inputs := focusOnly m.inputs 0 } := by
  unfold toolEditorModel.saveParameter
  split_ifs
  · exact Or.inl rfl
  · split
    · exact Or.inr rfl
    · exact Or.inl rfl

theorem saveParameter_focusInv (h : Heap) (m : toolEditorModel) (hm : m.focusInv) :
    (m.saveParameter h).2.focusInv := by
  rcases saveParameter_state h m with hs | hs <;> rw [hs]
  · exact hm
  · exact cancelParameterEdit_focusInv m hm |> fun hc =>
      focusInv_congr m.cancelParameterEdit _ rfl rfl rfl rfl hc

theorem addNewParameter_focusInv (env : Env) (h : Heap) (m : toolEditorModel)
    (hm : m.focusInv) : (m.addNewParameter env h).2.focusInv := by
  refine ⟨hm.1, fun he => (by cases he),
    fun _ => ⟨le_refl _, (show (0 : Int) < 4 by decide), ?_⟩⟩
  unfold toolEditorModel.addNewParameter
  simp only []
  rw [createParameterInputs_Focused]
  rfl

theorem editParameter_focusInv (h : Heap) (m : toolEditorModel) (i : Int)
    (hm : m.focusInv) : (m.editParameter h i).focusInv := by
  unfold toolEditorModel.editParameter
  split_ifs
  · exact hm
  · refine ⟨hm.1, fun he => (by cases he),
      fun _ => ⟨le_refl _, (show (0 : Int) < 4 by decide), ?_⟩⟩
    show (focusOnly _ 0).map textinput.Model.Focused = focusPattern 4 0
    rw [focusOnly_Focused, createParameterInputs_length]

theorem editSelected_focusInv (h : Heap) (m : toolEditorModel) (hm : m.focusInv) :
    (m.editSelected h).focusInv := by
  unfold toolEditorModel.editSelected
  split_ifs
  · exact editParameter_focusInv h m _ hm
  · exact editParameter_focusInv h _ _ (focusInv_congr m _ rfl rfl rfl rfl hm)
  · exact hm

theorem deleteParameter_fields (h : Heap) (m : toolEditorModel) (i : Int) :
    (m.deleteParameter h i).2.editingParameters = m.editingParameters ∧
    (m.deleteParameter h i).2.focused = m.focused ∧
    (m.deleteParameter h i).2.inputs = m.inputs ∧
    (m.deleteParameter h i).2.parameterInputs = m.parameterInputs := by
  unfold toolEditorModel.deleteParameter
  split_ifs
  · exact ⟨rfl, rfl, rfl, rfl⟩
  · split
    · exact ⟨rfl, rfl, rfl, rfl⟩
    · simp only []
      split_ifs <;> exact ⟨rfl, rfl, rfl, rfl⟩

theorem deleteSelected_focusInv (h : Heap) (m : toolEditorModel) (hm : m.focusInv) :
    (m.deleteSelected h).2.focusInv := by
  unfold toolEditorModel.deleteSelected
  split_ifs
  · obtain ⟨h1, h2, h3, h4⟩ := deleteParameter_fields h m m.selectedParamIndex
    exact focusInv_congr m _ h1 h2 (by rw [h3]) (by rw [h4]) hm
  · exact hm

theorem updateAllInputs_focusInv (env : Env) (m m' : toolEditorModel) (msg : Msg) (c : Cmd)
    (hu : m.updateAllInputs env msg = some (m', c)) (hm : m.focusInv) : m'.focusInv := by
  obtain ⟨m'', c'', hu', hi, _, _, _, hf, _, hp, he, _⟩ := updateAllInputs_three env m msg hm.1
  rw [hu'] at hu
  cases hu
  exact focusInv_congr m _ he hf (by rw [hi, map_Update_Focused]) (by rw [hp]) hm

theorem updateEditing_tab (env : Env) (h : Heap) (m : toolEditorModel) (k : KeyMsg)
    (hk : k.String = "tab") :
    m.updateEditing env h k =
      (h, { m with
        focused := if m.focused + 1 ≥ (m.parameterInputs.length : Int) then 0 else m.focused + 1
        parameterInputs := focusOnly m.parameterInputs
          (if m.focused + 1 ≥ (m.parameterInputs.length : Int) then 0 else m.focused + 1) },
        []) := by
  simp only [toolEditorModel.updateEditing, hk, String.reduceEq, if_false, if_true]
  split_ifs <;> rfl

theorem updateEditing_shift_tab (env : Env) (h : Heap) (m : toolEditorModel) (k : KeyMsg)
    (hk : k.String = "shift+tab") :
    m.updateEditing env h k =
      (h, { m with
        focused := if m.focused - 1 < 0 then (m.parameterInputs.length : Int) - 1
          else m.focused - 1
        parameterInputs := focusOnly m.parameterInputs
          (if m.focused - 1 < 0 then (m.parameterInputs.length : Int) - 1
            else m.focused - 1) },
        []) := by
  simp only [toolEditorModel.updateEditing, hk, String.reduceEq, if_false, if_true]
  split_ifs <;> rfl

theorem updateEditing_enter (env : Env) (h : Heap) (m : toolEditorModel) (k : KeyMsg)
    (hk : k.String = "enter") :
    m.updateEditing env h k =
      if m.focused = (m.parameterInputs.length : Int) - 1 then
        ((m.saveParameter h).1, (m.saveParameter h).2, [])
      else
        (h, { m with
          focused := if m.focused + 1 ≥ (m.parameterInputs.length : Int) then 0
            else m.focused + 1
          parameterInputs := focusOnly m.parameterInputs
            (if m.focused + 1 ≥ (m.parameterInputs.length : Int) then 0 else m.focused + 1) },
          []) := by
  simp only [toolEditorModel.updateEditing, hk, String.reduceEq, if_false, if_true]
  split_ifs <;> rfl

theorem updateEditing_other (env : Env) (h : Heap) (m : toolEditorModel) (k : KeyMsg)
    (h1 : k.String ≠ "esc") (h2 : k.String ≠ "enter") (h3 : k.String ≠ "tab")
    (h4 : k.String ≠ "shift+tab") :
    m.updateEditing env h k =
      (h, { m with parameterInputs :=
              m.parameterInputs.map (fun i => (i.Update env (Msg.KeyMsg k)).1) },
        Batch (m.parameterInputs.map (fun i => (i.Update env (Msg.KeyMsg k)).2))) := by
  simp only [toolEditorModel.updateEditing, h1, h2, h3, h4, if_false, List.map_map]
  rfl

theorem refocusParams_focusInv (m : toolEditorModel) (f : Int) (hm : m.focusInv)
    (hedit : m.editingParameters = true) (h0 : 0 ≤ f) (h4 : f < 4) :
    ({ m with focused := f, parameterInputs := focusOnly m.parameterInputs f } :
      toolEditorModel).focusInv := by
  refine ⟨hm.1, fun he => ?_, fun _ => ⟨h0, h4, ?_⟩⟩
  · have he' : m.editingParameters = false := he
    rw [hedit] at he'
    cases he'
  · show (focusOnly m.parameterInputs f).map textinput.Model.Focused = focusPattern 4 f
    rw [focusOnly_Focused, focusInv_parameterInputs_length m hm hedit]

theorem updateEditing_focusInv (env : Env) (h : Heap) (m : toolEditorModel) (k : KeyMsg)
    (hm : m.focusInv) (hedit : m.editingParameters = true) :
    (m.updateEditing env h k).2.1.focusInv := by
  have hlen := focusInv_parameterInputs_length m hm hedit
  obtain ⟨h0, h4, hp⟩ := hm.2.2 hedit
  by_cases h1 : k.String = "esc"
  · simp only [toolEditorModel.updateEditing, h1, if_true]
    exact cancelParameterEdit_focusInv m hm
  by_cases h2 : k.String = "enter"
  · rw [updateEditing_enter env h m k h2, hlen]
    split_ifs
    · exact saveParameter_focusInv h m hm
    · exact refocusParams_focusInv m _ hm hedit (by omega) (by omega)
    · exact refocusParams_focusInv m _ hm hedit (by omega) (by omega)
  by_cases h3 : k.String = "tab"
  · rw [updateEditing_tab env h m k h3, hlen]
    split_ifs
    · exact refocusParams_focusInv m _ hm hedit (by omega) (by omega)
    · exact refocusParams_focusInv m _ hm hedit (by omega) (by push_cast at *; omega)
  by_cases h4' : k.String = "shift+tab"
  · rw [updateEditing_shift_tab env h m k h4', hlen]
    split_ifs
    · exact refocusParams_focusInv m _ hm hedit (by omega) (by omega)
    · exact refocusParams_focusInv m _ hm hedit (by omega) (by omega)
  · rw [updateEditing_other env h m k h1 h2 h3 h4']
    exact focusInv_congr m _ rfl rfl rfl (map_Update_Focused env _ _) hm

theorem updateSwitch_move (env : Env) (h : Heap) (m : toolEditorModel) (k : KeyMsg)
    (hk : k.String = "tab" ∨ k.String = "shift+tab" ∨ k.String = "up" ∨ k.String = "down") :
    m.updateSwitch env h k =
      (toolEditorModel.syncInputs
        { m with
          focused :=
            if k.String = "up" ∨ k.String = "shift+tab" then
              (if m.focused - 1 < 0 then (m.inputs.length : Int) - 1 else m.focused - 1)
            else (if m.focused + 1 ≥ (m.inputs.length : Int) then 0 else m.focused + 1)
          inputs := focusOnly m.inputs
            (if k.String = "up" ∨ k.String = "shift+tab" then
              (if m.focused - 1 < 0 then (m.inputs.length : Int) - 1 else m.focused - 1)
            else (if m.focused + 1 ≥ (m.inputs.length : Int) then 0 else m.focused + 1)) }).map
        (fun m => (h, m, [])) := by
  have hc : k.String ≠ "ctrl+c" := by
    rcases hk with hk | hk | hk | hk <;> rw [hk] <;> decide
  simp only [toolEditorModel.updateSwitch, hc, hk, if_false, if_true]
  split_ifs <;> rfl

theorem syncInputs_map_focusInv (h h' : Heap) (m m' : toolEditorModel) (c c' : Cmd)
    (hr : (m.syncInputs).map (fun m => (h, m, c)) = some (h', m', c')) (hm : m.focusInv) :
    m'.focusInv := by
  cases hs : m.syncInputs with
  | none => simp [hs] at hr
  | some m'' =>
    simp only [hs, Option.map_some', Option.some.injEq, Prod.mk.injEq] at hr
    obtain ⟨_, rfl, _⟩ := hr
    exact syncInputs_focusInv m m'' hs hm

theorem updateDefault_focusInv (env : Env) (h h' : Heap) (m m' : toolEditorModel) (k : KeyMsg)
    (c : Cmd) (hm : m.focusInv) (hedit : m.editingParameters = false)
    (hr : m.updateDefault env h k = some (h', m', c)) : m'.focusInv := by
  obtain ⟨h0, h3, _⟩ := hm.2.1 hedit
  have hlen := hm.1
  unfold toolEditorModel.updateDefault at hr
  by_cases h1 : k.Alt ∧ (String.mk k.Runes = "p" ∨ String.mk k.Runes = "P")
  · rw [if_pos h1] at hr
    cases hr
    exact addNewParameter_focusInv env h m hm
  rw [if_neg h1] at hr
  by_cases h2 : k.Alt ∧ (String.mk k.Runes = "e" ∨ String.mk k.Runes = "E")
  · rw [if_pos h2] at hr
    cases hr
    exact editSelected_focusInv h m hm
  rw [if_neg h2] at hr
  by_cases h3' : k.Alt ∧ (String.mk k.Runes = "d" ∨ String.mk k.Runes = "D")
  · rw [if_pos h3'] at hr
    cases hr
    exact deleteSelected_focusInv h m hm
  rw [if_neg h3'] at hr
  by_cases h4 : k.String = "?"
  · rw [if_pos h4] at hr
    cases hr
    exact focusInv_congr m _ rfl rfl rfl rfl hm
  rw [if_neg h4] at hr
  by_cases h5 : k.String = "enter"
  · rw [if_pos h5] at hr
    by_cases h6 : m.focused = (m.inputs.length : Int) - 1
    · rw [if_pos h6] at hr
      cases hr
      exact focusInv_congr m _ rfl rfl rfl rfl hm
    · rw [if_neg h6] at hr
      simp only [] at hr
      rw [if_neg (by rw [hlen]; rw [hlen] at h6; push_cast at *; omega)] at hr
      apply syncInputs_map_focusInv _ _ _ _ _ _ hr
      exact refocus_focusInv m (m.focused + 1) hlen hedit (by omega)
        (by rw [hlen] at h6; push_cast at h6; omega)
  · rw [if_neg h5] at hr
    cases hu : m.updateAllInputs env (Msg.KeyMsg k) with
    | none => simp [hu] at hr
    | some r =>
      obtain ⟨m'', c''⟩ := r
      simp only [hu, Option.map_some', Option.some.injEq, Prod.mk.injEq] at hr
      obtain ⟨_, rfl, _⟩ := hr
      exact updateAllInputs_focusInv env m m'' _ c'' hu hm

theorem updateSwitch_focusInv (env : Env) (h h' : Heap) (m m' : toolEditorModel) (k : KeyMsg)
    (c : Cmd) (hm : m.focusInv) (hedit : m.editingParameters = false)
    (hr : m.updateSwitch env h k = some (h', m', c)) : m'.focusInv := by
  obtain ⟨h0, h3, _⟩ := hm.2.1 hedit
  have hlen := hm.1
  by_cases hmv :
      k.String = "tab" ∨ k.String = "shift+tab" ∨ k.String = "up" ∨ k.String = "down"
  · rw [updateSwitch_move env h m k hmv, hlen] at hr
    apply syncInputs_map_focusInv _ _ _ _ _ _ hr
    apply refocus_focusInv m _ hlen hedit
    · split_ifs <;> omega
    · split_ifs <;> omega
  unfold toolEditorModel.updateSwitch at hr
  by_cases h1 : k.String = "ctrl+c"
  · rw [if_pos h1] at hr
    cases hr
    exact hm
  rw [if_neg h1, if_neg hmv] at hr
  by_cases h2 : k.String = "alt+up" ∨ k.String = "up+alt"
  · rw [if_pos h2] at hr
    split_ifs at hr <;> cases hr <;> first
      | exact hm
      | exact focusInv_congr m _ rfl rfl rfl rfl hm
      | (split_ifs <;> exact focusInv_congr m _ rfl rfl rfl rfl hm)
  rw [if_neg h2] at hr
  by_cases h3' : k.String = "alt+down" ∨ k.String = "down+alt"
  · rw [if_pos h3'] at hr
    split_ifs at hr <;> cases hr <;> first
      | exact hm
      | exact focusInv_congr m _ rfl rfl rfl rfl hm
      | (split_ifs <;> exact focusInv_congr m _ rfl rfl rfl rfl hm)
  rw [if_neg h3'] at hr
  by_cases h4 : k.String = "alt+p" ∨ k.String = "p+alt"
  · rw [if_pos h4] at hr
    cases hr
    exact addNewParameter_focusInv env h m hm
  rw [if_neg h4] at hr
  by_cases h5 : k.String = "alt+e" ∨ k.String = "e+alt"
  · rw [if_pos h5] at hr
    cases hr
    exact editSelected_focusInv h m hm
  rw [if_neg h5] at hr
  by_cases h6 : k.String = "alt+d" ∨ k.String = "d+alt"
  · rw [if_pos h6] at hr
    cases hr
    exact deleteSelected_focusInv h m hm
  rw [if_neg h6] at hr
  exact updateDefault_focusInv env h h' m m' k c hm hedit hr

theorem Update_focusInv (env : Env) (h h' : Heap) (m m' : toolEditorModel) (msg : Msg)
    (c : Cmd) (hm : m.focusInv) (hr : m.Update env h msg = some (h', m', c)) :
    m'.focusInv := by
  unfold toolEditorModel.Update at hr
  cases msg with
  | WindowSizeMsg width height =>
    simp only [] at hr
    apply syncInputs_map_focusInv _ _ _ _ _ _ hr
    exact focusInv_congr m _ rfl rfl (map_Width_Focused _ _) (map_Width_Focused _ _) hm
  | RefreshToolsMsg =>
    simp only [] at hr
    cases hu : m.updateAllInputs env Msg.RefreshToolsMsg with
    | none => simp [hu] at hr
    | some r =>
      obtain ⟨m'', c''⟩ := r
      simp only [hu, Option.map_some', Option.some.injEq, Prod.mk.injEq] at hr
      obtain ⟨_, rfl, _⟩ := hr
      exact updateAllInputs_focusInv env m m'' _ c'' hu hm
  | KeyMsg k =>
    simp only [] at hr
    by_cases hh : m.showParameterHelp = true
    · rw [if_pos hh] at hr
      split_ifs at hr <;> cases hr
      · exact focusInv_congr m _ rfl rfl rfl rfl hm
      · exact hm
    rw [if_neg hh] at hr
    by_cases he : m.editingParameters = true
    · rw [if_pos he] at hr
      have e := Option.some.inj hr
      have hm' : m' = (m.updateEditing env h k).2.1 := by rw [e]
      rw [hm']
      exact updateEditing_focusInv env h m k hm he
    rw [if_neg he] at hr
    have he' : m.editingParameters = false := by simpa using he
    by_cases hq : k.String = "q"
    · rw [if_pos hq] at hr
      cases hi : indexInt m.inputs m.focused with
      | none => simp [hi] at hr
      | some input =>
        simp only [hi] at hr
        split_ifs at hr
        · cases hr
          exact hm
        · exact updateSwitch_focusInv env h h' m m' k c hm he' hr
    · rw [if_neg hq] at hr
      exact updateSwitch_focusInv env h h' m m' k c hm he' hr

theorem newToolEditorModel_focusInv : newToolEditorModel.focusInv :=
  ⟨rfl, fun _ => ⟨le_refl _, (show (0 : Int) < 3 by decide), rfl⟩, fun he => (by cases he)⟩

theorem newToolEditorModelWithTool_focusInv (tool : Tool) :
    (newToolEditorModelWithTool tool).focusInv := by
  obtain ⟨_, _, _, hi, hf, _⟩ := newToolEditorModelWithTool_inputs tool
  obtain ⟨_, he, _⟩ := newToolEditorModelWithTool_closed tool
  refine ⟨by rw [hi]; rfl, fun _ => ?_, fun hc => (by rw [he] at hc; cases hc)⟩
  rw [hf, hi]
  refine ⟨le_refl _, by decide, ?_⟩
  simp only [List.map_cons, List.map_nil, textinput.Model.Focused,
    (SetValue_value _ _ (show (0 : Int) < newToolEditorModel.nameInput.CharLimit by decide)).2,
    (SetValue_value _ _
      (show (0 : Int) < newToolEditorModel.descriptionInput.CharLimit by decide)).2,
    (SetValue_value _ _ (show (0 : Int) < newToolEditorModel.categoryInput.CharLimit by decide)).2]
  rfl

theorem FormReachable_focusInv (h : Heap) (m : toolEditorModel) (hr : FormReachable h m) :
    m.focusInv := by
  induction hr with
  | new h => exact newToolEditorModel_focusInv
  | withTool h tool => exact newToolEditorModelWithTool_focusInv tool
  | update env msg h h' m m' cmd _ hu ih => exact Update_focusInv env h h' m m' msg cmd ih hu

theorem focusPattern_exactly (xs : List textinput.Model) (n : Nat) (f : Int)
    (h0 : 0 ≤ f) (hn : f < n)
    (hp : xs.map textinput.Model.Focused = focusPattern n f) :
    (∀ (i : Nat) (input : textinput.Model), xs[i]? = some input →
      (input.Focused = true ↔ (i : Int) = f)) ∧
    ∃ input, indexInt xs f = some input ∧ input.Focused = true := by
  have hex : ∀ (i : Nat) (input : textinput.Model), xs[i]? = some input →
      (input.Focused = true ↔ (i : Int) = f) := by
    intro i input hi
    apply focusPattern_getElem? n f i
    rw [← hp, List.getElem?_map, hi]
    rfl
  refine ⟨hex, ?_⟩
  have hlen : xs.length = n := by
    have := congrArg List.length hp
    simpa [focusPattern_length] using this
  have hlt : f.toNat < xs.length := by omega
  refine ⟨xs[f.toNat], ?_, ?_⟩
  · unfold indexInt
    rw [if_neg (by omega)]
    exact List.getElem?_eq_getElem hlt
  · exact (hex f.toNat _ (List.getElem?_eq_getElem hlt)).mpr (by omega)

theorem Update_editing (env : Env) (h : Heap) (m : toolEditorModel) (k : KeyMsg)
    (hhelp : m.showParameterHelp = false) (hedit : m.editingParameters = true) :
    m.Update env h (Msg.KeyMsg k) = some (m.updateEditing env h k) := by
  simp only [toolEditorModel.Update, hhelp, hedit, Bool.false_eq_true, if_false, if_true]

theorem editing_step (env : Env) (h : Heap) (m : toolEditorModel) (k : KeyMsg)
    (hhelp : m.showParameterHelp = false) (hedit : m.editingParameters = true)
    (hlen : m.parameterInputs.length = 4) (h0 : 0 ≤ m.focused) (h4 : m.focused < 4)
    (hk : k.String = "tab" ∨ k.String = "shift+tab") :
    ∃ m', m.Update env h (Msg.KeyMsg k) = some (h, m', []) ∧
      m'.focused = (if k.String = "tab" then (m.focused + 1) % 4 else (m.focused + 3) % 4) ∧
      m'.showParameterHelp = false ∧ m'.editingParameters = true ∧
      m'.parameterInputs.length = 4 ∧ m.sameData m' := by
  rw [Update_editing env h m k hhelp hedit]
  rcases hk with hk | hk
  · rw [updateEditing_tab env h m k hk, hlen, if_pos hk]
    refine ⟨_, rfl, ?_, hhelp, hedit, ?_, rfl, rfl, rfl, ?_⟩
    · show (if m.focused + 1 ≥ ((4 : Nat) : Int) then 0 else m.focused + 1) = _
      split_ifs <;> omega
    · show (focusOnly m.parameterInputs _).length = 4
      rw [focusOnly_length, hlen]
    · exact focusOnly_map_Value _ _
  · have hne : k.String ≠ "tab" := by rw [hk]; decide
    rw [updateEditing_shift_tab env h m k hk, hlen, if_neg hne]
    refine ⟨_, rfl, ?_, hhelp, hedit, ?_, rfl, rfl, rfl, ?_⟩
    · show (if m.focused - 1 < 0 then ((4 : Nat) : Int) - 1 else m.focused - 1) = _
      split_ifs <;> omega
    · show (focusOnly m.parameterInputs _).length = 4
      rw [focusOnly_length, hlen]
    · exact focusOnly_map_Value _ _

theorem closed_step (env : Env) (h : Heap) (m : toolEditorModel) (k : KeyMsg)
    (hhelp : m.showParameterHelp = false) (hedit : m.editingParameters = false)
    (hlen : m.inputs.length = 3) (h0 : 0 ≤ m.focused) (h3 : m.focused < 3)
    (hk : k.String = "tab" ∨ k.String = "shift+tab" ∨ k.String = "up" ∨ k.String = "down") :
    ∃ m', m.Update env h (Msg.KeyMsg k) = some (h, m', []) ∧
      m'.focused = (if k.String = "up" ∨ k.String = "shift+tab" then (m.focused + 2) % 3
        else (m.focused + 1) % 3) ∧
      m'.showParameterHelp = false ∧ m'.editingParameters = false ∧
      m'.inputs.length = 3 ∧ m.sameData m' := by
  have hq : k.String ≠ "q" := by
    rcases hk with hk | hk | hk | hk <;> rw [hk] <;> decide
  rw [Update_closed_key env h m k hhelp hedit hq, updateSwitch_move env h m k hk, hlen]
  obtain ⟨a, b, c, hi, hsync⟩ := syncInputs_three
    { m with
      focused :=
        if k.String = "up" ∨ k.String = "shift+tab" then
          (if m.focused - 1 < 0 then ((3 : Nat) : Int) - 1 else m.focused - 1)
        else (if m.focused + 1 ≥ ((3 : Nat) : Int) then 0 else m.focused + 1)
      inputs := focusOnly m.inputs
        (if k.String = "up" ∨ k.String = "shift+tab" then
          (if m.focused - 1 < 0 then ((3 : Nat) : Int) - 1 else m.focused - 1)
        else (if m.focused + 1 ≥ ((3 : Nat) : Int) then 0 else m.focused + 1)) }
    (by simp only [focusOnly_length, hlen])
  rw [hsync]
  refine ⟨_, rfl, ?_, hhelp, hedit, ?_, rfl, rfl, ?_, rfl⟩
  · show (if k.String = "up" ∨ k.String = "shift+tab" then
        (if m.focused - 1 < 0 then ((3 : Nat) : Int) - 1 else m.focused - 1)
      else (if m.focused + 1 ≥ ((3 : Nat) : Int) then 0 else m.focused + 1)) = _
    split_ifs <;> omega
  · show (focusOnly m.inputs _).length = 3
    rw [focusOnly_length, hlen]
  · exact focusOnly_map_Value _ _

theorem updateSwitch_alt_e (env : Env) (h : Heap) (m : toolEditorModel) (k : KeyMsg)
    (hk : k.String = "alt+e") :
    m.updateSwitch env h k = some (h, m.editSelected h, []) := by
  simp only [toolEditorModel.updateSwitch, hk, String.reduceEq, or_self, if_false, or_false,
    if_true]

theorem editParameter_fields (h : Heap) (m : toolEditorModel) (i : Int)
    (h0 : 0 ≤ i) (h1 : i < (sliceLen m.tool.Parameters : Int)) :
    m.editParameter h i =
      { m with
        parameterInputs := focusOnly (createParameterInputs
          ((h.readOpt m.tool.Parameters).getD i.toNat Parameter.zero) false) 0
        editingParameters := true
        currentParameter := i
        focused := 0 } := by
  unfold toolEditorModel.editParameter
  rw [if_neg (by omega)]

theorem paramInv_congr (m m' : toolEditorModel)
    (ht : m'.tool.Parameters = m.tool.Parameters)
    (hs : m'.selectedParamIndex = m.selectedParamIndex)
    (hc : m'.currentParameter = m.currentParameter)
    (he : m'.editingParameters = m.editingParameters)
    (hm : m.paramInv) : m'.paramInv := by
  unfold toolEditorModel.paramInv at hm ⊢
  rw [ht, hs, hc, he]
  exact hm

theorem paramInv_closed (m m' : toolEditorModel)
    (ht : m'.tool.Parameters = m.tool.Parameters)
    (hs : m'.selectedParamIndex = m.selectedParamIndex)
    (he : m'.editingParameters = false)
    (hm : m.paramInv) : m'.paramInv := by
  unfold toolEditorModel.paramInv at hm ⊢
  rw [ht, hs, he]
  exact ⟨hm.1, fun hc => (by cases hc)⟩

theorem append_len (h : Heap) (spare : Nat) (s : Option Slice) (x : Parameter) :
    (h.append spare s x).2.len = sliceLen s + 1 := by
  unfold Heap.append
  cases s with
  | none => rfl
  | some s =>
    simp only [sliceLen]
    split_ifs <;> rfl

theorem addNewParameter_paramInv (env : Env) (h : Heap) (m : toolEditorModel)
    (hm : m.paramInv) : (m.addNewParameter env h).2.paramInv := by
  have hl := append_len h env.spare m.tool.Parameters
    { ID := "p" ++ toString env.nowParam.unixNano, Name := "", Type_ := "string",
      Description := "", Required := true, Default := none, Options := none,
      Min := none, Max := none }
  obtain ⟨⟨h1, h2⟩, _⟩ := hm
  unfold toolEditorModel.paramInv toolEditorModel.addNewParameter
  simp only [sliceLen]
  rw [hl]
  push_cast
  exact ⟨⟨h1, by omega⟩, fun _ => ⟨by omega, by omega⟩⟩

theorem editParameter_paramInv (h : Heap) (m : toolEditorModel) (i : Int)
    (hm : m.paramInv) : (m.editParameter h i).paramInv := by
  unfold toolEditorModel.editParameter
  split_ifs with hg
  · exact hm
  · exact ⟨hm.1, fun _ => ⟨by show 0 ≤ i; omega,
      by show i < (sliceLen m.tool.Parameters : Int); omega⟩⟩

theorem editSelected_paramInv (h : Heap) (m : toolEditorModel) (hm : m.paramInv) :
    (m.editSelected h).paramInv := by
  unfold toolEditorModel.editSelected
  split_ifs with h1 h2
  · exact editParameter_paramInv h m _ hm
  · apply editParameter_paramInv
    exact ⟨⟨by show (-1 : Int) ≤ 0; decide,
      by show (0 : Int) < (sliceLen m.tool.Parameters : Int); omega⟩, hm.2⟩
  · exact hm

theorem deleteParameter_len (h : Heap) (m : toolEditorModel) (i : Int)
    (h0 : 0 ≤ i) (h1 : i < (sliceLen m.tool.Parameters : Int)) :
    (sliceLen (m.deleteParameter h i).2.tool.Parameters : Int) =
      (sliceLen m.tool.Parameters : Int) - 1 ∧
    (m.deleteParameter h i).2.selectedParamIndex =
      (if m.selectedParamIndex ≥ (sliceLen m.tool.Parameters : Int) - 1 then
        (sliceLen m.tool.Parameters : Int) - 2 else m.selectedParamIndex) ∧
    (m.deleteParameter h i).2.editingParameters = m.editingParameters ∧
    (m.deleteParameter h i).2.currentParameter = m.currentParameter := by
  unfold toolEditorModel.deleteParameter
  rw [if_neg (by omega)]
  cases hs : m.tool.Parameters with
  | none => simp [hs, sliceLen] at h1; omega
  | some s =>
    simp only [hs, sliceLen] at h1 ⊢
    have hr2 : (if i = (s.len : Int) - 1 then (h, ({ s with len := i.toNat } : Slice))
        else h.removeAt s i.toNat).2 = ⟨s.ptr, s.len - 1, s.cap⟩ := by
      split_ifs with hl
      · have ht : i.toNat = s.len - 1 := by omega
        show ({ s with len := i.toNat } : Slice) = _
        rw [ht]
      · rfl
    simp only [hr2]
    have hc : ((s.len - 1 : Nat) : Int) = (s.len : Int) - 1 := by omega
    split_ifs with h2 h3 h3
    · exact ⟨hc, by show ((s.len - 1 : Nat) : Int) - 1 = _; omega, rfl, rfl⟩
    · rw [hc] at h2
      omega
    · rw [hc] at h2
      omega
    · exact ⟨hc, rfl, rfl, rfl⟩

theorem deleteSelected_paramInv (h : Heap) (m : toolEditorModel) (hm : m.paramInv)
    (hedit : m.editingParameters = false) : (m.deleteSelected h).2.paramInv := by
  unfold toolEditorModel.deleteSelected
  split_ifs with hv
  · obtain ⟨hl, hs, he, _⟩ := deleteParameter_len h m m.selectedParamIndex hv.1 hv.2
    unfold toolEditorModel.paramInv
    rw [hl, hs, he, hedit]
    refine ⟨?_, fun hc => (by cases hc)⟩
    obtain ⟨⟨h1, h2⟩, _⟩ := hm
    split_ifs <;> constructor <;> omega
  · exact hm

theorem saveParameter_paramInv (h : Heap) (m : toolEditorModel) (hm : m.paramInv) :
    (m.saveParameter h).2.paramInv := by
  rcases saveParameter_state h m with hs | hs <;> rw [hs]
  · exact hm
  · exact paramInv_closed m _ rfl rfl rfl hm

theorem updateAllInputs_paramInv (env : Env) (m m' : toolEditorModel) (msg : Msg) (c : Cmd)
    (hlen : m.inputs.length = 3)
    (hu : m.updateAllInputs env msg = some (m', c)) (hm : m.paramInv) : m'.paramInv := by
  obtain ⟨m'', c'', hu', _, _, ht, _, _, _, _, he, _, hs, hc⟩ :=
    updateAllInputs_three env m msg hlen
  rw [hu'] at hu
  cases hu
  exact paramInv_congr m _ (by rw [ht]) hs hc he hm

theorem syncInputs_paramInv (m m' : toolEditorModel) (hs : m.syncInputs = some m')
    (hm : m.paramInv) : m'.paramInv := by
  unfold toolEditorModel.syncInputs at hs
  split at hs
  · cases hs
    exact paramInv_congr m _ rfl rfl rfl rfl hm
  · cases hs

theorem syncInputs_map_paramInv (h h' : Heap) (m m' : toolEditorModel) (c c' : Cmd)
    (hr : (m.syncInputs).map (fun m => (h, m, c)) = some (h', m', c')) (hm : m.paramInv) :
    m'.paramInv := by
  cases hs : m.syncInputs with
  | none => simp [hs] at hr
  | some m'' =>
    simp only [hs, Option.map_some', Option.some.injEq, Prod.mk.injEq] at hr
    obtain ⟨_, rfl, _⟩ := hr
    exact syncInputs_paramInv m m'' hs hm

theorem updateEditing_tool (env : Env) (h : Heap) (m : toolEditorModel) (k : KeyMsg) :
    (m.updateEditing env h k).2.1.tool = m.tool ∧
    (m.updateEditing env h k).2.1.selectedParamIndex = m.selectedParamIndex ∧
    (m.updateEditing env h k).2.1.currentParameter = m.currentParameter ∧
    ((m.updateEditing env h k).2.1.editingParameters = true →
      m.editingParameters = true) := by
  by_cases h1 : k.String = "esc"
  · simp only [toolEditorModel.updateEditing, h1, if_true]
    exact ⟨rfl, rfl, rfl, fun hc => (by cases hc)⟩
  by_cases h2 : k.String = "enter"
  · rw [updateEditing_enter env h m k h2]
    split_ifs
    · rcases saveParameter_state h m with hs | hs <;> rw [hs]
      · exact ⟨rfl, rfl, rfl, fun hc => hc⟩
      · exact ⟨rfl, rfl, rfl, fun hc => (by cases hc)⟩
    · exact ⟨rfl, rfl, rfl, fun hc => hc⟩
    · exact ⟨rfl, rfl, rfl, fun hc => hc⟩
  by_cases h3 : k.String = "tab"
  · rw [updateEditing_tab env h m k h3]
    exact ⟨rfl, rfl, rfl, fun hc => hc⟩
  by_cases h4 : k.String = "shift+tab"
  · rw [updateEditing_shift_tab env h m k h4]
    exact ⟨rfl, rfl, rfl, fun hc => hc⟩
  · rw [updateEditing_other env h m k h1 h2 h3 h4]
    exact ⟨rfl, rfl, rfl, fun hc => hc⟩

theorem updateEditing_paramInv (env : Env) (h : Heap) (m : toolEditorModel) (k : KeyMsg)
    (hm : m.paramInv) : (m.updateEditing env h k).2.1.paramInv := by
  obtain ⟨ht, hs, hc, he⟩ := updateEditing_tool env h m k
  unfold toolEditorModel.paramInv at hm ⊢
  rw [ht, hs, hc]
  exact ⟨hm.1, fun hc => hm.2 (he hc)⟩

theorem updateDefault_paramInv (env : Env) (h h' : Heap) (m m' : toolEditorModel) (k : KeyMsg)
    (c : Cmd) (hlen : m.inputs.length = 3) (hm : m.paramInv)
    (hedit : m.editingParameters = false)
    (hr : m.updateDefault env h k = some (h', m', c)) : m'.paramInv := by
  unfold toolEditorModel.updateDefault at hr
  by_cases h1 : k.Alt ∧ (String.mk k.Runes = "p" ∨ String.mk k.Runes = "P")
  · rw [if_pos h1] at hr
    cases hr
    exact addNewParameter_paramInv env h m hm
  rw [if_neg h1] at hr
  by_cases h2 : k.Alt ∧ (String.mk k.Runes = "e" ∨ String.mk k.Runes = "E")
  · rw [if_pos h2] at hr
    cases hr
    exact editSelected_paramInv h m hm
  rw [if_neg h2] at hr
  by_cases h3 : k.Alt ∧ (String.mk k.Runes = "d" ∨ String.mk k.Runes = "D")
  · rw [if_pos h3] at hr
    cases hr
    exact deleteSelected_paramInv h m hm hedit
  rw [if_neg h3] at hr
  by_cases h4 : k.String = "?"
  · rw [if_pos h4] at hr
    cases hr
    exact paramInv_congr m _ rfl rfl rfl rfl hm
  rw [if_neg h4] at hr
  by_cases h5 : k.String = "enter"
  · rw [if_pos h5] at hr
    by_cases h6 : m.focused = (m.inputs.length : Int) - 1
    · rw [if_pos h6] at hr
      cases hr
      exact paramInv_congr m _ rfl rfl rfl rfl hm
    · rw [if_neg h6] at hr
      simp only [] at hr
      split_ifs at hr <;>
        exact syncInputs_map_paramInv _ _ _ _ _ _ hr (paramInv_congr m _ rfl rfl rfl rfl hm)
  · rw [if_neg h5] at hr
    cases hu : m.updateAllInputs env (Msg.KeyMsg k) with
    | none => simp [hu] at hr
    | some r =>
      obtain ⟨m'', c''⟩ := r
      simp only [hu, Option.map_some', Option.some.injEq, Prod.mk.injEq] at hr
      obtain ⟨_, rfl, _⟩ := hr
      exact updateAllInputs_paramInv env m m'' _ c'' hlen hu hm

theorem selection_step_paramInv (m : toolEditorModel) (s : Int)
    (hedit : m.editingParameters = false)
    (h0 : -1 ≤ s) (h1 : s < (sliceLen m.tool.Parameters : Int)) :
    ({ m with selectedParamIndex := s } : toolEditorModel).paramInv :=
  ⟨⟨h0, h1⟩, fun hc => (by
    have hc' : m.editingParameters = true := hc
    rw [hedit] at hc'
    cases hc')⟩

theorem updateSwitch_paramInv (env : Env) (h h' : Heap) (m m' : toolEditorModel) (k : KeyMsg)
    (c : Cmd) (hlen : m.inputs.length = 3) (hm : m.paramInv)
    (hedit : m.editingParameters = false)
    (hr : m.updateSwitch env h k = some (h', m', c)) : m'.paramInv := by
  have hs0 := hm.1.1
  have hs1 := hm.1.2
  by_cases hmv :
      k.String = "tab" ∨ k.String = "shift+tab" ∨ k.String = "up" ∨ k.String = "down"
  · rw [updateSwitch_move env h m k hmv] at hr
    exact syncInputs_map_paramInv _ _ _ _ _ _ hr (paramInv_congr m _ rfl rfl rfl rfl hm)
  unfold toolEditorModel.updateSwitch at hr
  by_cases h1 : k.String = "ctrl+c"
  · rw [if_pos h1] at hr
    cases hr
    exact hm
  rw [if_neg h1, if_neg hmv] at hr
  by_cases h2 : k.String = "alt+up" ∨ k.String = "up+alt"
  · rw [if_pos h2] at hr
    by_cases hz : sliceLen m.tool.Parameters = 0
    · rw [if_pos hz] at hr
      cases hr
      exact hm
    · rw [if_neg hz] at hr
      simp only [] at hr
      by_cases hw : m.selectedParamIndex - 1 < 0
      · rw [if_pos hw] at hr
        cases hr
        exact selection_step_paramInv m _ hedit (by omega) (by omega)
      · rw [if_neg hw] at hr
        cases hr
        exact selection_step_paramInv m _ hedit (by omega) (by omega)
  rw [if_neg h2] at hr
  by_cases h3 : k.String = "alt+down" ∨ k.String = "down+alt"
  · rw [if_pos h3] at hr
    by_cases hz : sliceLen m.tool.Parameters = 0
    · rw [if_pos hz] at hr
      cases hr
      exact hm
    · rw [if_neg hz] at hr
      simp only [] at hr
      by_cases hw : m.selectedParamIndex + 1 ≥ (sliceLen m.tool.Parameters : Int)
      · rw [if_pos hw] at hr
        cases hr
        exact selection_step_paramInv m _ hedit (by omega) (by omega)
      · rw [if_neg hw] at hr
        cases hr
        exact selection_step_paramInv m _ hedit (by omega) (by omega)
  rw [if_neg h3] at hr
  by_cases h4 : k.String = "alt+p" ∨ k.String = "p+alt"
  · rw [if_pos h4] at hr
    cases hr
    exact addNewParameter_paramInv env h m hm
  rw [if_neg h4] at hr
  by_cases h5 : k.String = "alt+e" ∨ k.String = "e+alt"
  · rw [if_pos h5] at hr
    cases hr
    exact editSelected_paramInv h m hm
  rw [if_neg h5] at hr
  by_cases h6 : k.String = "alt+d" ∨ k.String = "d+alt"
  · rw [if_pos h6] at hr
    cases hr
    exact deleteSelected_paramInv h m hm hedit
  rw [if_neg h6] at hr
  exact updateDefault_paramInv env h h' m m' k c hlen hm hedit hr

theorem Update_paramInv (env : Env) (h h' : Heap) (m m' : toolEditorModel) (msg : Msg)
    (c : Cmd) (hlen : m.inputs.length = 3) (hm : m.paramInv)
    (hr : m.Update env h msg = some (h', m', c)) : m'.paramInv := by
  unfold toolEditorModel.Update at hr
  cases msg with
  | WindowSizeMsg width height =>
    simp only [] at hr
    exact syncInputs_map_paramInv _ _ _ _ _ _ hr (paramInv_congr m _ rfl rfl rfl rfl hm)
  | RefreshToolsMsg =>
    simp only [] at hr
    cases hu : m.updateAllInputs env Msg.RefreshToolsMsg with
    | none => simp [hu] at hr
    | some r =>
      obtain ⟨m'', c''⟩ := r
      simp only [hu, Option.map_some', Option.some.injEq, Prod.mk.injEq] at hr
      obtain ⟨_, rfl, _⟩ := hr
      exact updateAllInputs_paramInv env m m'' _ c'' hlen hu hm
  | KeyMsg k =>
    simp only [] at hr
    by_cases hh : m.showParameterHelp = true
    · rw [if_pos hh] at hr
      split_ifs at hr <;> cases hr
      · exact paramInv_congr m _ rfl rfl rfl rfl hm
      · exact hm
    rw [if_neg hh] at hr
    by_cases he : m.editingParameters = true
    · rw [if_pos he] at hr
      have e := Option.some.inj hr
      have hm' : m' = (m.updateEditing env h k).2.1 := by rw [e]
      rw [hm']
      exact updateEditing_paramInv env h m k hm
    rw [if_neg he] at hr
    have he' : m.editingParameters = false := by simpa using he
    by_cases hq : k.String = "q"
    · rw [if_pos hq] at hr
      cases hi : indexInt m.inputs m.focused with
      | none => simp [hi] at hr
      | some input =>
        simp only [hi] at hr
        split_ifs at hr
        · cases hr
          exact hm
        · exact updateSwitch_paramInv env h h' m m' k c hlen hm he' hr
    · rw [if_neg hq] at hr
      exact updateSwitch_paramInv env h h' m m' k c hlen hm he' hr

theorem newToolEditorModel_paramInv : newToolEditorModel.paramInv :=
  ⟨⟨le_refl _, (show (-1 : Int) < 0 by decide)⟩, fun hc => (by cases hc)⟩

theorem newToolEditorModelWithTool_paramInv (tool : Tool) :
    (newToolEditorModelWithTool tool).paramInv := by
  obtain ⟨_, _, _, _, _, _, hs⟩ := newToolEditorModelWithTool_inputs tool
  obtain ⟨_, he, _⟩ := newToolEditorModelWithTool_closed tool
  unfold toolEditorModel.paramInv
  rw [hs, he]
  exact ⟨⟨le_refl _, by omega⟩, fun hc => (by cases hc)⟩

theorem FormReachable_paramInv (h : Heap) (m : toolEditorModel) (hr : FormReachable h m) :
    m.paramInv := by
  induction hr with
  | new h => exact newToolEditorModel_paramInv
  | withTool h tool => exact newToolEditorModelWithTool_paramInv tool
  | update env msg h h' m m' cmd hprev hu ih =>
    exact Update_paramInv env h h' m m' msg cmd (FormReachable_focusInv h m hprev).1 ih hu

theorem list_length_four (xs : List textinput.Model) (hl : xs.length = 4) :
    ∃ i0 i1 i2 i3, xs = [i0, i1, i2, i3] := by
  match xs, hl with
  | [a, b, c, d], _ => exact ⟨a, b, c, d, rfl⟩

theorem sliceLen_pos (s : Option Slice) (c : Int) (h0 : 0 ≤ c) (h1 : c < (sliceLen s : Int)) :
    ∃ s', s = some s' ∧ c < (s'.len : Int) := by
  cases s with
  | none => simp [sliceLen] at h1; omega
  | some s' => exact ⟨s', rfl, h1⟩

theorem Sanitize_keeps (l : List Char)
    (hl : ∀ c ∈ l, textinput.IsControl c = false ∧ c ≠ Char.ofNat 0xFFFD) :
    textinput.Sanitize l = l := by
  induction l with
  | nil => rfl
  | cons c cs ih =>
    have hc := hl c (List.mem_cons_self _ _)
    have hcs : textinput.Sanitize cs = cs := ih (fun x hx => hl x (List.mem_cons_of_mem _ hx))
    have h1 : ¬ (c = '\r' ∨ c = '\n') := by
      intro h
      rcases h with h | h <;> rw [h] at hc <;> exact absurd hc.1 (by decide)
    have h2 : c ≠ '\t' := by
      intro h
      rw [h] at hc
      exact absurd hc.1 (by decide)
    unfold textinput.Sanitize at hcs ⊢
    rw [List.filterMap_cons]
    simp only [hc.2, h1, h2, hc.1, if_false, Bool.false_eq_true]
    rw [hcs]

theorem modify_fixed (l : List Parameter) (f : Parameter → Parameter) (i : Nat)
    (p : Parameter) (hp : l[i]? = some p) (hf : f p = p) : l.modify f i = l := by
  apply List.ext_getElem?
  intro j
  rw [List.getElem?_modify]
  by_cases hij : i = j
  · subst hij
    rw [hp]
    simp only [if_true, Option.map_eq_map, Option.map_some', hf]
  · cases l[j]? <;> simp only [hij, if_false, Option.map_eq_map, Option.map_some',
      Option.map_none']

theorem type_fits (t : String) (ht : t ∈ ParameterTypes) :
    String.mk ((textinput.Sanitize t.data).take 20) = t := by
  simp only [ParameterTypes, List.mem_cons, List.mem_singleton, List.not_mem_nil,
    or_false] at ht
  rcases ht with h | h | h | h | h <;> rw [h] <;> decide

theorem required_roundtrip (b : Bool) :
    (if ToLower (String.mk (FormatBool b).data) = "false" then false else true) = b := by
  cases b <;> decide

theorem readOpt_index_lt (h : Heap) (s : Option Slice) (i : Nat) (p : Parameter)
    (hp : (h.readOpt s)[i]? = some p) : i < sliceLen s := by
  have hi := (List.getElem?_eq_some_iff.mp hp).1
  cases s with
  | none => simp [Heap.readOpt] at hi
  | some s' =>
    simp only [Heap.readOpt, Heap.read, List.length_take] at hi
    simp only [sliceLen]
    omega

theorem AddTool_stores (w : World) (tool : Tool) (idNow modNow : Time) (o : SaveOutcome)
    (hp : tool.Parameters ≠ none) :
    (Store.AddTool w tool idNow modNow o).store.tools =
      w.store.tools.insert (generateID idNow)
        { tool with ID := generateID idNow, LastModified := modNow } ∧
    (Store.AddTool w tool idNow modNow o).heap = w.heap := by
  unfold Store.AddTool
  simp only [save_store, save_heap]
  rw [if_neg hp]
  exact ⟨rfl, trivial⟩

theorem UpdateTool_stores (w : World) (tool old : Tool) (modNow : Time) (o : SaveOutcome)
    (hold : w.store.tools.lookup tool.ID = some old) (hp : tool.Parameters ≠ none) :
    (Store.UpdateTool w tool modNow o).1.store.tools =
      w.store.tools.insert tool.ID { tool with LastModified := modNow } ∧
    (Store.UpdateTool w tool modNow o).1.heap = w.heap := by
  unfold Store.UpdateTool
  simp only [hold, save_store, save_heap]
  rw [if_neg hp]
  exact ⟨rfl, trivial⟩

theorem UpdateTool_absent (w : World) (tool : Tool) (modNow : Time) (o : SaveOutcome)
    (hold : w.store.tools.lookup tool.ID = none) :
    (Store.UpdateTool w tool modNow o).1 = w := by
  unfold Store.UpdateTool
  simp only [hold]

theorem getTool_parameters (h : Heap) (m : toolEditorModel) (now : Time) :
    (m.getTool now).Parameters ≠ none ∧
    h.readOpt (m.getTool now).Parameters = h.readOpt m.tool.Parameters ∧
    (m.getTool now).Status = (if m.tool.Status = "" then "active" else m.tool.Status) := by
  unfold toolEditorModel.getTool
  simp only []
  cases hp : m.tool.Parameters <;> by_cases hs : m.tool.Status = "" <;>
    simp [hs, Heap.readOpt, Heap.read, Slice.empty]

theorem mem_GetTools_of_lookup (s : Store) (k : String) (t : Tool)
    (hl : s.tools.lookup k = some t) : t ∈ s.GetTools := by
  have hm : (⟨k, t⟩ : Sigma fun _ : String => Tool) ∈ s.tools.entries :=
    AList.mem_lookup_iff.mp hl
  exact List.mem_map.mpr ⟨_, hm, rfl⟩

theorem GetTools_lookup (s : Store) (hk : s.keyed) (t : Tool) (ht : t ∈ s.GetTools) :
    s.tools.lookup t.ID = some t := by
  obtain ⟨e, he, rfl⟩ := List.mem_map.mp ht
  have hl : s.tools.lookup e.1 = some e.2 := AList.mem_lookup_iff.mpr he
  rw [(hk e.1 e.2 hl).1]
  exact hl

theorem syncInputs_map_tool (h h' : Heap) (m m' : toolEditorModel) (c c' : Cmd)
    (hr : (m.syncInputs).map (fun m => (h, m, c)) = some (h', m', c')) : m'.tool = m.tool := by
  cases hs : m.syncInputs with
  | none => simp [hs] at hr
  | some m'' =>
    simp only [hs, Option.map_some', Option.some.injEq, Prod.mk.injEq] at hr
    obtain ⟨_, rfl, _⟩ := hr
    exact (syncInputs_fields m m'' hs).2.2.2.2.1

theorem updateAllInputs_toolID (env : Env) (m m' : toolEditorModel) (msg : Msg) (c : Cmd)
    (hu : m.updateAllInputs env msg = some (m', c)) : m'.tool.ID = m.tool.ID := by
  unfold toolEditorModel.updateAllInputs at hu
  simp only at hu
  split at hu
  · exact absurd hu (by simp)
  · next m'' hs =>
    simp only [Option.some.injEq, Prod.mk.injEq] at hu
    obtain ⟨rfl, _⟩ := hu
    have ht := (syncInputs_fields _ m'' hs).2.2.2.2.1
    show m''.tool.ID = m.tool.ID
    rw [ht]

theorem editParameter_tool (h : Heap) (m : toolEditorModel) (i : Int) :
    (m.editParameter h i).tool = m.tool := by
  unfold toolEditorModel.editParameter
  split_ifs <;> rfl

theorem editSelected_tool (h : Heap) (m : toolEditorModel) :
    (m.editSelected h).tool = m.tool := by
  unfold toolEditorModel.editSelected
  split_ifs
  · exact editParameter_tool h m _
  · exact editParameter_tool h _ _
  · rfl

theorem deleteParameter_toolID (h : Heap) (m : toolEditorModel) (i : Int) :
    (m.deleteParameter h i).2.tool.ID = m.tool.ID := by
  unfold toolEditorModel.deleteParameter
  split_ifs
  · rfl
  · split
    · rfl
    · simp only []
      split_ifs <;> rfl

theorem deleteSelected_toolID (h : Heap) (m : toolEditorModel) :
    (m.deleteSelected h).2.tool.ID = m.tool.ID := by
  unfold toolEditorModel.deleteSelected
  split_ifs
  · exact deleteParameter_toolID h m _
  · rfl

theorem updateDefault_toolID (env : Env) (h h' : Heap) (m m' : toolEditorModel) (k : KeyMsg)
    (c : Cmd) (hr : m.updateDefault env h k = some (h', m', c)) : m'.tool.ID = m.tool.ID := by
  unfold toolEditorModel.updateDefault at hr
  by_cases h1 : k.Alt ∧ (String.mk k.Runes = "p" ∨ String.mk k.Runes = "P")
  · rw [if_pos h1] at hr
    cases hr
    rfl
  rw [if_neg h1] at hr
  by_cases h2 : k.Alt ∧ (String.mk k.Runes = "e" ∨ String.mk k.Runes = "E")
  · rw [if_pos h2] at hr
    cases hr
    rw [editSelected_tool]
  rw [if_neg h2] at hr
  by_cases h3 : k.Alt ∧ (String.mk k.Runes = "d" ∨ String.mk k.Runes = "D")
  · rw [if_pos h3] at hr
    cases hr
    exact deleteSelected_toolID h m
  rw [if_neg h3] at hr
  by_cases h4 : k.String = "?"
  · rw [if_pos h4] at hr
    cases hr
    rfl
  rw [if_neg h4] at hr
  by_cases h5 : k.String = "enter"
  · rw [if_pos h5] at hr
    by_cases h6 : m.focused = (m.inputs.length : Int) - 1
    · rw [if_pos h6] at hr
      cases hr
      rfl
    · rw [if_neg h6] at hr
      simp only [] at hr
      split_ifs at hr <;> rw [syncInputs_map_tool _ _ _ _ _ _ hr]
  · rw [if_neg h5] at hr
    cases hu : m.updateAllInputs env (Msg.KeyMsg k) with
    | none => simp [hu] at hr
    | some r =>
      obtain ⟨m'', c''⟩ := r
      simp only [hu, Option.map_some', Option.some.injEq, Prod.mk.injEq] at hr
      obtain ⟨_, rfl, _⟩ := hr
      exact updateAllInputs_toolID env m m'' _ c'' hu

theorem updateSwitch_toolID (env : Env) (h h' : Heap) (m m' : toolEditorModel) (k : KeyMsg)
    (c : Cmd) (hr : m.updateSwitch env h k = some (h', m', c)) : m'.tool.ID = m.tool.ID := by
  by_cases hmv :
      k.String = "tab" ∨ k.String = "shift+tab" ∨ k.String = "up" ∨ k.String = "down"
  · rw [updateSwitch_move env h m k hmv] at hr
    rw [syncInputs_map_tool _ _ _ _ _ _ hr]
  unfold toolEditorModel.updateSwitch at hr
  by_cases h1 : k.String = "ctrl+c"
  · rw [if_pos h1] at hr
    cases hr
    rfl
  rw [if_neg h1, if_neg hmv] at hr
  by_cases h2 : k.String = "alt+up" ∨ k.String = "up+alt"
  · rw [if_pos h2] at hr
    split_ifs at hr <;> cases hr <;> first
      | rfl
      | (split_ifs <;> rfl)
  rw [if_neg h2] at hr
  by_cases h3 : k.String = "alt+down" ∨ k.String = "down+alt"
  · rw [if_pos h3] at hr
    split_ifs at hr <;> cases hr <;> first
      | rfl
      | (split_ifs <;> rfl)
  rw [if_neg h3] at hr
  by_cases h4 : k.String = "alt+p" ∨ k.String = "p+alt"
  · rw [if_pos h4] at hr
    cases hr
    rfl
  rw [if_neg h4] at hr
  by_cases h5 : k.String = "alt+e" ∨ k.String = "e+alt"
  · rw [if_pos h5] at hr
    cases hr
    rw [editSelected_tool]
  rw [if_neg h5] at hr
  by_cases h6 : k.String = "alt+d" ∨ k.String = "d+alt"
  · rw [if_pos h6] at hr
    cases hr
    exact deleteSelected_toolID h m
  rw [if_neg h6] at hr
  exact updateDefault_toolID env h h' m m' k c hr

theorem Update_toolID (env : Env) (h h' : Heap) (m m' : toolEditorModel) (msg : Msg)
    (c : Cmd) (hr : m.Update env h msg = some (h', m', c)) : m'.tool.ID = m.tool.ID := by
  unfold toolEditorModel.Update at hr
  cases msg with
  | WindowSizeMsg width height =>
    simp only [] at hr
    rw [syncInputs_map_tool _ _ _ _ _ _ hr]
  | RefreshToolsMsg =>
    simp only [] at hr
    cases hu : m.updateAllInputs env Msg.RefreshToolsMsg with
    | none => simp [hu] at hr
    | some r =>
      obtain ⟨m'', c''⟩ := r
      simp only [hu, Option.map_some', Option.some.injEq, Prod.mk.injEq] at hr
      obtain ⟨_, rfl, _⟩ := hr
      exact updateAllInputs_toolID env m m'' _ c'' hu
  | KeyMsg k =>
    simp only [] at hr
    by_cases hh : m.showParameterHelp = true
    · rw [if_pos hh] at hr
      split_ifs at hr <;> cases hr <;> rfl
    rw [if_neg hh] at hr
    by_cases he : m.editingParameters = true
    · rw [if_pos he] at hr
      have e := Option.some.inj hr
      have hm' : m' = (m.updateEditing env h k).2.1 := by rw [e]
      rw [hm', (updateEditing_tool env h m k).1]
    rw [if_neg he] at hr
    by_cases hq : k.String = "q"
    · rw [if_pos hq] at hr
      cases hi : indexInt m.inputs m.focused with
      | none => simp [hi] at hr
      | some input =>
        simp only [hi] at hr
        split_ifs at hr
        · cases hr
          rfl
        · exact updateSwitch_toolID env h h' m m' k c hr
    · rw [if_neg hq] at hr
      exact updateSwitch_toolID env h h' m m' k c hr

theorem AddTool_grows (w : World) (tool : Tool) (idNow modNow : Time) (o : SaveOutcome)
    (k : String) (hk : w.store.tools.lookup k ≠ none) :
    (Store.AddTool w tool idNow modNow o).store.tools.lookup k ≠ none := by
  obtain ⟨t, _, ht⟩ := AddTool_tools w tool idNow modNow o
  rw [ht]
  by_cases he : k = t.ID
  · rw [he, AList.lookup_insert]
    exact Option.some_ne_none _
  · rw [AList.lookup_insert_ne he]
    exact hk

theorem UpdateTool_grows (w : World) (tool : Tool) (modNow : Time) (o : SaveOutcome)
    (k : String) (hk : w.store.tools.lookup k ≠ none) :
    (Store.UpdateTool w tool modNow o).1.store.tools.lookup k ≠ none := by
  unfold Store.UpdateTool
  cases hl : w.store.tools.lookup tool.ID with
  | none => exact hk
  | some old =>
    simp only [save_store]
    by_cases he : k = tool.ID
    · split_ifs <;> rw [he, AList.lookup_insert] <;> exact Option.some_ne_none _
    · split_ifs <;> rw [AList.lookup_insert_ne he] <;> exact hk

theorem toolList_Update_tools (env : Env) (s : Store) (m : toolListModel) (msg : Msg) :
    (m.Update env s msg).1.tools = m.tools ∨ (m.Update env s msg).1.tools = s.GetTools := by
  unfold toolListModel.Update
  cases msg with
  | WindowSizeMsg width height => exact Or.inl rfl
  | RefreshToolsMsg =>
    simp only [toolListModel.RefreshTools]
    split_ifs
    · exact Or.inr rfl
    · exact Or.inl rfl
  | KeyMsg k =>
    simp only []
    split
    · exact Or.inl rfl
    · exact Or.inl rfl

theorem toolList_Update_idInv (env : Env) (w : World) (m : toolListModel) (msg : Msg)
    (hk : w.store.keyed) (hl : ∀ t ∈ m.tools, w.store.tools.lookup t.ID ≠ none) :
    ∀ t ∈ (m.Update env w.store msg).1.tools, w.store.tools.lookup t.ID ≠ none := by
  intro t ht
  rcases toolList_Update_tools env w.store m msg with he | he <;> rw [he] at ht
  · exact hl t ht
  · rw [GetTools_lookup w.store hk t ht]
    exact Option.some_ne_none _

theorem updateCurrentView_idInv (env : Env) (w w' : World) (m m' : appModel) (msg : Msg)
    (cmd : Cmd) (hinv : m.idInv w)
    (hr : m.updateCurrentView env w msg = some (w', m', cmd)) : m'.idInv w' := by
  obtain ⟨hk, hl, he⟩ := hinv
  unfold appModel.updateCurrentView at hr
  by_cases h1 : m.currentView = "list"
  · rw [if_pos h1] at hr
    simp only [Option.some.injEq, Prod.mk.injEq] at hr
    obtain ⟨rfl, rfl, _⟩ := hr
    exact ⟨hk, toolList_Update_idInv env w m.toolList msg hk hl, he⟩
  rw [if_neg h1] at hr
  by_cases h2 : m.currentView = "editor"
  · rw [if_pos h2] at hr
    cases msg with
    | KeyMsg k =>
      simp only [Option.some.injEq, Prod.mk.injEq] at hr
      obtain ⟨rfl, rfl, _⟩ := hr
      exact ⟨hk, hl, he⟩
    | WindowSizeMsg width height =>
      simp only [] at hr
      cases hu : m.toolEditor.Update env w.heap (Msg.WindowSizeMsg width height) with
      | none => simp [hu] at hr
      | some r =>
        obtain ⟨h', ed, c⟩ := r
        simp only [hu, Option.map_some', Option.some.injEq, Prod.mk.injEq] at hr
        obtain ⟨rfl, rfl, _⟩ := hr
        have hid := Update_toolID env w.heap h' m.toolEditor ed _ c hu
        exact ⟨hk, hl, by show ed.tool.ID = "" ∨ w.store.tools.lookup ed.tool.ID ≠ none
                          rw [hid]; exact he⟩
    | RefreshToolsMsg =>
      simp only [] at hr
      cases hu : m.toolEditor.Update env w.heap Msg.RefreshToolsMsg with
      | none => simp [hu] at hr
      | some r =>
        obtain ⟨h', ed, c⟩ := r
        simp only [hu, Option.map_some', Option.some.injEq, Prod.mk.injEq] at hr
        obtain ⟨rfl, rfl, _⟩ := hr
        have hid := Update_toolID env w.heap h' m.toolEditor ed _ c hu
        exact ⟨hk, hl, by show ed.tool.ID = "" ∨ w.store.tools.lookup ed.tool.ID ≠ none
                          rw [hid]; exact he⟩
  · rw [if_neg h2] at hr
    simp only [Option.some.injEq, Prod.mk.injEq] at hr
    obtain ⟨rfl, rfl, _⟩ := hr
    exact ⟨hk, hl, he⟩

theorem newToolEditorModelWithTool_toolID (tool : Tool) :
    (newToolEditorModelWithTool tool).tool.ID = tool.ID := by
  rw [newToolEditorModelWithTool_tool]
  split_ifs <;> rfl

theorem updateEditorKey_idInv (env : Env) (w w' : World) (m m' : appModel) (k : KeyMsg)
    (cmd : Cmd) (hinv : m.idInv w)
    (hr : m.updateEditorKey env w k = some (w', m', cmd)) : m'.idInv w' := by
  obtain ⟨hk, hl, he⟩ := hinv
  cases hu : m.toolEditor.Update env w.heap (Msg.KeyMsg k) with
  | none => simp [appModel.updateEditorKey, hu] at hr
  | some r =>
    obtain ⟨h, ed, c⟩ := r
    have hid : ed.tool.ID = m.toolEditor.tool.ID :=
      Update_toolID env w.heap h m.toolEditor ed _ c hu
    have he' : ed.tool.ID = "" ∨ w.store.tools.lookup ed.tool.ID ≠ none := by
      rw [hid]; exact he
    by_cases hs : ed.saving = true
    · rw [updateEditorKey_saving env w m k h ed c hu hs] at hr
      simp only [Option.some.injEq, Prod.mk.injEq] at hr
      obtain ⟨hw, hm, _⟩ := hr
      have hk' : w'.store.keyed := by
        rw [← hw]
        split_ifs
        · exact AddTool_keyed _ _ _ _ _ hk
        · exact UpdateTool_keyed _ _ _ _ hk
      refine ⟨hk', ?_, ?_⟩
      · intro t ht
        rw [← hm] at ht
        have ht' : t ∈ w'.store.GetTools := by
          rw [← hw]
          simpa [newToolListModel] using ht
        rw [GetTools_lookup w'.store hk' t ht']
        exact Option.some_ne_none _
      · rw [← hm]
        show ed.tool.ID = "" ∨ w'.store.tools.lookup ed.tool.ID ≠ none
        rcases he' with he' | he'
        · exact Or.inl he'
        · right
          rw [← hw]
          split_ifs
          · exact AddTool_grows { w with heap := h } _ _ _ _ _ he'
          · exact UpdateTool_grows { w with heap := h } _ _ _ _ he'
    · have hsf : ed.saving = false := by simpa using hs
      simp only [appModel.updateEditorKey, hu, hsf, Bool.false_eq_true, if_false] at hr
      split_ifs at hr <;> simp only [Option.some.injEq, Prod.mk.injEq] at hr <;>
        obtain ⟨rfl, rfl, _⟩ := hr <;> exact ⟨hk, hl, he'⟩

theorem Router_idInv (env : Env) (w w' : World) (m m' : appModel) (msg : Msg) (cmd : Cmd)
    (hinv : m.idInv w) (hr : appModel.Update env w m msg = some (w', m', cmd)) :
    m'.idInv w' := by
  cases msg with
  | WindowSizeMsg width height =>
    obtain ⟨hk, hl, he⟩ := hinv
    simp only [appModel.Update] at hr
    cases hu : m.toolEditor.Update env w.heap (Msg.WindowSizeMsg width height) with
    | none => simp [hu] at hr
    | some r =>
      obtain ⟨h', ed, c⟩ := r
      simp only [hu, Option.map_some', Option.some.injEq, Prod.mk.injEq] at hr
      obtain ⟨rfl, rfl, _⟩ := hr
      have hid := Update_toolID env w.heap h' m.toolEditor ed _ c hu
      refine ⟨hk, toolList_Update_idInv env w m.toolList _ hk hl, ?_⟩
      show ed.tool.ID = "" ∨ w.store.tools.lookup ed.tool.ID ≠ none
      rw [hid]; exact he
  | RefreshToolsMsg => exact updateCurrentView_idInv env w w' m m' _ cmd hinv hr
  | KeyMsg k =>
    simp only [appModel.Update] at hr
    by_cases h1 : m.currentView = "editor"
    · rw [if_pos h1] at hr
      exact updateEditorKey_idInv env w w' m m' k cmd hinv hr
    rw [if_neg h1] at hr
    by_cases h2 : (k.String = "ctrl+c" ∨ k.String = "q") ∧ m.currentView = "list"
    · rw [if_pos h2] at hr
      simp only [Option.some.injEq, Prod.mk.injEq] at hr
      obtain ⟨rfl, rfl, _⟩ := hr
      exact hinv
    rw [if_neg h2] at hr
    by_cases h3 : k.String = "enter" ∧ m.currentView = "list"
    · rw [if_pos h3] at hr
      obtain ⟨hk, hl, he⟩ := hinv
      by_cases h4 : m.toolList.tools.length > 0 ∧ m.toolList.selected ≥ 0
      · rw [if_pos h4] at hr
        cases hg : m.toolList.tools[m.toolList.selected.toNat]? with
        | none => simp [hg] at hr
        | some t =>
          simp only [hg, Option.some.injEq, Prod.mk.injEq] at hr
          obtain ⟨rfl, rfl, _⟩ := hr
          refine ⟨hk, hl, Or.inr ?_⟩
          show w.store.tools.lookup (newToolEditorModelWithTool t).tool.ID ≠ none
          rw [newToolEditorModelWithTool_toolID]
          exact hl t (List.getElem?_mem hg)
      · rw [if_neg h4] at hr
        simp only [Option.some.injEq, Prod.mk.injEq] at hr
        obtain ⟨rfl, rfl, _⟩ := hr
        exact ⟨hk, hl, Or.inl rfl⟩
    · rw [if_neg h3] at hr
      exact updateCurrentView_idInv env w w' m m' _ cmd hinv hr

theorem newAppModel_idInv (w : World) (hk : w.store.keyed) : (newAppModel w.store).idInv w := by
  refine ⟨hk, ?_, Or.inl rfl⟩
  intro t ht
  have ht' : t ∈ w.store.GetTools := by simpa [newAppModel, newToolListModel] using ht
  rw [GetTools_lookup w.store hk t ht']
  exact Option.some_ne_none _

theorem AppReachable_idInv (w : World) (m : appModel) (hr : AppReachable w m) : m.idInv w := by
  induction hr with
  | start w hk => exact newAppModel_idInv w hk
  | update env msg w w' m m' cmd _ hu ih => exact Router_idInv env w w' m m' msg cmd ih hu

theorem deliver_reachable (env : Env) (msgs : List Msg) (s s' : World × appModel × Cmd)
    (hs : AppReachable s.1 s.2.1) (hd : deliver env s msgs = some s') :
    AppReachable s'.1 s'.2.1 := by
  induction msgs generalizing s with
  | nil =>
    simp only [deliver, Option.some.injEq] at hd
    rw [← hd]; exact hs
  | cons msg rest ih =>
    simp only [deliver] at hd
    cases hu : appModel.Update env s.1 s.2.1 msg with
    | none => simp [hu] at hd
    | some r =>
      simp only [hu] at hd
      exact ih r (AppReachable.update env msg s.1 r.1 s.2.1 r.2.1 r.2.2 hs hu) hd

theorem oneToolWorld_keyed : oneToolWorld.store.keyed := by
  intro k t hl
  by_cases hk : k = storedTool.ID
  · subst hk
    simp only [oneToolWorld, AList.lookup_insert, Option.some.injEq] at hl
    subst hl
    exact ⟨rfl, by decide⟩
  · simp only [oneToolWorld, AList.lookup_insert_ne hk, AList.lookup_empty] at hl
    cases hl

theorem findxFormApp_trace :
    deliver quietEnv (startApp oneToolWorld) findxKeys = some (oneToolWorld, findxFormApp, []) := by
  rfl

theorem findxFormApp_reachable : AppReachable oneToolWorld findxFormApp :=
  deliver_reachable quietEnv findxKeys (startApp oneToolWorld) (oneToolWorld, findxFormApp, [])
    (AppReachable.start oneToolWorld oneToolWorld_keyed) findxFormApp_trace

/-! # Theorems -/

/-- C1: when the store holds a record under the candidate's ID and the
candidate's Parameters is nil, the record stored under that ID after
`UpdateTool` has the Parameters slice that was stored before, with the same
elements. -/
theorem C1_UpdateTool_nil_keeps_parameters (w : World) (cand old : Tool) (now : Time)
    (o : SaveOutcome) (hold : w.store.tools.lookup cand.ID = some old)
    (hnil : cand.Parameters = none) :
    ∃ t, (Store.UpdateTool w cand now o).1.store.tools.lookup cand.ID = some t ∧
      t.Parameters = old.Parameters ∧
      (Store.UpdateTool w cand now o).1.heap.readOpt t.Parameters =
        w.heap.readOpt old.Parameters := by
  simp [Store.UpdateTool, hold, hnil, save_store, save_heap, AList.lookup_insert]

/-- Witness of C1 on a store holding one record with two parameters: the
candidate clears the name and carries nil Parameters. -/
theorem C1_UpdateTool_nil_keeps_parameters_witness :
    oneToolWorld.store.tools.lookup storedTool.ID = some storedTool ∧
    ∃ t, (Store.UpdateTool oneToolWorld { storedTool with Name := "", Parameters := none }
        noonLater .ok).1.store.tools.lookup storedTool.ID = some t ∧
      t.Parameters = storedTool.Parameters ∧
      (Store.UpdateTool oneToolWorld { storedTool with Name := "", Parameters := none }
        noonLater .ok).1.heap.readOpt t.Parameters =
        oneToolWorld.heap.readOpt storedTool.Parameters :=
  ⟨by decide, C1_UpdateTool_nil_keeps_parameters oneToolWorld
    { storedTool with Name := "", Parameters := none } storedTool noonLater .ok
    (by decide) rfl⟩

/-- C2: when the store holds a record under the candidate's ID, `UpdateTool`
returns no error and the record stored under that ID afterwards has the
candidate's name, description, category and status, whatever they are; when the
candidate's Parameters is not nil, the stored Parameters are the candidate's
slice, with the same elements. -/
theorem C2_UpdateTool_overwrites_fields (w : World) (cand old : Tool) (now : Time)
    (o : SaveOutcome) (hold : w.store.tools.lookup cand.ID = some old) :
    (Store.UpdateTool w cand now o).2 = none ∧
    ∃ t, (Store.UpdateTool w cand now o).1.store.tools.lookup cand.ID = some t ∧
      t.Name = cand.Name ∧ t.Description = cand.Description ∧
      t.Category = cand.Category ∧ t.Status = cand.Status ∧
      (cand.Parameters ≠ none →
        t.Parameters = cand.Parameters ∧
        (Store.UpdateTool w cand now o).1.heap.readOpt t.Parameters =
          w.heap.readOpt cand.Parameters) := by
  by_cases hp : cand.Parameters = none <;>
    simp [Store.UpdateTool, hold, hp, save_store, save_heap, AList.lookup_insert]

/-- Witness of C2: the stored record's name is cleared and its parameters are
replaced by the empty slice. -/
theorem C2_UpdateTool_overwrites_fields_witness :
    oneToolWorld.store.tools.lookup storedTool.ID = some storedTool ∧
    (Store.UpdateTool oneToolWorld { storedTool with Name := "", Parameters := some Slice.empty }
      noonLater .ok).2 = none ∧
    ∃ t, (Store.UpdateTool oneToolWorld
        { storedTool with Name := "", Parameters := some Slice.empty }
        noonLater .ok).1.store.tools.lookup storedTool.ID = some t ∧
      t.Name = "" ∧ t.Description = storedTool.Description ∧
      t.Category = storedTool.Category ∧ t.Status = storedTool.Status ∧
      ((some Slice.empty : Option Slice) ≠ none →
        t.Parameters = some Slice.empty ∧
        (Store.UpdateTool oneToolWorld
          { storedTool with Name := "", Parameters := some Slice.empty }
          noonLater .ok).1.heap.readOpt t.Parameters =
          oneToolWorld.heap.readOpt (some Slice.empty)) :=
  ⟨by decide, C2_UpdateTool_overwrites_fields oneToolWorld
    { storedTool with Name := "", Parameters := some Slice.empty } storedTool noonLater .ok
    (by decide)⟩

/-- C3: `UpdateTool` returns an error exactly when the store holds no record
under the candidate's ID, and when it returns an error the world (the record
map, the backing arrays and the file) is what it was before the call. -/
theorem C3_UpdateTool_error_iff_absent (w : World) (cand : Tool) (now : Time)
    (o : SaveOutcome) :
    ((Store.UpdateTool w cand now o).2 ≠ none ↔ w.store.tools.lookup cand.ID = none) ∧
    ((Store.UpdateTool w cand now o).2 ≠ none → (Store.UpdateTool w cand now o).1 = w) := by
  cases hl : w.store.tools.lookup cand.ID <;> simp [Store.UpdateTool, hl]

/-- Witness of C3: an update under an unknown ID fails and changes nothing. -/
theorem C3_UpdateTool_error_iff_absent_witness :
    ((Store.UpdateTool oneToolWorld echoTool noonLater .ok).2 ≠ none ↔
      oneToolWorld.store.tools.lookup echoTool.ID = none) ∧
    ((Store.UpdateTool oneToolWorld echoTool noonLater .ok).2 ≠ none →
      (Store.UpdateTool oneToolWorld echoTool noonLater .ok).1 = oneToolWorld) :=
  C3_UpdateTool_error_iff_absent oneToolWorld echoTool noonLater .ok

/-- C4: `DeleteTool` returns an error exactly when the store holds no record
under the ID, and then leaves the world unchanged; otherwise the ID is no
longer a key, every other key maps to the record it mapped to before, and the
map has one entry less. -/
theorem C4_DeleteTool_removes_exactly_id (w : World) (id : String) (o : SaveOutcome) :
    ((Store.DeleteTool w id o).2 ≠ none ↔ w.store.tools.lookup id = none) ∧
    (w.store.tools.lookup id = none → (Store.DeleteTool w id o).1 = w) ∧
    (w.store.tools.lookup id ≠ none →
      (Store.DeleteTool w id o).1.store.tools.lookup id = none ∧
      (∀ k, k ≠ id →
        (Store.DeleteTool w id o).1.store.tools.lookup k = w.store.tools.lookup k) ∧
      (Store.DeleteTool w id o).1.store.tools.keys = w.store.tools.keys.erase id ∧
      (Store.DeleteTool w id o).1.store.tools.entries.length + 1 =
        w.store.tools.entries.length) := by
  cases hl : w.store.tools.lookup id with
  | none => simp [Store.DeleteTool, hl]
  | some t =>
    have hk : id ∈ w.store.tools := by
      rw [← AList.lookup_isSome, hl]; rfl
    have hmem : id ∈ w.store.tools.keys := hk
    have h1 : (AList.erase id w.store.tools).entries.length =
        (AList.erase id w.store.tools).keys.length := by simp [AList.keys, List.keys]
    have h2 : w.store.tools.entries.length = w.store.tools.keys.length := by
      simp [AList.keys, List.keys]
    have hpos : 0 < w.store.tools.keys.length := List.length_pos_of_mem hmem
    simp only [Store.DeleteTool, hl, save_store]
    refine ⟨by simp, by simp, fun _ => ⟨AList.lookup_erase _ _,
      fun k hne => AList.lookup_erase_ne hne, AList.keys_erase _ _, ?_⟩⟩
    rw [h1, h2, AList.keys_erase, List.length_erase_of_mem hmem]
    omega

/-- Witness of C4: deleting the one stored record empties the map. -/
theorem C4_DeleteTool_removes_exactly_id_witness :
    ((Store.DeleteTool oneToolWorld storedTool.ID .ok).2 ≠ none ↔
      oneToolWorld.store.tools.lookup storedTool.ID = none) ∧
    (oneToolWorld.store.tools.lookup storedTool.ID = none →
      (Store.DeleteTool oneToolWorld storedTool.ID .ok).1 = oneToolWorld) ∧
    (oneToolWorld.store.tools.lookup storedTool.ID ≠ none →
      (Store.DeleteTool oneToolWorld storedTool.ID .ok).1.store.tools.lookup storedTool.ID
        = none ∧
      (∀ k, k ≠ storedTool.ID →
        (Store.DeleteTool oneToolWorld storedTool.ID .ok).1.store.tools.lookup k =
          oneToolWorld.store.tools.lookup k) ∧
      (Store.DeleteTool oneToolWorld storedTool.ID .ok).1.store.tools.keys =
        oneToolWorld.store.tools.keys.erase storedTool.ID ∧
      (Store.DeleteTool oneToolWorld storedTool.ID .ok).1.store.tools.entries.length + 1 =
        oneToolWorld.store.tools.entries.length) :=
  C4_DeleteTool_removes_exactly_id oneToolWorld storedTool.ID .ok

/-- C5, the code at the failing input: two `AddTool` calls whose clock readings
fall in the same second get the same ID, so the second record replaces the
first: the store holds one record after the first call and still one, the
second candidate, after the second call. -/
theorem C5_AddTool_same_second_overwrites :
    generateID noon = generateID noonLater ∧
    (Store.AddTool emptyWorld echoTool noon noon .ok).store.GetTools.map (fun t => t.Name)
      = ["Echo"] ∧
    (Store.AddTool (Store.AddTool emptyWorld echoTool noon noon .ok) grepTool
      noonLater noonLater .ok).store.GetTools.map (fun t => t.Name) = ["Grep"] ∧
    (Store.AddTool (Store.AddTool emptyWorld echoTool noon noon .ok) grepTool
      noonLater noonLater .ok).store.tools.entries.length =
      (Store.AddTool emptyWorld echoTool noon noon .ok).store.tools.entries.length := by
  decide

/-- C6: whatever the world, the candidate (its ID, its Parameters nil or not),
the clock and the outcome of the file write, the record `AddTool` puts into the
map is stored under its own ID, that ID is not empty, and its Parameters is not
nil. -/
theorem C6_AddTool_nonempty_ID_nonnil_parameters (w : World) (tool : Tool)
    (idNow modNow : Time) (o : SaveOutcome) :
    ∃ t, (Store.AddTool w tool idNow modNow o).store.tools.lookup (generateID idNow) = some t ∧
      t.ID = generateID idNow ∧ t.ID ≠ "" ∧ t.Parameters ≠ none := by
  by_cases hp : tool.Parameters = none <;>
    simp [Store.AddTool, hp, save_store, AList.lookup_insert, generateID_ne_empty]

/-- C7: `AddTool(r)` on a store with an empty map followed by `GetTools()`
gives a list of exactly one record, whose name, description, category and
status are those of `r`. -/
theorem C7_AddTool_GetTools_roundtrip (heap : Heap) (path : String) (disk : File) (r : Tool)
    (idNow modNow : Time) (o : SaveOutcome) :
    ∃ t, (Store.AddTool ⟨heap, ⟨path, ∅⟩, disk⟩ r idNow modNow o).store.GetTools = [t] ∧
      t.Name = r.Name ∧ t.Description = r.Description ∧ t.Category = r.Category ∧
      t.Status = r.Status :=
  AddTool_empty_GetTools heap path disk r idNow modNow o

/-- C8, the code at the failing input.  The store holds one record with the
parameters path and depth.  The Form is opened on it from the List; then
(first trace) the first parameter is selected and deleted and the Form is
cancelled with esc, or (second trace) the first parameter is opened for edit,
an x is typed into its name, it is saved with Enter on the last field and the
Form is cancelled with esc.  Both traces end in the List view with the record
map unchanged, yet the parameters of the stored record are no longer path and
depth: the Form wrote into the backing array it shares with the Store. -/
theorem C8_cancel_leaves_parameter_edits_in_store :
    storedParameters oneToolWorld storedTool.ID = some [pathParam, depthParam] ∧
    (deliver quietEnv (startApp oneToolWorld)
        [.KeyMsg enterKey, altNamedKey "down", altRuneKey 'd', .KeyMsg escKey]).map
      (fun r => (r.2.1.currentView, r.1.store.tools.entries, storedParameters r.1 storedTool.ID))
      = some ("list", oneToolWorld.store.tools.entries, some [depthParam, depthParam]) ∧
    (deliver quietEnv (startApp oneToolWorld)
        [.KeyMsg enterKey, altRuneKey 'e', runeKey 'x', .KeyMsg enterKey, .KeyMsg enterKey,
         .KeyMsg enterKey, .KeyMsg enterKey, .KeyMsg escKey]).map
      (fun r => (r.2.1.currentView, r.1.store.tools.entries, storedParameters r.1 storedTool.ID))
      = some ("list", oneToolWorld.store.tools.entries,
          some [{ pathParam with Name := "pathx" }, depthParam]) := by
  decide

/-- C9: with the Form active, when the Form's `Update` on a key leaves the
saving flag set, the Router hands the record `getTool` returns to `AddTool` if
its ID is empty and to `UpdateTool` otherwise, rebuilds the List from the
Store's records, makes the List the active view and returns no command.  In
particular, on a store with an empty map, Enter on the last field of a Form
whose record has no ID leaves exactly one record in the Store, with the name,
description and category of the Form's three inputs, and the List shows that
record.
The outcome of the two calls: when the ID is empty, the Store afterwards is
the Store before with the record inserted under the generated ID; when the ID
is that of a record in the Store, the Store afterwards is the Store before
with the record inserted under that ID, in place of the old one.  In both
cases the record stored is the one `getTool` returned, with the name,
description and category of the Form's inputs and the Form's parameters, stamped
with the time of the call; it is what a lookup of its ID finds, the List shows
it, and a successful write leaves the file holding the encoding of the new
map.  Every state the Router reaches from the start of the app is in one of
these two cases: the record under edit has no ID or the ID of a stored record.
In a state outside them (an ID that is not empty and not in the Store)
`UpdateTool` returns its error, the Router drops it, and the Store is as
before. -/
theorem C9_router_persists_on_saving :
    (∀ (env : Env) (w : World) (m : appModel) (k : KeyMsg) (h : Heap) (ed : toolEditorModel)
        (cmd : Cmd),
      m.currentView = "editor" →
      m.toolEditor.Update env w.heap (Msg.KeyMsg k) = some (h, ed, cmd) →
      ed.saving = true →
      ∃ w' m', appModel.Update env w m (Msg.KeyMsg k) = some (w', m', []) ∧
        w' = (if (ed.getTool env.nowGet).ID = "" then
            Store.AddTool { w with heap := h } (ed.getTool env.nowGet) env.nowID env.nowMod
              env.save
          else (Store.UpdateTool { w with heap := h } (ed.getTool env.nowGet) env.nowMod
              env.save).1) ∧
        m'.toolList.tools = w'.store.GetTools ∧
        m'.currentView = "list") ∧
    (∀ (env : Env) (heap : Heap) (path : String) (disk : File) (m : appModel),
      m.currentView = "editor" →
      m.toolEditor.tool.ID = "" →
      m.toolEditor.showParameterHelp = false →
      m.toolEditor.editingParameters = false →
      m.toolEditor.inputs.length = 3 →
      m.toolEditor.focused = 2 →
      ∃ w' m' t, appModel.Update env ⟨heap, ⟨path, ∅⟩, disk⟩ m (Msg.KeyMsg enterKey)
          = some (w', m', []) ∧
        w'.store.GetTools = [t] ∧
        t.Name = m.toolEditor.nameInput.Value ∧
        t.Description = m.toolEditor.descriptionInput.Value ∧
        t.Category = m.toolEditor.categoryInput.Value ∧
        m'.toolList.tools = [t] ∧
        m'.currentView = "list") ∧
    (∀ (env : Env) (w : World) (m : appModel) (k : KeyMsg) (h : Heap) (ed : toolEditorModel)
        (cmd : Cmd),
      m.currentView = "editor" →
      m.toolEditor.Update env w.heap (Msg.KeyMsg k) = some (h, ed, cmd) →
      ed.saving = true →
      (ed.getTool env.nowGet).ID = "" →
      ∃ w' m' t, appModel.Update env w m (Msg.KeyMsg k) = some (w', m', []) ∧
        t = { ed.getTool env.nowGet with ID := generateID env.nowID,
                                         LastModified := env.nowMod } ∧
        w'.store.tools = w.store.tools.insert (generateID env.nowID) t ∧
        w'.store.tools.lookup (generateID env.nowID) = some t ∧
        w'.heap = h ∧
        (env.save = SaveOutcome.ok → w'.disk = File.holds (w'.store.encode w'.heap)) ∧
        t.Name = ed.nameInput.Value ∧
        t.Description = ed.descriptionInput.Value ∧
        t.Category = ed.categoryInput.Value ∧
        w'.heap.readOpt t.Parameters = h.readOpt ed.tool.Parameters ∧
        t ∈ m'.toolList.tools ∧
        m'.toolList.tools = w'.store.GetTools ∧
        m'.currentView = "list") ∧
    (∀ (env : Env) (w : World) (m : appModel) (k : KeyMsg) (h : Heap) (ed : toolEditorModel)
        (cmd : Cmd),
      m.currentView = "editor" →
      m.toolEditor.Update env w.heap (Msg.KeyMsg k) = some (h, ed, cmd) →
      ed.saving = true →
      (ed.getTool env.nowGet).ID ≠ "" →
      w.store.tools.lookup (ed.getTool env.nowGet).ID ≠ none →
      ∃ w' m' t, appModel.Update env w m (Msg.KeyMsg k) = some (w', m', []) ∧
        t = { ed.getTool env.nowGet with LastModified := env.nowMod } ∧
        t.ID = m.toolEditor.tool.ID ∧
        w'.store.tools = w.store.tools.insert t.ID t ∧
        w'.store.tools.lookup t.ID = some t ∧
        w'.heap = h ∧
        (env.save = SaveOutcome.ok → w'.disk = File.holds (w'.store.encode w'.heap)) ∧
        t.Name = ed.nameInput.Value ∧
        t.Description = ed.descriptionInput.Value ∧
        t.Category = ed.categoryInput.Value ∧
        w'.heap.readOpt t.Parameters = h.readOpt ed.tool.Parameters ∧
        t ∈ m'.toolList.tools ∧
        m'.toolList.tools = w'.store.GetTools ∧
        m'.currentView = "list") ∧
    (∀ (env : Env) (w : World) (m : appModel) (k : KeyMsg) (h : Heap) (ed : toolEditorModel)
        (cmd : Cmd),
      AppReachable w m →
      m.toolEditor.Update env w.heap (Msg.KeyMsg k) = some (h, ed, cmd) →
      (ed.getTool env.nowGet).ID = "" ∨
        w.store.tools.lookup (ed.getTool env.nowGet).ID ≠ none) ∧
    (∀ (env : Env) (w : World) (m : appModel) (k : KeyMsg) (h : Heap) (ed : toolEditorModel)
        (cmd : Cmd),
      m.currentView = "editor" →
      m.toolEditor.Update env w.heap (Msg.KeyMsg k) = some (h, ed, cmd) →
      ed.saving = true →
      (ed.getTool env.nowGet).ID ≠ "" →
      w.store.tools.lookup (ed.getTool env.nowGet).ID = none →
      ∃ m', appModel.Update env w m (Msg.KeyMsg k) = some ({ w with heap := h }, m', []) ∧
        m'.toolList.tools = w.store.GetTools ∧
        m'.currentView = "list") := by
  refine ⟨?_, ?_, ?_, ?_, ?_, ?_⟩
  · intro env w m k h ed cmd hview hup hsav
    have hU : appModel.Update env w m (Msg.KeyMsg k) = m.updateEditorKey env w k := by
      simp only [appModel.Update, hview, if_true]
    rw [hU, updateEditorKey_saving env w m k h ed cmd hup hsav]
    exact ⟨_, _, rfl, rfl, rfl, rfl⟩
  · intro env heap path disk m hview hid hhelp hedit hlen hfoc
    have hup : m.toolEditor.Update env heap (Msg.KeyMsg enterKey) =
        some (heap, { m.toolEditor with saving := true }, [Effect.Quit]) := by
      simp [toolEditorModel.Update, toolEditorModel.updateSwitch, toolEditorModel.updateDefault,
        hhelp, hedit, hlen, hfoc, enterKey, KeyMsg.String]
    have hU : appModel.Update env ⟨heap, ⟨path, ∅⟩, disk⟩ m (Msg.KeyMsg enterKey) =
        m.updateEditorKey env ⟨heap, ⟨path, ∅⟩, disk⟩ enterKey := by
      simp only [appModel.Update, hview, if_true]
    have hf := getTool_fields { m.toolEditor with saving := true } env.nowGet
    rw [hU, updateEditorKey_saving env _ m enterKey heap _ _ hup rfl]
    simp only [hf.1, hid, if_true]
    obtain ⟨t, ht, h1, h2, h3, _⟩ := AddTool_empty_GetTools heap path disk
      (({ m.toolEditor with saving := true } : toolEditorModel).getTool env.nowGet)
      env.nowID env.nowMod env.save
    refine ⟨_, _, t, rfl, ht, ?_, ?_, ?_, ?_, rfl⟩
    · rw [h1, hf.2.1]
    · rw [h2, hf.2.2.1]
    · rw [h3, hf.2.2.2]
    · simpa [newToolListModel] using ht
  · intro env w m k h ed cmd hview hup hsav hid
    have hU : appModel.Update env w m (Msg.KeyMsg k) = m.updateEditorKey env w k := by
      simp only [appModel.Update, hview, if_true]
    have hf := getTool_fields ed env.nowGet
    have hp := getTool_parameters h ed env.nowGet
    have hs := AddTool_stores { w with heap := h } (ed.getTool env.nowGet) env.nowID env.nowMod
      env.save hp.1
    rw [hU, updateEditorKey_saving env w m k h ed cmd hup hsav]
    simp only [hid, if_true]
    have hlook : (Store.AddTool { w with heap := h } (ed.getTool env.nowGet) env.nowID env.nowMod
        env.save).store.tools.lookup (generateID env.nowID) =
        some { ed.getTool env.nowGet with ID := generateID env.nowID,
                                          LastModified := env.nowMod } := by
      rw [hs.1]; exact AList.lookup_insert _
    refine ⟨_, _, _, rfl, rfl, hs.1, hlook, hs.2, ?_, hf.2.1, hf.2.2.1, hf.2.2.2, ?_, ?_, ?_, rfl⟩
    · intro hok
      rw [hok]
      rfl
    · rw [hs.2]; exact hp.2.1
    · have := mem_GetTools_of_lookup _ _ _ hlook
      simpa [newToolListModel] using this
    · simp [newToolListModel]
  · intro env w m k h ed cmd hview hup hsav hid hpres
    have hU : appModel.Update env w m (Msg.KeyMsg k) = m.updateEditorKey env w k := by
      simp only [appModel.Update, hview, if_true]
    have hf := getTool_fields ed env.nowGet
    have hp := getTool_parameters h ed env.nowGet
    obtain ⟨old, hold⟩ := Option.ne_none_iff_exists'.mp hpres
    have hs := UpdateTool_stores { w with heap := h } (ed.getTool env.nowGet) old env.nowMod
      env.save hold hp.1
    rw [hU, updateEditorKey_saving env w m k h ed cmd hup hsav]
    simp only [hid, if_false]
    have hlook : (Store.UpdateTool { w with heap := h } (ed.getTool env.nowGet) env.nowMod
        env.save).1.store.tools.lookup (ed.getTool env.nowGet).ID =
        some { ed.getTool env.nowGet with LastModified := env.nowMod } := by
      rw [hs.1]; exact AList.lookup_insert _
    refine ⟨_, _, _, rfl, rfl, ?_, hs.1, hlook, hs.2, ?_, hf.2.1, hf.2.2.1, hf.2.2.2, ?_, ?_, ?_,
      rfl⟩
    · show (ed.getTool env.nowGet).ID = m.toolEditor.tool.ID
      rw [hf.1]
      exact Update_toolID env w.heap h m.toolEditor ed _ cmd hup
    · intro hok
      rw [hok]
      simp only [Store.UpdateTool, hold, if_neg hp.1]
      rfl
    · rw [hs.2]; exact hp.2.1
    · have := mem_GetTools_of_lookup _ _ _ hlook
      simpa [newToolListModel] using this
    · simp [newToolListModel]
  · intro env w m k h ed cmd hreach hup
    have hinv := (AppReachable_idInv w m hreach).2.2
    rw [(getTool_fields ed env.nowGet).1, Update_toolID env w.heap h m.toolEditor ed _ cmd hup]
    exact hinv
  · intro env w m k h ed cmd hview hup hsav hid habs
    have hU : appModel.Update env w m (Msg.KeyMsg k) = m.updateEditorKey env w k := by
      simp only [appModel.Update, hview, if_true]
    rw [hU, updateEditorKey_saving env w m k h ed cmd hup hsav]
    simp only [hid, if_false]
    rw [UpdateTool_absent { w with heap := h } (ed.getTool env.nowGet) env.nowMod env.save habs]
    exact ⟨_, rfl, by simp [newToolListModel], rfl⟩

/-- Witness of C9: Enter on the last field of the blank Form named "Echo", on
the empty store (the record is added under the generated ID), and Enter on the
last field of the Form opened on the stored record "Find" after an x was typed
into its name (the record stored under the same ID is now named "Findx"); the
second state is reached from the start of the app by the keys `findxKeys`.
The same Form over the empty store, which the Router never reaches, stores
nothing. -/
theorem C9_router_persists_on_saving_witness :
    (echoFormApp.currentView = "editor" ∧
      echoFormApp.toolEditor.Update quietEnv emptyWorld.heap (Msg.KeyMsg enterKey) =
        some ([], { echoFormApp.toolEditor with saving := true }, [Effect.Quit]) ∧
      ∃ w' m', appModel.Update quietEnv emptyWorld echoFormApp (Msg.KeyMsg enterKey)
          = some (w', m', []) ∧
        w' = (if (({ echoFormApp.toolEditor with saving := true } : toolEditorModel).getTool
              quietEnv.nowGet).ID = "" then
            Store.AddTool { emptyWorld with heap := [] }
              (({ echoFormApp.toolEditor with saving := true } : toolEditorModel).getTool
                quietEnv.nowGet) quietEnv.nowID quietEnv.nowMod quietEnv.save
          else (Store.UpdateTool { emptyWorld with heap := [] }
              (({ echoFormApp.toolEditor with saving := true } : toolEditorModel).getTool
                quietEnv.nowGet) quietEnv.nowMod quietEnv.save).1) ∧
        m'.toolList.tools = w'.store.GetTools ∧
        m'.currentView = "list") ∧
    (echoFormApp.toolEditor.tool.ID = "" ∧ echoFormApp.toolEditor.focused = 2 ∧
      ∃ w' m' t, appModel.Update quietEnv ⟨[], ⟨"../data/tools.json", ∅⟩, File.absent⟩
          echoFormApp (Msg.KeyMsg enterKey) = some (w', m', []) ∧
        w'.store.GetTools = [t] ∧
        t.Name = echoFormApp.toolEditor.nameInput.Value ∧
        t.Description = echoFormApp.toolEditor.descriptionInput.Value ∧
        t.Category = echoFormApp.toolEditor.categoryInput.Value ∧
        m'.toolList.tools = [t] ∧
        m'.currentView = "list") ∧
    ((({ echoFormApp.toolEditor with saving := true } : toolEditorModel).getTool
          quietEnv.nowGet).ID = "" ∧
      ∃ w' m' t, appModel.Update quietEnv emptyWorld echoFormApp (Msg.KeyMsg enterKey)
          = some (w', m', []) ∧
        t = { ({ echoFormApp.toolEditor with saving := true } : toolEditorModel).getTool
                quietEnv.nowGet with
              ID := generateID quietEnv.nowID, LastModified := quietEnv.nowMod } ∧
        w'.store.tools = emptyWorld.store.tools.insert (generateID quietEnv.nowID) t ∧
        w'.store.tools.lookup (generateID quietEnv.nowID) = some t ∧
        w'.heap = [] ∧
        (quietEnv.save = SaveOutcome.ok → w'.disk = File.holds (w'.store.encode w'.heap)) ∧
        t.Name = ({ echoFormApp.toolEditor with saving := true } : toolEditorModel).nameInput.Value ∧
        t.Description =
          ({ echoFormApp.toolEditor with saving := true } : toolEditorModel).descriptionInput.Value ∧
        t.Category =
          ({ echoFormApp.toolEditor with saving := true } : toolEditorModel).categoryInput.Value ∧
        w'.heap.readOpt t.Parameters = Heap.readOpt []
          ({ echoFormApp.toolEditor with saving := true } : toolEditorModel).tool.Parameters ∧
        t ∈ m'.toolList.tools ∧
        m'.toolList.tools = w'.store.GetTools ∧
        m'.currentView = "list") ∧
    (findxFormApp.currentView = "editor" ∧
      findxFormApp.toolEditor.Update quietEnv oneToolWorld.heap (Msg.KeyMsg enterKey) =
        some (oneToolWorld.heap, { findxForm with saving := true }, [Effect.Quit]) ∧
      (({ findxForm with saving := true } : toolEditorModel).getTool quietEnv.nowGet).ID
        = "20240101120000" ∧
      oneToolWorld.store.tools.lookup "20240101120000" = some storedTool ∧
      storedTool.Name = "Find" ∧
      ({ findxForm with saving := true } : toolEditorModel).nameInput.Value = "Findx" ∧
      ∃ w' m' t, appModel.Update quietEnv oneToolWorld findxFormApp (Msg.KeyMsg enterKey)
          = some (w', m', []) ∧
        t = { ({ findxForm with saving := true } : toolEditorModel).getTool quietEnv.nowGet with
              LastModified := quietEnv.nowMod } ∧
        t.ID = findxFormApp.toolEditor.tool.ID ∧
        w'.store.tools = oneToolWorld.store.tools.insert t.ID t ∧
        w'.store.tools.lookup t.ID = some t ∧
        w'.heap = oneToolWorld.heap ∧
        (quietEnv.save = SaveOutcome.ok → w'.disk = File.holds (w'.store.encode w'.heap)) ∧
        t.Name = ({ findxForm with saving := true } : toolEditorModel).nameInput.Value ∧
        t.Description =
          ({ findxForm with saving := true } : toolEditorModel).descriptionInput.Value ∧
        t.Category = ({ findxForm with saving := true } : toolEditorModel).categoryInput.Value ∧
        w'.heap.readOpt t.Parameters = oneToolWorld.heap.readOpt
          ({ findxForm with saving := true } : toolEditorModel).tool.Parameters ∧
        t ∈ m'.toolList.tools ∧
        m'.toolList.tools = w'.store.GetTools ∧
        m'.currentView = "list") ∧
    (deliver quietEnv (startApp oneToolWorld) findxKeys = some (oneToolWorld, findxFormApp, []) ∧
      ((({ findxForm with saving := true } : toolEditorModel).getTool quietEnv.nowGet).ID = "" ∨
        oneToolWorld.store.tools.lookup
          (({ findxForm with saving := true } : toolEditorModel).getTool quietEnv.nowGet).ID
            ≠ none)) ∧
    (findxFormApp.toolEditor.Update quietEnv emptyWorld.heap (Msg.KeyMsg enterKey) =
        some ([], { findxForm with saving := true }, [Effect.Quit]) ∧
      emptyWorld.store.tools.lookup
        (({ findxForm with saving := true } : toolEditorModel).getTool quietEnv.nowGet).ID
          = none ∧
      ∃ m', appModel.Update quietEnv emptyWorld findxFormApp (Msg.KeyMsg enterKey)
          = some ({ emptyWorld with heap := [] }, m', []) ∧
        m'.toolList.tools = emptyWorld.store.GetTools ∧
        m'.currentView = "list") ∧
    (deliver quietEnv (startApp oneToolWorld) (findxKeys ++ [Msg.KeyMsg enterKey])).map
      (fun r => (r.2.1.currentView,
        r.1.store.tools.entries.map (fun e => (e.1, e.2.Name, e.2.Description, e.2.Category)),
        r.2.1.toolList.tools.map (fun t => (t.ID, t.Name)),
        storedParameters r.1 storedTool.ID))
      = some ("list", [("20240101120000", "Findx", "finds files", "CLI")],
          [("20240101120000", "Findx")], some [pathParam, depthParam]) :=
  ⟨⟨by decide, by decide,
      C9_router_persists_on_saving.1 quietEnv emptyWorld echoFormApp enterKey []
        { echoFormApp.toolEditor with saving := true } [Effect.Quit]
        (by decide) (by decide) rfl⟩,
    ⟨by decide, by decide,
      C9_router_persists_on_saving.2.1 quietEnv [] "../data/tools.json" File.absent echoFormApp
        (by decide) (by decide) (by decide) (by decide) (by decide) (by decide)⟩,
    ⟨by decide,
      C9_router_persists_on_saving.2.2.1 quietEnv emptyWorld echoFormApp enterKey []
        { echoFormApp.toolEditor with saving := true } [Effect.Quit]
        (by decide) (by decide) rfl (by decide)⟩,
    ⟨by decide, by decide, by decide, rfl, by decide, by decide,
      C9_router_persists_on_saving.2.2.2.1 quietEnv oneToolWorld findxFormApp enterKey
        oneToolWorld.heap { findxForm with saving := true } [Effect.Quit]
        (by decide) (by decide) rfl (by decide) (by decide)⟩,
    ⟨findxFormApp_trace,
      C9_router_persists_on_saving.2.2.2.2.1 quietEnv oneToolWorld findxFormApp enterKey
        oneToolWorld.heap { findxForm with saving := true } [Effect.Quit]
        findxFormApp_reachable (by decide)⟩,
    ⟨by decide, rfl,
      C9_router_persists_on_saving.2.2.2.2.2 quietEnv emptyWorld findxFormApp enterKey []
        { findxForm with saving := true } [Effect.Quit]
        (by decide) (by decide) rfl (by decide) rfl⟩,
    rfl⟩

/-- C10 as stated fails: with the blank Form active (the state Enter on the
empty List leads to), the key ctrl+c makes the Router return the quit
command. -/
theorem C10_counterexample_ctrl_c_quits_from_form :
    (deliver quietEnv (startApp emptyWorld) [.KeyMsg enterKey]).map (fun r => r.2.1)
      = some blankFormApp ∧
    blankFormApp.currentView = "editor" ∧
    (appModel.Update quietEnv emptyWorld blankFormApp (namedKey "ctrl+c")).map (fun r => r.2.2)
      = some [Effect.Quit] := by
  decide

/-- C10, amended: with the Form active (three field inputs, and the focus index
on one of them while the parameter editor is closed), the Router handles every
key without panic, and it returns the quit command exactly when the help
overlay is hidden, the parameter editor is closed, the saving flag is not set,
and the key is ctrl+c, or is q while the field at the focus index does not
hold input focus.  So q typed into the focused field, and every key while the
help overlay is shown or a parameter is edited, never quits. -/
theorem C10_form_quits_only_on_editor_quit (env : Env) (w : World) (m : appModel) (k : KeyMsg)
    (hview : m.currentView = "editor")
    (hlen : m.toolEditor.inputs.length = 3)
    (hfoc : m.toolEditor.editingParameters = false →
      0 ≤ m.toolEditor.focused ∧ m.toolEditor.focused < 3) :
    ∃ w' m' cmd, appModel.Update env w m (Msg.KeyMsg k) = some (w', m', cmd) ∧
      (Effect.Quit ∈ cmd ↔
        m.toolEditor.showParameterHelp = false ∧ m.toolEditor.editingParameters = false ∧
        m.toolEditor.saving = false ∧
        (k.String = "ctrl+c" ∨
          (k.String = "q" ∧ ∃ input,
            indexInt m.toolEditor.inputs m.toolEditor.focused = some input ∧
            input.focus = false))) := by
  have hU : appModel.Update env w m (Msg.KeyMsg k) = m.updateEditorKey env w k := by
    simp only [appModel.Update, hview, if_true]
  rw [hU]
  by_cases hq : m.toolEditor.showParameterHelp = false ∧ m.toolEditor.editingParameters = false ∧
      (k.String = "ctrl+c" ∨
        (k.String = "q" ∧ ∃ input,
          indexInt m.toolEditor.inputs m.toolEditor.focused = some input ∧ input.focus = false))
  · obtain ⟨hhelp, hedit, hkey⟩ := hq
    have hup := editor_Update_quits env w.heap m.toolEditor k hhelp hedit hkey
    obtain ⟨w', m', c, hr, hiff⟩ := updateEditorKey_cmd env w m k _ _ _ hup
    refine ⟨w', m', c, hr, ?_⟩
    have hesc : k.String ≠ "esc" := by
      rcases hkey with hc | ⟨hc, _⟩ <;> rw [hc] <;> decide
    rw [hiff]
    simp [hhelp, hedit, hkey, hesc]
  · obtain ⟨r, hup, hsav⟩ := editor_Update_total env w.heap m.toolEditor k hlen hfoc hq
    obtain ⟨h', ed', cmd⟩ := r
    obtain ⟨w', m', c, hr, hiff⟩ := updateEditorKey_cmd env w m k h' ed' cmd hup
    refine ⟨w', m', c, hr, ?_⟩
    rw [hiff]
    constructor
    · rintro ⟨hs, _, hc⟩
      have := hsav hc
      simp only [] at this
      rw [hs] at this
      exact absurd this (by decide)
    · rintro ⟨h1, h2, _, h4⟩
      exact absurd ⟨h1, h2, h4⟩ hq

/-- Witness of C10: the character q typed into the focused name field of the
blank Form. -/
theorem C10_form_quits_only_on_editor_quit_witness :
    blankFormApp.currentView = "editor" ∧
    blankFormApp.toolEditor.inputs.length = 3 ∧
    (blankFormApp.toolEditor.editingParameters = false →
      0 ≤ blankFormApp.toolEditor.focused ∧ blankFormApp.toolEditor.focused < 3) ∧
    ∃ w' m' cmd, appModel.Update quietEnv emptyWorld blankFormApp (Msg.KeyMsg qKey)
        = some (w', m', cmd) ∧
      (Effect.Quit ∈ cmd ↔
        blankFormApp.toolEditor.showParameterHelp = false ∧
        blankFormApp.toolEditor.editingParameters = false ∧
        blankFormApp.toolEditor.saving = false ∧
        (qKey.String = "ctrl+c" ∨
          (qKey.String = "q" ∧ ∃ input,
            indexInt blankFormApp.toolEditor.inputs blankFormApp.toolEditor.focused = some input ∧
            input.focus = false))) :=
  ⟨by decide, by decide, by decide,
    C10_form_quits_only_on_editor_quit quietEnv emptyWorld blankFormApp qKey
      (by decide) (by decide) (by decide)⟩

/-- C11 as stated fails: `save` with a failing `os.Create` returns an error on
every world, yet `UpdateTool` with that outcome returns nil, replaces the
record in the map and leaves the file as it was; `DeleteTool` with a failing
encoder returns nil as well and leaves a truncated file. -/
theorem C11_counterexample_failed_save_reports_success :
    (∀ w : World, (Store.save w SaveOutcome.createFails).2 ≠ none) ∧
    (Store.UpdateTool oneToolWorld { storedTool with Name := "Locate" } noonLater
      SaveOutcome.createFails).2 = none ∧
    (Store.UpdateTool oneToolWorld { storedTool with Name := "Locate" } noonLater
      SaveOutcome.createFails).1.disk = File.absent ∧
    (Store.UpdateTool oneToolWorld { storedTool with Name := "Locate" } noonLater
      SaveOutcome.createFails).1.store.GetTools.map (fun t => t.Name) = ["Locate"] ∧
    (Store.DeleteTool oneToolWorld storedTool.ID SaveOutcome.encodeFails).2 = none ∧
    (Store.DeleteTool oneToolWorld storedTool.ID SaveOutcome.encodeFails).1.disk
      = File.truncated := by
  refine ⟨fun w => by simp [Store.save], ?_, ?_, ?_, ?_, ?_⟩ <;> decide

/-- C11, amended: a failed save step is not reported.  `save` fails exactly
when the write does not succeed; whatever the outcome of the write,
`UpdateTool` and `DeleteTool` return an error exactly when the ID is absent
(`AddTool` returns nothing), the record map after each of the three operations
is the one a successful save leaves, and what the Router returns for a message
(record map, backing arrays, app state and command) is what it returns when
the write succeeds. -/
theorem C11_failed_save_is_not_reported (env : Env) (w : World) (m : appModel) (msg : Msg)
    (tool : Tool) (id : String) (idNow modNow : Time) (o : SaveOutcome) :
    ((Store.save w o).2 ≠ none ↔ o ≠ SaveOutcome.ok) ∧
    ((Store.UpdateTool w tool modNow o).2 ≠ none ↔ w.store.tools.lookup tool.ID = none) ∧
    ((Store.DeleteTool w id o).2 ≠ none ↔ w.store.tools.lookup id = none) ∧
    (Store.AddTool w tool idNow modNow o).store =
      (Store.AddTool w tool idNow modNow SaveOutcome.ok).store ∧
    (Store.UpdateTool w tool modNow o).1.store =
      (Store.UpdateTool w tool modNow SaveOutcome.ok).1.store ∧
    (Store.DeleteTool w id o).1.store = (Store.DeleteTool w id SaveOutcome.ok).1.store ∧
    (appModel.Update { env with save := o } w m msg).map (fun r => (r.1.store, r.1.heap, r.2)) =
      (appModel.Update { env with save := SaveOutcome.ok } w m msg).map
        (fun r => (r.1.store, r.1.heap, r.2)) := by
  refine ⟨?_, ?_, ?_, (AddTool_outcome w tool idNow modNow o _).1,
    (UpdateTool_outcome w tool modNow o _).2.1, (DeleteTool_outcome w id o _).2.1, ?_⟩
  · cases o <;> simp [Store.save]
  · cases hl : w.store.tools.lookup tool.ID <;> simp [Store.UpdateTool, hl]
  · cases hl : w.store.tools.lookup id <;> simp [Store.DeleteTool, hl]
  · rw [Router_outcome env o w m msg, Router_outcome env SaveOutcome.ok w m msg]

/-- C12: when `saveParameter` performs its write (four inputs bound, the
parameter slice within its backing array, `currentParameter` a valid index),
the type stored in the target parameter is the text of the type input when
that is one of string, number, boolean, object, array, and "string" otherwise;
hence if every parameter of the record had a type of the enumeration before
the save, every parameter has one after it. -/
theorem C12_saveParameter_coerces_type (h : Heap) (m : toolEditorModel) (s : Slice)
    (i0 i1 i2 i3 : textinput.Model) (rest : List textinput.Model)
    (hin : m.parameterInputs = i0 :: i1 :: i2 :: i3 :: rest)
    (hs : m.tool.Parameters = some s) (hv : s.within h)
    (h0 : 0 ≤ m.currentParameter) (h1 : m.currentParameter < s.len) :
    (∃ p, ((m.saveParameter h).1.readOpt
          (m.saveParameter h).2.tool.Parameters)[m.currentParameter.toNat]? = some p ∧
        p.Type_ = (if i1.Value ∈ ParameterTypes then i1.Value else "string")) ∧
    ((∀ p ∈ h.readOpt m.tool.Parameters, p.Type_ ∈ ParameterTypes) →
      ∀ p ∈ (m.saveParameter h).1.readOpt (m.saveParameter h).2.tool.Parameters,
        p.Type_ ∈ ParameterTypes) := by
  rw [saveParameter_read h m s i0 i1 i2 i3 rest hin hs h0 h1]
  constructor
  · obtain ⟨p, hp⟩ := getElem?_read h s hv m.currentParameter.toNat (by omega)
    rw [List.getElem?_modify_eq]
    simp only [hs, Heap.readOpt, hp, Option.map_eq_map, Option.map_some']
    exact ⟨_, rfl, coerced_type_eq i1.Value⟩
  · intro hall p hp
    rcases mem_modify _ _ _ _ hp with hmem | ⟨q, _, rfl⟩
    · exact hall p hmem
    · exact coerced_type_mem i1.Value

/-- Witness of C12: the type input holds "frobnicate". -/
theorem C12_saveParameter_coerces_type_witness :
    (frobnicateForm.parameterInputs = [rootInput, frobnicateInput, startInput, falseInput] ∧
      frobnicateForm.tool.Parameters = some ⟨0, 2, 2⟩ ∧
      (⟨0, 2, 2⟩ : Slice).within oneToolWorld.heap ∧
      0 ≤ frobnicateForm.currentParameter ∧
      frobnicateForm.currentParameter < ((⟨0, 2, 2⟩ : Slice).len : Int)) ∧
    frobnicateInput.Value = "frobnicate" ∧
    ((∃ p, ((frobnicateForm.saveParameter oneToolWorld.heap).1.readOpt
          (frobnicateForm.saveParameter
              oneToolWorld.heap).2.tool.Parameters)[frobnicateForm.currentParameter.toNat]? = some p
                  ∧
        p.Type_ = (if frobnicateInput.Value ∈ ParameterTypes then frobnicateInput.Value else
            "string")) ∧
    ((∀ p ∈ oneToolWorld.heap.readOpt frobnicateForm.tool.Parameters, p.Type_ ∈ ParameterTypes) →
      ∀ p ∈ (frobnicateForm.saveParameter oneToolWorld.heap).1.readOpt (frobnicateForm.saveParameter
          oneToolWorld.heap).2.tool.Parameters,
        p.Type_ ∈ ParameterTypes)) :=
  ⟨⟨by decide, by decide, by decide, by decide, by decide⟩, by decide,
    C12_saveParameter_coerces_type oneToolWorld.heap frobnicateForm ⟨0, 2, 2⟩
      rootInput frobnicateInput startInput falseInput []
      (by decide) (by decide) (by decide) (by decide) (by decide)⟩

/-- C13: when `saveParameter` performs its write, the required flag of the
target parameter is false exactly when the text of the required input equals
"false" up to the case of its letters, and true for every other text. -/
theorem C13_saveParameter_parses_required (h : Heap) (m : toolEditorModel) (s : Slice)
    (i0 i1 i2 i3 : textinput.Model) (rest : List textinput.Model)
    (hin : m.parameterInputs = i0 :: i1 :: i2 :: i3 :: rest)
    (hs : m.tool.Parameters = some s) (hv : s.within h)
    (h0 : 0 ≤ m.currentParameter) (h1 : m.currentParameter < s.len) :
    ∃ p, ((m.saveParameter h).1.readOpt
          (m.saveParameter h).2.tool.Parameters)[m.currentParameter.toNat]? = some p ∧
      (p.Required = false ↔ i3.Value.data.map Char.toLower = ['f', 'a', 'l', 's', 'e']) ∧
      (p.Required = true ↔ i3.Value.data.map Char.toLower ≠ ['f', 'a', 'l', 's', 'e']) := by
  rw [saveParameter_read h m s i0 i1 i2 i3 rest hin hs h0 h1]
  obtain ⟨p, hp⟩ := getElem?_read h s hv m.currentParameter.toNat (by omega)
  rw [List.getElem?_modify_eq]
  simp only [hs, Heap.readOpt, hp, Option.map_eq_map, Option.map_some']
  refine ⟨_, rfl, ?_, ?_⟩
  · simp only [← ToLower_eq_false_iff]
    by_cases hf : ToLower i3.Value = "false" <;> simp [hf]
  · simp only [ne_eq, ← ToLower_eq_false_iff]
    by_cases hf : ToLower i3.Value = "false" <;> simp [hf]

/-- Witness of C13: the required input holds "FALSE". -/
theorem C13_saveParameter_parses_required_witness :
    (frobnicateForm.parameterInputs = [rootInput, frobnicateInput, startInput, falseInput] ∧
      frobnicateForm.tool.Parameters = some ⟨0, 2, 2⟩ ∧
      (⟨0, 2, 2⟩ : Slice).within oneToolWorld.heap ∧
      0 ≤ frobnicateForm.currentParameter ∧
      frobnicateForm.currentParameter < ((⟨0, 2, 2⟩ : Slice).len : Int)) ∧
    falseInput.Value = "FALSE" ∧
    (∃ p, ((frobnicateForm.saveParameter oneToolWorld.heap).1.readOpt
          (frobnicateForm.saveParameter
              oneToolWorld.heap).2.tool.Parameters)[frobnicateForm.currentParameter.toNat]? = some p
                  ∧
      (p.Required = false ↔ falseInput.Value.data.map Char.toLower = ['f', 'a', 'l', 's', 'e']) ∧
      (p.Required = true ↔ falseInput.Value.data.map Char.toLower ≠ ['f', 'a', 'l', 's', 'e'])) :=
  ⟨⟨by decide, by decide, by decide, by decide, by decide⟩, by decide,
    C13_saveParameter_parses_required oneToolWorld.heap frobnicateForm ⟨0, 2, 2⟩
      rootInput frobnicateInput startInput falseInput []
      (by decide) (by decide) (by decide) (by decide) (by decide)⟩

/-- C14: with four parameter inputs bound and `currentParameter` a valid
index, `saveParameter` replaces the parameter at `currentParameter` by the same
parameter with the name input's text, the coerced type, the description
input's text and the parsed required flag (so its ID is kept), leaves the
parameter at every other index and the length of the list unchanged, clears
the editing flag and sets the focus index to 0. -/
theorem C14_saveParameter_writes_fields (h : Heap) (m : toolEditorModel) (s : Slice)
    (i0 i1 i2 i3 : textinput.Model) (rest : List textinput.Model)
    (hin : m.parameterInputs = i0 :: i1 :: i2 :: i3 :: rest)
    (hs : m.tool.Parameters = some s) (hv : s.within h)
    (h0 : 0 ≤ m.currentParameter) (h1 : m.currentParameter < s.len) :
    (∃ old new, (h.readOpt m.tool.Parameters)[m.currentParameter.toNat]? = some old ∧
      ((m.saveParameter h).1.readOpt
        (m.saveParameter h).2.tool.Parameters)[m.currentParameter.toNat]? = some new ∧
      new = { old with
        Name := i0.Value
        Type_ := if i1.Value ∈ ParameterTypes then i1.Value else "string"
        Description := i2.Value
        Required := if ToLower i3.Value = "false" then false else true } ∧
      new.ID = old.ID) ∧
    (∀ j, j ≠ m.currentParameter.toNat →
      ((m.saveParameter h).1.readOpt (m.saveParameter h).2.tool.Parameters)[j]? =
        (h.readOpt m.tool.Parameters)[j]?) ∧
    ((m.saveParameter h).1.readOpt (m.saveParameter h).2.tool.Parameters).length =
      (h.readOpt m.tool.Parameters).length ∧
    sliceLen (m.saveParameter h).2.tool.Parameters = sliceLen m.tool.Parameters ∧
    (m.saveParameter h).2.editingParameters = false ∧
    (m.saveParameter h).2.focused = 0 := by
  rw [saveParameter_read h m s i0 i1 i2 i3 rest hin hs h0 h1]
  rw [saveParameter_eq h m s i0 i1 i2 i3 rest hin hs h0 h1]
  obtain ⟨p, hp⟩ := getElem?_read h s hv m.currentParameter.toNat (by omega)
  refine ⟨⟨p, _, by simpa [hs, Heap.readOpt] using hp, ?_, rfl, rfl⟩, ?_, ?_, rfl, rfl, rfl⟩
  · rw [List.getElem?_modify_eq]
    simp only [hs, Heap.readOpt, hp, Option.map_eq_map, Option.map_some', coerced_type_eq]
  · intro j hj
    rw [List.getElem?_modify_ne _ _ (Ne.symm hj)]
  · rw [List.length_modify]

/-- Witness of C14: the inputs hold "root", "frobnicate", "where to start" and
"FALSE", and the first parameter is the target. -/
theorem C14_saveParameter_writes_fields_witness :
    (frobnicateForm.parameterInputs = [rootInput, frobnicateInput, startInput, falseInput] ∧
      frobnicateForm.tool.Parameters = some ⟨0, 2, 2⟩ ∧
      (⟨0, 2, 2⟩ : Slice).within oneToolWorld.heap ∧
      0 ≤ frobnicateForm.currentParameter ∧
      frobnicateForm.currentParameter < ((⟨0, 2, 2⟩ : Slice).len : Int)) ∧
    ((∃ old new, (oneToolWorld.heap.readOpt
        frobnicateForm.tool.Parameters)[frobnicateForm.currentParameter.toNat]? = some old ∧
      ((frobnicateForm.saveParameter oneToolWorld.heap).1.readOpt
        (frobnicateForm.saveParameter
            oneToolWorld.heap).2.tool.Parameters)[frobnicateForm.currentParameter.toNat]? = some new
                ∧
      new = { old with
        Name := rootInput.Value
        Type_ := if frobnicateInput.Value ∈ ParameterTypes then frobnicateInput.Value else "string"
        Description := startInput.Value
        Required := if ToLower falseInput.Value = "false" then false else true } ∧
      new.ID = old.ID) ∧
    (∀ j, j ≠ frobnicateForm.currentParameter.toNat →
      ((frobnicateForm.saveParameter oneToolWorld.heap).1.readOpt (frobnicateForm.saveParameter
          oneToolWorld.heap).2.tool.Parameters)[j]? =
        (oneToolWorld.heap.readOpt frobnicateForm.tool.Parameters)[j]?) ∧
    ((frobnicateForm.saveParameter oneToolWorld.heap).1.readOpt (frobnicateForm.saveParameter
        oneToolWorld.heap).2.tool.Parameters).length =
      (oneToolWorld.heap.readOpt frobnicateForm.tool.Parameters).length ∧
    sliceLen (frobnicateForm.saveParameter oneToolWorld.heap).2.tool.Parameters = sliceLen
        frobnicateForm.tool.Parameters ∧
    (frobnicateForm.saveParameter oneToolWorld.heap).2.editingParameters = false ∧
    (frobnicateForm.saveParameter oneToolWorld.heap).2.focused = 0) :=
  ⟨⟨by decide, by decide, by decide, by decide, by decide⟩,
    C14_saveParameter_writes_fields oneToolWorld.heap frobnicateForm ⟨0, 2, 2⟩
      rootInput frobnicateInput startInput falseInput []
      (by decide) (by decide) (by decide) (by decide) (by decide)⟩

/-- C15 as stated fails: the Form is opened on the stored record, its first
parameter is opened for edit, an x is typed into the name and the edit is
cancelled with esc.  The editing flag is then false and the parameters are
still path and depth, yet `saveParameter` on that state writes the name
"pathx" into the first parameter and sets `parameterChanged`. -/
theorem C15_counterexample_save_after_cancel_writes :
    (deliverForm quietEnv (oneToolWorld.heap, storedToolForm, [])
        [altRuneKey 'e', runeKey 'x', Msg.KeyMsg escKey]).map
      (fun r => (r.2.1.editingParameters, r.1.readOpt r.2.1.tool.Parameters,
        (r.2.1.saveParameter r.1).1.readOpt (r.2.1.saveParameter r.1).2.tool.Parameters,
        (r.2.1.saveParameter r.1).2.parameterChanged))
      = some (false, [pathParam, depthParam],
          [{ pathParam with Name := "pathx" }, depthParam], true) := by
  decide

/-- C15, amended: with the editing flag false, `saveParameter` is a silent
no-op (backing arrays and Form state are returned as they are) whenever fewer
than four parameter inputs are bound or `currentParameter` is not a valid
index.  That is the case of every Form as its constructors make it: the flag
is false, no input is bound, and `saveParameter` changes nothing. -/
theorem C15_saveParameter_closed_noop_without_bound_inputs :
    (∀ (h : Heap) (m : toolEditorModel),
      m.editingParameters = false →
      ((m.parameterInputs.length : Int) < 4 ∨ m.currentParameter < 0 ∨
        (sliceLen m.tool.Parameters : Int) ≤ m.currentParameter) →
      m.saveParameter h = (h, m)) ∧
    (∀ (h : Heap), newToolEditorModel.editingParameters = false ∧
      newToolEditorModel.saveParameter h = (h, newToolEditorModel)) ∧
    (∀ (h : Heap) (tool : Tool), (newToolEditorModelWithTool tool).editingParameters = false ∧
      (newToolEditorModelWithTool tool).saveParameter h = (h, newToolEditorModelWithTool tool)) := by
  refine ⟨fun h m _ hg => saveParameter_guard h m hg, fun h => ⟨rfl, ?_⟩, fun h tool => ⟨?_, ?_⟩⟩
  · exact saveParameter_guard h _ (Or.inl (by decide))
  · exact (newToolEditorModelWithTool_closed tool).2.1
  · apply saveParameter_guard
    left
    rw [(newToolEditorModelWithTool_closed tool).1]
    decide

/-- Witness of C15: the Form just opened on the stored record. -/
theorem C15_saveParameter_closed_noop_without_bound_inputs_witness :
    storedToolForm.editingParameters = false ∧
    ((storedToolForm.parameterInputs.length : Int) < 4 ∨ storedToolForm.currentParameter < 0 ∨
      (sliceLen storedToolForm.tool.Parameters : Int) ≤ storedToolForm.currentParameter) ∧
    storedToolForm.saveParameter oneToolWorld.heap = (oneToolWorld.heap, storedToolForm) :=
  ⟨by decide, by decide,
    C15_saveParameter_closed_noop_without_bound_inputs.1 oneToolWorld.heap storedToolForm
      (by decide) (by decide)⟩

/-- C16: for an index below 0 or not below the number of parameters,
`deleteParameter` and `editParameter` return the backing arrays and the Form
state unchanged; `saveParameter` does so when fewer than four parameter inputs
are bound or `currentParameter` is not a valid index. -/
theorem C16_out_of_range_operations_are_noops (h : Heap) (m : toolEditorModel) (i : Int) :
    ((i < 0 ∨ (sliceLen m.tool.Parameters : Int) ≤ i) →
      m.deleteParameter h i = (h, m) ∧ m.editParameter h i = m) ∧
    (((m.parameterInputs.length : Int) < 4 ∨ m.currentParameter < 0 ∨
        (sliceLen m.tool.Parameters : Int) ≤ m.currentParameter) →
      m.saveParameter h = (h, m)) := by
  refine ⟨fun hi => ⟨?_, ?_⟩, fun hg => saveParameter_guard h m hg⟩
  · unfold toolEditorModel.deleteParameter
    rw [if_pos hi]
  · unfold toolEditorModel.editParameter
    rw [if_pos hi]

/-- Witness of C16: index 5 on a record with two parameters, and no parameter
input bound. -/
theorem C16_out_of_range_operations_are_noops_witness :
    (((5 : Int) < 0 ∨ (sliceLen storedToolForm.tool.Parameters : Int) ≤ 5) ∧
      (storedToolForm.parameterInputs.length : Int) < 4) ∧
    ((((5 : Int) < 0 ∨ (sliceLen storedToolForm.tool.Parameters : Int) ≤ (5 : Int)) →
      storedToolForm.deleteParameter oneToolWorld.heap (5 : Int) = (oneToolWorld.heap,
          storedToolForm) ∧ storedToolForm.editParameter oneToolWorld.heap (5 : Int) =
              storedToolForm) ∧
    (((storedToolForm.parameterInputs.length : Int) < 4 ∨ storedToolForm.currentParameter < 0 ∨
        (sliceLen storedToolForm.tool.Parameters : Int) ≤ storedToolForm.currentParameter) →
      storedToolForm.saveParameter oneToolWorld.heap = (oneToolWorld.heap, storedToolForm))) :=
  ⟨⟨by decide, by decide⟩,
    C16_out_of_range_operations_are_noops oneToolWorld.heap storedToolForm 5⟩

/-- C17: for a Form whose record has n parameters and an index i with
0 <= i < n, the parameter list after `deleteParameter(i)` is the list before
with exactly the element at i removed, of length n-1; the selection index is
unchanged when it is below n-1 and becomes n-2 otherwise, which is -1 when
n = 1. -/
theorem C17_deleteParameter_removes_element (h : Heap) (m : toolEditorModel) (s : Slice)
    (i : Int) (hs : m.tool.Parameters = some s) (hv : s.within h)
    (h0 : 0 ≤ i) (h1 : i < s.len) :
    (m.deleteParameter h i).1.readOpt (m.deleteParameter h i).2.tool.Parameters =
      (h.readOpt m.tool.Parameters).eraseIdx i.toNat ∧
    ((m.deleteParameter h i).1.readOpt (m.deleteParameter h i).2.tool.Parameters).length =
      s.len - 1 ∧
    (m.selectedParamIndex < (s.len : Int) - 1 →
      (m.deleteParameter h i).2.selectedParamIndex = m.selectedParamIndex) ∧
    ((s.len : Int) - 1 ≤ m.selectedParamIndex →
      (m.deleteParameter h i).2.selectedParamIndex = (s.len : Int) - 2) ∧
    (s.len = 1 → (s.len : Int) - 1 ≤ m.selectedParamIndex →
      (m.deleteParameter h i).2.selectedParamIndex = -1) := by
  obtain ⟨hread, _, hsel⟩ := deleteParameter_read h m s i hs hv h0 h1
  have hl := read_length h s hv
  refine ⟨hread, ?_, ?_, ?_, ?_⟩
  · rw [hread, List.length_eraseIdx]
    simp only [hs, Heap.readOpt, hl]
    rw [if_pos (by omega)]
  · intro hlt
    rw [hsel, if_neg (by omega)]
  · intro hge
    rw [hsel, if_pos (by omega)]
  · intro h1' hge
    rw [hsel, if_pos (by omega)]
    omega

/-- Witness of C17: deleting the first of the two parameters. -/
theorem C17_deleteParameter_removes_element_witness :
    (storedToolForm.tool.Parameters = some ⟨0, 2, 2⟩ ∧
      (⟨0, 2, 2⟩ : Slice).within oneToolWorld.heap ∧
      (0 : Int) ≤ 0 ∧ (0 : Int) < ((⟨0, 2, 2⟩ : Slice).len : Int)) ∧
    ((storedToolForm.deleteParameter oneToolWorld.heap (0 : Int)).1.readOpt
        (storedToolForm.deleteParameter oneToolWorld.heap (0 : Int)).2.tool.Parameters =
      (oneToolWorld.heap.readOpt storedToolForm.tool.Parameters).eraseIdx (0 : Int).toNat ∧
    ((storedToolForm.deleteParameter oneToolWorld.heap (0 : Int)).1.readOpt
        (storedToolForm.deleteParameter oneToolWorld.heap (0 : Int)).2.tool.Parameters).length =
      (⟨0, 2, 2⟩ : Slice).len - 1 ∧
    (storedToolForm.selectedParamIndex < ((⟨0, 2, 2⟩ : Slice).len : Int) - 1 →
      (storedToolForm.deleteParameter oneToolWorld.heap (0 : Int)).2.selectedParamIndex =
          storedToolForm.selectedParamIndex) ∧
    (((⟨0, 2, 2⟩ : Slice).len : Int) - 1 ≤ storedToolForm.selectedParamIndex →
      (storedToolForm.deleteParameter oneToolWorld.heap (0 : Int)).2.selectedParamIndex = ((⟨0, 2,
          2⟩ : Slice).len : Int) - 2) ∧
    ((⟨0, 2, 2⟩ : Slice).len = 1 → ((⟨0, 2, 2⟩ : Slice).len : Int) - 1 ≤
        storedToolForm.selectedParamIndex →
      (storedToolForm.deleteParameter oneToolWorld.heap (0 : Int)).2.selectedParamIndex = -1)) :=
  ⟨⟨by decide, by decide, by decide, by decide⟩,
    C17_deleteParameter_removes_element oneToolWorld.heap storedToolForm ⟨0, 2, 2⟩ 0
      (by decide) (by decide) (by decide) (by decide)⟩

/-- C18 as stated fails: after the "?" key the help overlay is shown and the
parameter editor is still closed; the alt+p key then appends nothing and does
not open the parameter editor. -/
theorem C18_counterexample_alt_p_under_help_overlay :
    (altRuneKey 'p' = Msg.KeyMsg ⟨KeyType.KeyRunes, ['p'], true, false⟩ ∧
      (⟨KeyType.KeyRunes, ['p'], true, false⟩ : KeyMsg).String = "alt+p") ∧
    (deliverForm quietEnv (oneToolWorld.heap, storedToolForm, []) [runeKey '?']).map
      (fun r => (r.2.1.showParameterHelp, r.2.1.editingParameters,
        r.1.readOpt r.2.1.tool.Parameters))
      = some (true, false, [pathParam, depthParam]) ∧
    (deliverForm quietEnv (oneToolWorld.heap, storedToolForm, [])
        [runeKey '?', altRuneKey 'p']).map
      (fun r => (r.2.1.showParameterHelp, r.2.1.editingParameters,
        r.1.readOpt r.2.1.tool.Parameters))
      = some (true, false, [pathParam, depthParam]) := by
  decide

/-- C18, amended: `addNewParameter` yields the parameter list followed by one
new parameter with type "string", required set, and empty name and
description; the editing flag is set, `currentParameter` is the new last
index, four inputs are bound holding "", "string", "" and "true", and the
focus index is 0.  The alt+p key does exactly that when the parameter editor
is closed and the help overlay is hidden. -/
theorem C18_addNewParameter_appends_blank (env : Env) (h : Heap) (m : toolEditorModel)
    (hv : ∀ s, m.tool.Parameters = some s → s.within h) :
    (∃ p, (m.addNewParameter env h).1.readOpt (m.addNewParameter env h).2.tool.Parameters =
        h.readOpt m.tool.Parameters ++ [p] ∧
      p.Type_ = "string" ∧ p.Required = true ∧ p.Name = "" ∧ p.Description = "") ∧
    (m.addNewParameter env h).2.editingParameters = true ∧
    (m.addNewParameter env h).2.currentParameter = (h.readOpt m.tool.Parameters).length ∧
    (m.addNewParameter env h).2.parameterInputs.map textinput.Model.Value =
      ["", "string", "", "true"] ∧
    (m.addNewParameter env h).2.focused = 0 ∧
    (∀ k : KeyMsg, k.String = "alt+p" → m.showParameterHelp = false →
      m.editingParameters = false →
      m.Update env h (Msg.KeyMsg k) =
        some ((m.addNewParameter env h).1, (m.addNewParameter env h).2, [])) := by
  obtain ⟨hread, hcur⟩ := addNewParameter_read env h m hv
  have hin : (m.addNewParameter env h).2.parameterInputs.map textinput.Model.Value =
      ["", "string", "", "true"] := by
    exact createParameterInputs_new
      { ID := "p" ++ toString env.nowParam.unixNano, Name := "", Type_ := "string",
        Description := "", Required := true, Default := none, Options := none,
        Min := none, Max := none }
  refine ⟨⟨_, hread, ?_, ?_, ?_, ?_⟩, rfl, hcur, hin, rfl,
    fun k hk hhelp hedit => Update_alt_p env h m k hk hhelp hedit⟩ <;> rfl

/-- Witness of C18: a new parameter behind the two of the stored record. -/
theorem C18_addNewParameter_appends_blank_witness :
    (∀ s, storedToolForm.tool.Parameters = some s → s.within oneToolWorld.heap) ∧
    ((∃ p, (storedToolForm.addNewParameter quietEnv oneToolWorld.heap).1.readOpt
        (storedToolForm.addNewParameter quietEnv oneToolWorld.heap).2.tool.Parameters =
        oneToolWorld.heap.readOpt storedToolForm.tool.Parameters ++ [p] ∧
      p.Type_ = "string" ∧ p.Required = true ∧ p.Name = "" ∧ p.Description = "") ∧
    (storedToolForm.addNewParameter quietEnv oneToolWorld.heap).2.editingParameters = true ∧
    (storedToolForm.addNewParameter quietEnv oneToolWorld.heap).2.currentParameter =
        (oneToolWorld.heap.readOpt storedToolForm.tool.Parameters).length ∧
    (storedToolForm.addNewParameter quietEnv oneToolWorld.heap).2.parameterInputs.map
        textinput.Model.Value =
      ["", "string", "", "true"] ∧
    (storedToolForm.addNewParameter quietEnv oneToolWorld.heap).2.focused = 0 ∧
    (∀ k : KeyMsg, k.String = "alt+p" → storedToolForm.showParameterHelp = false →
      storedToolForm.editingParameters = false →
      storedToolForm.Update quietEnv oneToolWorld.heap (Msg.KeyMsg k) =
        some ((storedToolForm.addNewParameter quietEnv oneToolWorld.heap).1,
            (storedToolForm.addNewParameter quietEnv oneToolWorld.heap).2, []))) :=
  ⟨fun s hs => by
      have h2 : storedToolForm.tool.Parameters = some ⟨0, 2, 2⟩ := by decide
      rw [h2] at hs
      cases hs
      decide,
    C18_addNewParameter_appends_blank quietEnv oneToolWorld.heap storedToolForm
      (fun s hs => by
        have h2 : storedToolForm.tool.Parameters = some ⟨0, 2, 2⟩ := by decide
        rw [h2] at hs
        cases hs
        decide)⟩

/-- C19 as stated fails: for a parameter whose name has 31 characters,
`editParameter` binds a name input that holds only the first 30 of them. -/
theorem C19_counterexample_long_name_is_cut :
    (longNameForm.editParameter [[longNameParam]] 0).parameterInputs.map textinput.Model.Value
      = ["a_parameter_name_of_31_runes__", "string", "", "false"] ∧
    (Heap.readOpt [[longNameParam]] longNameForm.tool.Parameters).map (fun p => p.Name)
      = ["a_parameter_name_of_31_runes__x"] := by
  decide

/-- C19, amended: for a valid index i, `editParameter(i)` leaves the record
(and so its parameter list) unchanged, sets the editing flag,
`currentParameter = i` and the focus index 0, and binds four inputs of which
only the first holds focus.  They hold the parameter's name, type and
description as `SetValue` stores them: sanitized and cut to 30, 20 and 100
characters; the fourth holds "true" or "false".  When the three texts are left
alone by the sanitizer and within those limits, the inputs hold exactly the
name, the type, the description and the rendered flag. -/
theorem C19_editParameter_binds_inputs (h : Heap) (m : toolEditorModel) (i : Int)
    (p : Parameter) (h0 : 0 ≤ i) (hp : (h.readOpt m.tool.Parameters)[i.toNat]? = some p) :
    (m.editParameter h i).tool = m.tool ∧
    (m.editParameter h i).editingParameters = true ∧
    (m.editParameter h i).currentParameter = i ∧
    (m.editParameter h i).focused = 0 ∧
    (m.editParameter h i).parameterInputs.map (fun x => x.value) =
      [(textinput.Sanitize p.Name.data).take 30, (textinput.Sanitize p.Type_.data).take 20,
       (textinput.Sanitize p.Description.data).take 100, (FormatBool p.Required).data] ∧
    (m.editParameter h i).parameterInputs.map textinput.Model.Focused =
      [true, false, false, false] ∧
    (textinput.Sanitize p.Name.data = p.Name.data → p.Name.length ≤ 30 →
      textinput.Sanitize p.Type_.data = p.Type_.data → p.Type_.length ≤ 20 →
      textinput.Sanitize p.Description.data = p.Description.data → p.Description.length ≤ 100 →
      (m.editParameter h i).parameterInputs.map textinput.Model.Value =
        [p.Name, p.Type_, p.Description, FormatBool p.Required]) := by
  rw [editParameter_eq h m i p h0 hp]
  have hc := createParameterInputs_edit p
  refine ⟨rfl, rfl, rfl, rfl, hc.1, hc.2, ?_⟩
  intro hn1 hn2 ht1 ht2 hd1 hd2
  have hmap : (focusOnly (createParameterInputs p false) 0).map textinput.Model.Value =
      ((focusOnly (createParameterInputs p false) 0).map (fun x => x.value)).map String.mk := by
    rw [List.map_map]
    rfl
  simp only []
  rw [hmap, hc.1]
  simp only [List.map_cons, List.map_nil, take_data_fits _ _ hn1 hn2,
    take_data_fits _ _ ht1 ht2, take_data_fits _ _ hd1 hd2]

/-- Witness of C19: opening the parameter path of the stored record. -/
theorem C19_editParameter_binds_inputs_witness :
    ((0 : Int) ≤ 0 ∧
      (oneToolWorld.heap.readOpt storedToolForm.tool.Parameters)[(0 : Int).toNat]?
        = some pathParam) ∧
    ((storedToolForm.editParameter oneToolWorld.heap (0 : Int)).tool = storedToolForm.tool ∧
    (storedToolForm.editParameter oneToolWorld.heap (0 : Int)).editingParameters = true ∧
    (storedToolForm.editParameter oneToolWorld.heap (0 : Int)).currentParameter = (0 : Int) ∧
    (storedToolForm.editParameter oneToolWorld.heap (0 : Int)).focused = 0 ∧
    (storedToolForm.editParameter oneToolWorld.heap (0 : Int)).parameterInputs.map (fun x =>
        x.value) =
      [(textinput.Sanitize pathParam.Name.data).take 30, (textinput.Sanitize
          pathParam.Type_.data).take 20,
       (textinput.Sanitize pathParam.Description.data).take 100, (FormatBool
           pathParam.Required).data] ∧
    (storedToolForm.editParameter oneToolWorld.heap (0 : Int)).parameterInputs.map
        textinput.Model.Focused =
      [true, false, false, false] ∧
    (textinput.Sanitize pathParam.Name.data = pathParam.Name.data → pathParam.Name.length ≤ 30 →
      textinput.Sanitize pathParam.Type_.data = pathParam.Type_.data → pathParam.Type_.length ≤ 20 →
      textinput.Sanitize pathParam.Description.data = pathParam.Description.data →
          pathParam.Description.length ≤ 100 →
      (storedToolForm.editParameter oneToolWorld.heap (0 : Int)).parameterInputs.map
          textinput.Model.Value =
        [pathParam.Name, pathParam.Type_, pathParam.Description, FormatBool pathParam.Required])) :=
  ⟨⟨by decide, by decide⟩,
    C19_editParameter_binds_inputs oneToolWorld.heap storedToolForm 0 pathParam
      (by decide) (by decide)⟩

/-- C20: `cancelParameterEdit` leaves the record and its parameter list as
they are, clears the editing flag and sets the focus index to 0; in every
reachable Form state with the editing flag set, and in every state with that
flag set and the help overlay hidden, the esc key does exactly
`cancelParameterEdit` and changes no backing array; and `addNewParameter`
followed by `cancelParameterEdit` on a list of n parameters leaves those n
followed by the blank new parameter, n+1 in all. -/
theorem C20_cancel_keeps_parameter_list :
    (∀ (h : Heap) (m : toolEditorModel),
      (m.cancelParameterEdit).tool = m.tool ∧
      h.readOpt (m.cancelParameterEdit).tool.Parameters = h.readOpt m.tool.Parameters ∧
      (m.cancelParameterEdit).editingParameters = false ∧
      (m.cancelParameterEdit).focused = 0) ∧
    (∀ (env : Env) (h : Heap) (m : toolEditorModel) (k : KeyMsg),
      FormReachable h m → m.editingParameters = true → k.String = "esc" →
      m.Update env h (Msg.KeyMsg k) = some (h, m.cancelParameterEdit, [])) ∧
    (∀ (env : Env) (h : Heap) (m : toolEditorModel) (k : KeyMsg),
      m.showParameterHelp = false → m.editingParameters = true → k.String = "esc" →
      m.Update env h (Msg.KeyMsg k) = some (h, m.cancelParameterEdit, [])) ∧
    (∀ (env : Env) (h : Heap) (m : toolEditorModel),
      (∀ s, m.tool.Parameters = some s → s.within h) →
      ∃ p, (m.addNewParameter env h).1.readOpt
          ((m.addNewParameter env h).2.cancelParameterEdit).tool.Parameters =
          h.readOpt m.tool.Parameters ++ [p] ∧
        p.Name = "" ∧ p.Description = "" ∧ p.Type_ = "string" ∧ p.Required = true ∧
        ((m.addNewParameter env h).1.readOpt
          ((m.addNewParameter env h).2.cancelParameterEdit).tool.Parameters).length =
          (h.readOpt m.tool.Parameters).length + 1) := by
  refine ⟨fun h m => ⟨rfl, rfl, rfl, rfl⟩, ?_,
    fun env h m k hhelp hedit hk => Update_esc_editing env h m k hk hhelp hedit, ?_⟩
  · intro env h m k hreach hedit hk
    have hhelp : m.showParameterHelp = false := by
      by_contra hc
      have := FormReachable_inv h m hreach (by simpa using hc)
      rw [hedit] at this
      exact absurd this (by decide)
    exact Update_esc_editing env h m k hk hhelp hedit
  · intro env h m hv
    obtain ⟨hread, _⟩ := addNewParameter_read env h m hv
    have hread' : (m.addNewParameter env h).1.readOpt
        ((m.addNewParameter env h).2.cancelParameterEdit).tool.Parameters = _ := hread
    refine ⟨_, hread', rfl, rfl, rfl, rfl, ?_⟩
    rw [hread']
    simp

/-- Witness of C20: the Form opened on the stored record reaches, by the edit
key alt+e, a state that is Editing; there esc cancels. -/
theorem C20_cancel_keeps_parameter_list_witness :
    FormReachable oneToolWorld.heap editingForm ∧
    editingForm.editingParameters = true ∧
    escKey.String = "esc" ∧
    editingForm.Update quietEnv oneToolWorld.heap (Msg.KeyMsg escKey) =
      some (oneToolWorld.heap, editingForm.cancelParameterEdit, []) ∧
    oneToolWorld.heap.readOpt (editingForm.cancelParameterEdit).tool.Parameters =
      oneToolWorld.heap.readOpt editingForm.tool.Parameters :=
  ⟨FormReachable.update quietEnv (altRuneKey 'e') oneToolWorld.heap oneToolWorld.heap
      storedToolForm editingForm [] (FormReachable.withTool oneToolWorld.heap storedTool)
      (by decide),
    by decide, by decide,
    C20_cancel_keeps_parameter_list.2.1 quietEnv oneToolWorld.heap editingForm escKey
      (FormReachable.update quietEnv (altRuneKey 'e') oneToolWorld.heap oneToolWorld.heap
        storedToolForm editingForm [] (FormReachable.withTool oneToolWorld.heap storedTool)
        (by decide))
      (by decide) (by decide),
    (C20_cancel_keeps_parameter_list.1 oneToolWorld.heap editingForm).2.1⟩

/-- C21: with the help overlay hidden and the parameter editor closed, an Enter
key with the focus index on the last field returns the state with only the
saving flag set (field inputs, record and backing arrays as they were); with
three fields and the focus index on the first or second, it moves the focus
index to the next field, leaves the saving flag, the record, the backing arrays
and the texts of the fields as they are and returns no command. -/
theorem C21_enter_saves_on_last_field (env : Env) (h : Heap) (m : toolEditorModel) (k : KeyMsg)
    (hhelp : m.showParameterHelp = false) (hedit : m.editingParameters = false)
    (hk : k.String = "enter") :
    (m.focused = (m.inputs.length : Int) - 1 →
      m.Update env h (Msg.KeyMsg k) = some (h, { m with saving := true }, [Effect.Quit])) ∧
    (m.inputs.length = 3 → 0 ≤ m.focused → m.focused < 2 →
      ∃ m', m.Update env h (Msg.KeyMsg k) = some (h, m', []) ∧
        m'.focused = m.focused + 1 ∧ m'.saving = m.saving ∧ m'.tool = m.tool ∧
        m'.inputs.map textinput.Model.Value = m.inputs.map textinput.Model.Value) := by
  rw [Update_closed_key env h m k hhelp hedit (by rw [hk]; decide), updateSwitch_enter env h m k hk]
  refine ⟨fun hf => by rw [if_pos hf], fun hlen h0 h2 => ?_⟩
  rw [if_neg (by rw [hlen]; push_cast; omega)]
  have hge : ¬ (m.focused + 1 ≥ (m.inputs.length : Int)) := by rw [hlen]; push_cast; omega
  simp only [hge, if_false]
  obtain ⟨a, b, c, _, hsync⟩ := syncInputs_three
    { m with focused := m.focused + 1, inputs := focusOnly m.inputs (m.focused + 1) }
    (by simp only [focusOnly_length, hlen])
  rw [hsync]
  exact ⟨_, rfl, rfl, rfl, rfl, focusOnly_map_Value _ _⟩

/-- Witness of C21: Enter on the Form opened on the stored record, focus on
the name, and Enter on a blank Form with the focus on the category. -/
theorem C21_enter_saves_on_last_field_witness :
    (storedToolForm.showParameterHelp = false ∧ storedToolForm.editingParameters = false ∧
      enterKey.String = "enter" ∧ storedToolForm.inputs.length = 3 ∧
      0 ≤ storedToolForm.focused ∧ storedToolForm.focused < 2 ∧
      echoFormApp.toolEditor.focused = (echoFormApp.toolEditor.inputs.length : Int) - 1) ∧
    (∃ m', storedToolForm.Update quietEnv oneToolWorld.heap (Msg.KeyMsg enterKey) =
        some (oneToolWorld.heap, m', []) ∧
      m'.focused = storedToolForm.focused + 1 ∧ m'.saving = storedToolForm.saving ∧
      m'.tool = storedToolForm.tool ∧
      m'.inputs.map textinput.Model.Value = storedToolForm.inputs.map textinput.Model.Value) ∧
    echoFormApp.toolEditor.Update quietEnv [] (Msg.KeyMsg enterKey) =
      some ([], { echoFormApp.toolEditor with saving := true }, [Effect.Quit]) :=
  ⟨by decide,
    (C21_enter_saves_on_last_field quietEnv oneToolWorld.heap storedToolForm enterKey
      (by decide) (by decide) (by decide)).2 (by decide) (by decide) (by decide),
    (C21_enter_saves_on_last_field quietEnv [] echoFormApp.toolEditor enterKey
      (by decide) (by decide) (by decide)).1 (by decide)⟩

/-- C22: `getTool` returns a record whose ID is the ID of the record under
edit, whose name, description and category are the texts of the name,
description and category inputs, whose parameter slice is never nil and has the
elements of the record's slice (it is the record's slice, or the empty slice
when that was nil), and whose status is the record's status when that is not
empty and "active" otherwise. -/
theorem C22_getTool_builds_record (h : Heap) (m : toolEditorModel) (now : Time) :
    (m.getTool now).ID = m.tool.ID ∧
    (m.getTool now).Name = m.nameInput.Value ∧
    (m.getTool now).Description = m.descriptionInput.Value ∧
    (m.getTool now).Category = m.categoryInput.Value ∧
    (m.getTool now).Parameters ≠ none ∧
    h.readOpt (m.getTool now).Parameters = h.readOpt m.tool.Parameters ∧
    (m.tool.Parameters ≠ none → (m.getTool now).Parameters = m.tool.Parameters) ∧
    (m.tool.Parameters = none → (m.getTool now).Parameters = some Slice.empty ∧
      h.readOpt (m.getTool now).Parameters = []) ∧
    (m.getTool now).Status = (if m.tool.Status = "" then "active" else m.tool.Status) := by
  obtain ⟨h1, h2, h3, h4⟩ := getTool_fields m now
  refine ⟨h1, h2, h3, h4, ?_, ?_, ?_, ?_, ?_⟩ <;>
    (unfold toolEditorModel.getTool
     simp only []
     cases hp : m.tool.Parameters <;> by_cases hs : m.tool.Status = "" <;>
       simp [hs, Heap.readOpt, Heap.read, Slice.empty])

/-- Witness of C22: a Form on a record with a nil parameter slice and no
status, whose fields are empty. -/
theorem C22_getTool_builds_record_witness :
    nilParametersForm.tool.Parameters = none ∧ nilParametersForm.tool.Status = "" ∧
    (nilParametersForm.getTool noon).ID = "7" ∧
    (nilParametersForm.getTool noon).Name = "" ∧
    (nilParametersForm.getTool noon).Parameters = some Slice.empty ∧
    (nilParametersForm.getTool noon).Status = "active" :=
  ⟨by decide, by decide,
    (C22_getTool_builds_record [] nilParametersForm noon).1.trans (by decide),
    (C22_getTool_builds_record [] nilParametersForm noon).2.1.trans (by decide),
    ((C22_getTool_builds_record [] nilParametersForm noon).2.2.2.2.2.2.2.1 (by decide)).1,
    (C22_getTool_builds_record [] nilParametersForm noon).2.2.2.2.2.2.2.2.trans (by decide)⟩

/-- C23 as stated fails: the store holds one record, whose name has 51
characters; the List has it selected.  Enter switches to the Form on that
record, but the name field holds only the first 50 characters of the name. -/
theorem C23_counterexample_long_name_field_is_cut :
    (startApp longNameWorld).2.1.toolList.tools = [longNameTool] ∧
    (startApp longNameWorld).2.1.toolList.selected = 0 ∧
    (deliver quietEnv (startApp longNameWorld) [Msg.KeyMsg enterKey]).map
      (fun r => (r.2.1.currentView, r.2.1.toolEditor.tool.ID, r.2.1.toolEditor.tool.Name,
        r.2.1.toolEditor.nameInput.Value))
      = some ("editor", "20240101120000", "a_tool_name_that_is_one_character_beyond_the_limit_",
          "a_tool_name_that_is_one_character_beyond_the_limit") := by
  decide

/-- C23, amended: while the List is the current view, an Enter key returns no
command and makes the Form the current view.  With a selection that is an
index of the List's records, the record under edit is the selected record
(same ID, same parameters, a nil parameter slice replaced by the empty one),
and the three fields hold its name, description and category as `SetValue`
stores them: sanitized and cut to 50, 200 and 30 characters, so exactly these
texts when the sanitizer leaves them alone and they are within the limits.
With no record (or no selection), the Form is the blank one: the record under edit has the ID ""
and an empty parameter slice that is not nil. -/
theorem C23_enter_opens_form (env : Env) (w : World) (m : appModel) (k : KeyMsg)
    (hview : m.currentView = "list") (hk : k.String = "enter") :
    (∀ t, 0 ≤ m.toolList.selected → m.toolList.tools[m.toolList.selected.toNat]? = some t →
      ∃ m', appModel.Update env w m (Msg.KeyMsg k) = some (w, m', []) ∧
        m'.currentView = "editor" ∧
        m'.toolEditor.tool.ID = t.ID ∧
        w.heap.readOpt m'.toolEditor.tool.Parameters = w.heap.readOpt t.Parameters ∧
        (t.Parameters ≠ none → m'.toolEditor.tool = t) ∧
        m'.toolEditor.inputs =
          [m'.toolEditor.nameInput, m'.toolEditor.descriptionInput,
           m'.toolEditor.categoryInput] ∧
        m'.toolEditor.nameInput.value = (textinput.Sanitize t.Name.data).take 50 ∧
        m'.toolEditor.descriptionInput.value = (textinput.Sanitize t.Description.data).take 200 ∧
        m'.toolEditor.categoryInput.value = (textinput.Sanitize t.Category.data).take 30 ∧
        (textinput.Sanitize t.Name.data = t.Name.data → t.Name.length ≤ 50 →
          m'.toolEditor.nameInput.Value = t.Name) ∧
        (textinput.Sanitize t.Description.data = t.Description.data →
          t.Description.length ≤ 200 → m'.toolEditor.descriptionInput.Value = t.Description) ∧
        (textinput.Sanitize t.Category.data = t.Category.data → t.Category.length ≤ 30 →
          m'.toolEditor.categoryInput.Value = t.Category)) ∧
    (m.toolList.tools = [] ∨ m.toolList.selected < 0 →
      ∃ m', appModel.Update env w m (Msg.KeyMsg k) = some (w, m', []) ∧
        m'.currentView = "editor" ∧ m'.toolEditor = newToolEditorModel ∧
        m'.toolEditor.tool.ID = "" ∧ m'.toolEditor.tool.Parameters = some Slice.empty ∧
        w.heap.readOpt m'.toolEditor.tool.Parameters = [] ∧
        m'.toolEditor.inputs.map textinput.Model.Value = ["", "", ""]) := by
  rw [Router_enter_list env w m k hview hk]
  constructor
  · intro t h0 ht
    have hlen : m.toolList.tools.length > 0 := by
      have := (List.getElem?_eq_some_iff.mp ht).1
      omega
    rw [if_pos ⟨hlen, h0⟩, ht]
    obtain ⟨hn, hd, hc⟩ := newToolEditorModelWithTool_values t
    obtain ⟨i1, i2, i3, i4, _⟩ := newToolEditorModelWithTool_inputs t
    refine ⟨_, rfl, rfl, ?_, ?_, ?_, ?_, hn, hd, hc, ?_, ?_, ?_⟩
    · show (newToolEditorModelWithTool t).tool.ID = t.ID
      rw [newToolEditorModelWithTool_tool]
      split_ifs <;> rfl
    · show w.heap.readOpt (newToolEditorModelWithTool t).tool.Parameters = _
      rw [newToolEditorModelWithTool_tool]
      split_ifs with hp
      · rw [hp]
        rfl
      · rfl
    · intro hp
      show (newToolEditorModelWithTool t).tool = t
      rw [newToolEditorModelWithTool_tool, if_neg hp]
    · show (newToolEditorModelWithTool t).inputs = _
      rw [i4]
      show _ = [(newToolEditorModelWithTool t).nameInput,
        (newToolEditorModelWithTool t).descriptionInput,
        (newToolEditorModelWithTool t).categoryInput]
      rw [i1, i2, i3]
    · intro hs hl
      show String.mk (newToolEditorModelWithTool t).nameInput.value = _
      rw [hn]
      exact take_data_fits _ _ hs hl
    · intro hs hl
      show String.mk (newToolEditorModelWithTool t).descriptionInput.value = _
      rw [hd]
      exact take_data_fits _ _ hs hl
    · intro hs hl
      show String.mk (newToolEditorModelWithTool t).categoryInput.value = _
      rw [hc]
      exact take_data_fits _ _ hs hl
  · intro he
    rw [if_neg (by rcases he with he | he <;> [(rw [he]; simp); (intro hc; omega)])]
    refine ⟨_, rfl, rfl, rfl, rfl, rfl, rfl, ?_⟩
    show newToolEditorModel.inputs.map textinput.Model.Value = _
    decide

/-- Witness of C23: Enter on the List of the store that holds `storedTool`. -/
theorem C23_enter_opens_form_witness :
    ((startApp oneToolWorld).2.1.currentView = "list" ∧ enterKey.String = "enter" ∧
      0 ≤ (startApp oneToolWorld).2.1.toolList.selected ∧
      (startApp oneToolWorld).2.1.toolList.tools[
        (startApp oneToolWorld).2.1.toolList.selected.toNat]? = some storedTool) ∧
    ∃ m', appModel.Update quietEnv oneToolWorld (startApp oneToolWorld).2.1
        (Msg.KeyMsg enterKey) = some (oneToolWorld, m', []) ∧
      m'.currentView = "editor" ∧ m'.toolEditor.tool = storedTool ∧
      m'.toolEditor.inputs.map textinput.Model.Value = ["Find", "finds files", "CLI"] := by
  refine ⟨by decide, ?_⟩
  obtain ⟨m', hu, hv, _, _, ht, hi, _, _, _, hn, hd, hc⟩ :=
    (C23_enter_opens_form quietEnv oneToolWorld (startApp oneToolWorld).2.1 enterKey
      (by decide) (by decide)).1 storedTool (by decide) (by decide)
  refine ⟨m', hu, hv, ht (by decide), ?_⟩
  rw [hi, List.map_cons, List.map_cons, List.map_cons, List.map_nil,
    hn (by decide) (by decide), hd (by decide) (by decide), hc (by decide) (by decide)]
  rfl

/-- C24: while the help overlay is shown, a key of type esc or Enter returns the
state with only the overlay flag cleared, every other key returns the state as
it is, the backing arrays are untouched and the command is nil; so the field
inputs, focus index, selection, record, parameter inputs, editing flag and
saving flag are never changed. -/
theorem C24_help_overlay_consumes_keys (env : Env) (h : Heap) (m : toolEditorModel) (k : KeyMsg)
    (hhelp : m.showParameterHelp = true) :
    (k.Type_ = KeyType.KeyEsc ∨ k.Type_ = KeyType.KeyEnter →
      m.Update env h (Msg.KeyMsg k) = some (h, { m with showParameterHelp := false }, [])) ∧
    (¬ (k.Type_ = KeyType.KeyEsc ∨ k.Type_ = KeyType.KeyEnter) →
      m.Update env h (Msg.KeyMsg k) = some (h, m, [])) ∧
    ∃ m', m.Update env h (Msg.KeyMsg k) = some (h, m', []) ∧
      m'.nameInput = m.nameInput ∧ m'.descriptionInput = m.descriptionInput ∧
      m'.categoryInput = m.categoryInput ∧ m'.inputs = m.inputs ∧
      m'.parameterInputs = m.parameterInputs ∧ m'.focused = m.focused ∧
      m'.selectedParamIndex = m.selectedParamIndex ∧ m'.currentParameter = m.currentParameter ∧
      m'.tool = m.tool ∧ h.readOpt m'.tool.Parameters = h.readOpt m.tool.Parameters ∧
      m'.editingParameters = m.editingParameters ∧ m'.saving = m.saving := by
  rw [Update_help env h m k hhelp]
  refine ⟨fun hk => by rw [if_pos hk], fun hk => by rw [if_neg hk], ?_⟩
  split_ifs <;> exact ⟨_, rfl, rfl, rfl, rfl, rfl, rfl, rfl, rfl, rfl, rfl, rfl, rfl, rfl⟩

/-- Witness of C24: the Form on the stored record with the overlay shown, and
the tab key. -/
theorem C24_help_overlay_consumes_keys_witness :
    helpForm.showParameterHelp = true ∧
    helpForm.Update quietEnv oneToolWorld.heap (Msg.KeyMsg tabKey) =
      some (oneToolWorld.heap, helpForm, []) ∧
    helpForm.Update quietEnv oneToolWorld.heap (Msg.KeyMsg escKey) =
      some (oneToolWorld.heap, storedToolForm, []) :=
  ⟨by decide,
    (C24_help_overlay_consumes_keys quietEnv oneToolWorld.heap helpForm tabKey
      (by decide)).2.1 (by decide),
    (C24_help_overlay_consumes_keys quietEnv oneToolWorld.heap helpForm escKey
      (by decide)).1 (by decide)⟩

/-- C25: the List item built from a record has the record's name as its title
(and the items of a List built from records carry their names in order).  Its
detail is "No parameters defined" when the record has no parameters, and
otherwise the texts name ++ " (" ++ type ++ ")" of its parameters, in the order
of the list, joined by ", ". -/
theorem C25_list_item_title_and_detail (h : Heap) (t : Tool) (tools : List Tool)
    (hv : ∀ s, t.Parameters = some s → s.within h) :
    (toolItem.mk t).Title = t.Name ∧
    (newToolListModel tools).list.items.map toolItem.Title = tools.map (fun r => r.Name) ∧
    (h.readOpt t.Parameters = [] → (toolItem.mk t).Description h = "No parameters defined") ∧
    (h.readOpt t.Parameters ≠ [] →
      (toolItem.mk t).Description h = String.intercalate ", "
        ((h.readOpt t.Parameters).map (fun p => p.Name ++ " (" ++ p.Type_ ++ ")"))) ∧
    (∀ p, h.readOpt t.Parameters = [p] →
      (toolItem.mk t).Description h = p.Name ++ " (" ++ p.Type_ ++ ")") ∧
    (∀ p q, h.readOpt t.Parameters = [p, q] →
      (toolItem.mk t).Description h =
        p.Name ++ " (" ++ p.Type_ ++ ")" ++ ", " ++ (q.Name ++ " (" ++ q.Type_ ++ ")")) := by
  have hlen := readOpt_length h t.Parameters hv
  have hne : h.readOpt t.Parameters ≠ [] →
      (toolItem.mk t).Description h = String.intercalate ", "
        ((h.readOpt t.Parameters).map (fun p => p.Name ++ " (" ++ p.Type_ ++ ")")) := by
    intro he
    unfold toolItem.Description
    rw [if_neg]
    intro h0
    apply he
    apply List.eq_nil_of_length_eq_zero
    rw [hlen]
    exact h0
  refine ⟨rfl, ?_, ?_, hne, ?_, ?_⟩
  · simp only [newToolListModel, list.New, List.map_map]
    rfl
  · intro he
    unfold toolItem.Description
    rw [if_pos]
    rw [← hlen, he]
    rfl
  · intro p hp
    rw [hne (by rw [hp]; exact List.cons_ne_nil _ _), hp]
    simp [String.intercalate, String.intercalate.go]
  · intro p q hp
    rw [hne (by rw [hp]; exact List.cons_ne_nil _ _), hp]
    simp [String.intercalate, String.intercalate.go, String.append_assoc]

/-- Witness of C25: the stored record with the parameters path and depth. -/
theorem C25_list_item_title_and_detail_witness :
    (∀ s, storedTool.Parameters = some s → s.within oneToolWorld.heap) ∧
    (toolItem.mk storedTool).Title = "Find" ∧
    (toolItem.mk storedTool).Description oneToolWorld.heap = "path (string), depth (number)" ∧
    (toolItem.mk echoTool).Description oneToolWorld.heap = "No parameters defined" :=
  ⟨fun s hs => by cases hs; decide,
    (C25_list_item_title_and_detail oneToolWorld.heap storedTool []
      (fun s hs => by cases hs; decide)).1,
    ((C25_list_item_title_and_detail oneToolWorld.heap storedTool []
      (fun s hs => by cases hs; decide)).2.2.2.2.2 pathParam depthParam (by decide)).trans
      (by decide),
    (C25_list_item_title_and_detail oneToolWorld.heap echoTool []
      (fun s hs => by cases hs)).2.2.1 (by decide)⟩

/-- C26 as stated fails: in the Form opened on the stored record the name
field holds "Find" and holds focus, far below its limit of 50 characters.  After
the home key the cursor is at the start of the text; the q key then yields the
name "qFind", not "Findq". -/
theorem C26_counterexample_q_inserted_at_cursor :
    (deliverForm homeEnv (oneToolWorld.heap, storedToolForm, []) [namedKey "home"]).map
      (fun r => (r.2.1.showParameterHelp, r.2.1.editingParameters, r.2.1.focused))
      = some (false, false, 0) ∧
    (deliverForm homeEnv (oneToolWorld.heap, storedToolForm, []) [namedKey "home"]).map
      (fun r => (r.2.1.inputs.map textinput.Model.Value,
        r.2.1.inputs.map textinput.Model.Focused))
      = some (["Find", "finds files", "CLI"], [true, false, false]) ∧
    (deliverForm homeEnv (oneToolWorld.heap, storedToolForm, []) [namedKey "home"]).map
      (fun r => (r.2.1.inputs.map (fun (i : textinput.Model) => i.pos),
        r.2.1.inputs.map (fun (i : textinput.Model) => i.CharLimit)))
      = some ([0, 11, 3], [50, 200, 30]) ∧
    (deliverForm homeEnv (oneToolWorld.heap, storedToolForm, [])
        [namedKey "home", Msg.KeyMsg qKey]).map
      (fun r => (r.2.1.nameInput.Value, r.2.1.inputs.map textinput.Model.Value, r.2.1.tool.Name,
        r.2.2))
      = some ("qFind", ["qFind", "finds files", "CLI"], "qFind", [Effect.Blink]) := by
  decide

/-- C26, amended: with the help overlay hidden, the parameter editor closed
and three fields, a q key returns the quit command if and only if the field at
the focus index does not hold input focus (the state is then returned as it
is).  When the field holds focus, the record's name, description and category
are afterwards the texts of the three fields, and when the field is below its
character limit the q is inserted into its text at the cursor: appended when
the cursor is at the end of the text. -/
theorem C26_q_quits_only_outside_input (env : Env) (h : Heap) (m : toolEditorModel)
    (k : KeyMsg) (input : textinput.Model)
    (hhelp : m.showParameterHelp = false) (hedit : m.editingParameters = false)
    (hk : k.String = "q") (hlen : m.inputs.length = 3)
    (hin : indexInt m.inputs m.focused = some input) :
    ∃ m' cmd, m.Update env h (Msg.KeyMsg k) = some (h, m', cmd) ∧
      (Effect.Quit ∈ cmd ↔ input.Focused = false) ∧
      (input.Focused = false → m' = m ∧ cmd = [Effect.Quit]) ∧
      (input.Focused = true →
        m'.tool.Name = m'.nameInput.Value ∧ m'.tool.Description = m'.descriptionInput.Value ∧
        m'.tool.Category = m'.categoryInput.Value ∧
        m'.inputs = [m'.nameInput, m'.descriptionInput, m'.categoryInput] ∧
        ∃ input', indexInt m'.inputs m.focused = some input' ∧
          (k.Runes = ['q'] →
            ¬ (0 < input.CharLimit ∧ input.CharLimit ≤ input.value.length) →
            input'.value = input.value.take input.pos ++ ['q'] ++ input.value.drop input.pos ∧
            (input.value.length ≤ input.pos → input'.Value = input.Value ++ "q"))) := by
  rw [Update_q env h m k input hhelp hedit hk hin]
  cases hf : input.Focused
  · rw [if_pos rfl]
    exact ⟨m, _, rfl, ⟨fun _ => rfl, fun _ => List.mem_singleton.mpr rfl⟩,
      fun _ => ⟨rfl, rfl⟩, fun hc => (by cases hc)⟩
  · rw [if_neg (by decide)]
    obtain ⟨m', cmd, hu, hi, hsync, htool, hcmd, _⟩ :=
      updateAllInputs_three env m (Msg.KeyMsg k) hlen
    rw [hu]
    refine ⟨m', cmd, rfl, ⟨fun hq => ?_, fun hc => (by cases hc)⟩, fun hc => (by cases hc),
      fun _ => ⟨by rw [htool], by rw [htool], by rw [htool], hsync, ?_⟩⟩
    · exfalso
      rw [hcmd] at hq
      have := Batch_Update_no_quit env m.inputs (Msg.KeyMsg k)
      rw [List.map_map] at this
      exact this hq
    · refine ⟨(input.Update env (Msg.KeyMsg k)).1, ?_, fun hr hroom => ?_⟩
      · rw [hi, indexInt_map, hin]
        rfl
      · have hv := textinput_Update_q env input k hk hr hf hroom
        refine ⟨hv, fun hpos => ?_⟩
        show String.mk _ = String.mk input.value ++ "q"
        rw [hv, List.take_of_length_le hpos, List.drop_of_length_le hpos, List.append_nil]
        rfl

/-- Witness of C26: the q key typed into the focused name field of the Form
on the stored record. -/
theorem C26_q_quits_only_outside_input_witness :
    (storedToolForm.showParameterHelp = false ∧ storedToolForm.editingParameters = false ∧
      qKey.String = "q" ∧ storedToolForm.inputs.length = 3 ∧
      indexInt storedToolForm.inputs storedToolForm.focused =
        some storedToolForm.nameInput ∧
      storedToolForm.nameInput.Focused = true ∧ storedToolForm.nameInput.Value = "Find") ∧
    ∃ m' cmd, storedToolForm.Update quietEnv oneToolWorld.heap (Msg.KeyMsg qKey) =
        some (oneToolWorld.heap, m', cmd) ∧
      Effect.Quit ∉ cmd ∧ m'.tool.Name = m'.nameInput.Value ∧
      ∃ input', indexInt m'.inputs storedToolForm.focused = some input' ∧
        input'.Value = "Findq" := by
  refine ⟨by decide, ?_⟩
  obtain ⟨m', cmd, hu, hq, _, hf⟩ := C26_q_quits_only_outside_input quietEnv
    oneToolWorld.heap storedToolForm qKey storedToolForm.nameInput (by decide) (by decide)
    (by decide) (by decide) (by decide)
  obtain ⟨hn, _, _, _, input', hi, hv⟩ := hf (by decide)
  exact ⟨m', cmd, hu, fun hc => absurd (hq.mp hc) (by decide), hn, input', hi,
    ((hv (by decide) (by decide)).2 (by decide)).trans (by decide)⟩

/-- C27: starting from a store with an empty map, after any sequence of
`AddTool`, `UpdateTool` and `DeleteTool` calls, every record of the map has
the ID it is stored under as its ID, and that ID is not empty; so has every
record `GetTools` returns. -/
theorem C27_stored_records_keyed_by_nonempty_ID (heap : Heap) (path : String) (disk : File)
    (ops : List StoreOp) :
    (∀ k t, (StoreOp.run ⟨heap, ⟨path, ∅⟩, disk⟩ ops).store.tools.lookup k = some t →
      t.ID = k ∧ t.ID ≠ "") ∧
    (∀ e ∈ (StoreOp.run ⟨heap, ⟨path, ∅⟩, disk⟩ ops).store.tools.entries,
      e.2.ID = e.1 ∧ e.2.ID ≠ "") ∧
    (∀ t ∈ (StoreOp.run ⟨heap, ⟨path, ∅⟩, disk⟩ ops).store.GetTools,
      t.ID ≠ "") := by
  have hk : (StoreOp.run ⟨heap, ⟨path, ∅⟩, disk⟩ ops).store.keyed :=
    run_keyed ops _ (fun k t hl => by rw [AList.lookup_empty] at hl; cases hl)
  have he : ∀ e ∈ (StoreOp.run ⟨heap, ⟨path, ∅⟩, disk⟩ ops).store.tools.entries,
      e.2.ID = e.1 ∧ e.2.ID ≠ "" := by
    intro e hmem
    apply hk e.1 e.2
    exact AList.mem_lookup_iff.mpr hmem
  refine ⟨hk, he, ?_⟩
  intro t ht
  simp only [Store.GetTools, List.mem_map] at ht
  obtain ⟨e, hmem, rfl⟩ := ht
  exact (he e hmem).2

/-- Witness of C27: after the three sample calls the map holds the record
"Grep" under the ID "20240101120000". -/
theorem C27_stored_records_keyed_by_nonempty_ID_witness :
    ((StoreOp.run emptyWorld sampleOps).store.tools.lookup "20240101120000").map
        (fun t => t.Name) = some "Grep" ∧
    ∀ t, (StoreOp.run emptyWorld sampleOps).store.tools.lookup "20240101120000" = some t →
      t.ID = "20240101120000" ∧ t.ID ≠ "" :=
  ⟨by decide,
    (C27_stored_records_keyed_by_nonempty_ID [] "../data/tools.json" File.absent sampleOps).1
      "20240101120000"⟩

/-- C28: in every Form state reachable from `newToolEditorModel` or
`newToolEditorModelWithTool` through `Update`, there are three field inputs.
With the parameter editor closed the focus index is in 0..2, a field holds
focus exactly when its index is the focus index, and indexing the fields by the
focus index yields a field that holds focus.  In Editing there are four
parameter inputs, the focus index is in 0..3, a parameter input holds focus
exactly when its index is the focus index, and indexing the parameter inputs by
the focus index yields an input that holds focus. -/
theorem C28_exactly_the_focused_input_holds_focus (h : Heap) (m : toolEditorModel)
    (hr : FormReachable h m) :
    m.inputs.length = 3 ∧
    (m.editingParameters = false →
      0 ≤ m.focused ∧ m.focused ≤ 2 ∧
      (∀ (i : Nat) (input : textinput.Model), m.inputs[i]? = some input →
        (input.Focused = true ↔ (i : Int) = m.focused)) ∧
      ∃ input, indexInt m.inputs m.focused = some input ∧ input.Focused = true) ∧
    (m.editingParameters = true →
      m.parameterInputs.length = 4 ∧ 0 ≤ m.focused ∧ m.focused ≤ 3 ∧
      (∀ (i : Nat) (input : textinput.Model), m.parameterInputs[i]? = some input →
        (input.Focused = true ↔ (i : Int) = m.focused)) ∧
      ∃ input, indexInt m.parameterInputs m.focused = some input ∧ input.Focused = true) := by
  have hm := FormReachable_focusInv h m hr
  refine ⟨hm.1, fun he => ?_, fun he => ?_⟩
  · obtain ⟨h0, h3, hp⟩ := hm.2.1 he
    exact ⟨h0, by omega, focusPattern_exactly m.inputs 3 m.focused h0 (by omega) hp⟩
  · obtain ⟨h0, h4, hp⟩ := hm.2.2 he
    exact ⟨focusInv_parameterInputs_length m hm he, h0, by omega,
      focusPattern_exactly m.parameterInputs 4 m.focused h0 (by omega) hp⟩

/-- Witness of C28: the Form opened on the stored record is reachable, and so
is the state after the edit key alt+e, which is Editing. -/
theorem C28_exactly_the_focused_input_holds_focus_witness :
    FormReachable oneToolWorld.heap editingForm ∧
    editingForm.editingParameters = true ∧
    editingForm.parameterInputs.length = 4 ∧ editingForm.focused = 0 ∧
    editingForm.parameterInputs.map textinput.Model.Focused = [true, false, false, false] ∧
    ∃ input, indexInt editingForm.parameterInputs editingForm.focused = some input ∧
      input.Focused = true :=
  ⟨FormReachable.update quietEnv (altRuneKey 'e') oneToolWorld.heap oneToolWorld.heap
      storedToolForm editingForm [] (FormReachable.withTool oneToolWorld.heap storedTool)
      (by decide),
    by decide, by decide, by decide, by decide,
    ((C28_exactly_the_focused_input_holds_focus oneToolWorld.heap editingForm
      (FormReachable.update quietEnv (altRuneKey 'e') oneToolWorld.heap oneToolWorld.heap
        storedToolForm editingForm [] (FormReachable.withTool oneToolWorld.heap storedTool)
        (by decide))).2.2 (by decide)).2.2.2.2⟩

/-- C29 as stated fails: after the "?" key the parameter editor of the Form on
the stored record is closed, the help overlay is shown and the focus index is
0; the tab key then leaves the focus index at 0, not at (0+1) mod 3 = 1. -/
theorem C29_counterexample_tab_under_help_overlay :
    (deliverForm quietEnv (oneToolWorld.heap, storedToolForm, []) [runeKey '?']).map
      (fun r => (r.2.1.showParameterHelp, r.2.1.editingParameters, r.2.1.focused))
      = some (true, false, 0) ∧
    (deliverForm quietEnv (oneToolWorld.heap, storedToolForm, [])
        [runeKey '?', Msg.KeyMsg tabKey]).map
      (fun r => (r.2.1.showParameterHelp, r.2.1.editingParameters, r.2.1.focused))
      = some (true, false, 0) ∧
    tabKey.String = "tab" := by
  decide

/-- C29, amended: with the help overlay hidden, focus movement is cyclic in
both directions.  In Editing with four parameter inputs and focus index f in
0..3, tab sets the focus index to (f+1) mod 4 and shift+tab to (f+3) mod 4; with
the parameter editor closed, three fields and f in 0..2, tab and down set it to
(f+1) mod 3 and shift+tab and up to (f+2) mod 3.  In both, the advancing key
followed by the retreating key restores f, and each key returns no command and
leaves the backing arrays, the record, the saving flag and the texts of the
field inputs and parameter inputs as they are. -/
theorem C29_focus_movement_is_cyclic (env : Env) (h : Heap) (m : toolEditorModel)
    (ka kr : KeyMsg) (hhelp : m.showParameterHelp = false) :
    (m.editingParameters = true → m.parameterInputs.length = 4 →
      0 ≤ m.focused → m.focused < 4 → ka.String = "tab" → kr.String = "shift+tab" →
      ∃ ma mr mb, m.Update env h (Msg.KeyMsg ka) = some (h, ma, []) ∧
        m.Update env h (Msg.KeyMsg kr) = some (h, mr, []) ∧
        ma.Update env h (Msg.KeyMsg kr) = some (h, mb, []) ∧
        ma.focused = (m.focused + 1) % 4 ∧ mr.focused = (m.focused + 3) % 4 ∧
        mb.focused = m.focused ∧ m.sameData ma ∧ m.sameData mr) ∧
    (m.editingParameters = false → m.inputs.length = 3 →
      0 ≤ m.focused → m.focused < 3 →
      ka.String = "tab" ∨ ka.String = "down" → kr.String = "shift+tab" ∨ kr.String = "up" →
      ∃ ma mr mb, m.Update env h (Msg.KeyMsg ka) = some (h, ma, []) ∧
        m.Update env h (Msg.KeyMsg kr) = some (h, mr, []) ∧
        ma.Update env h (Msg.KeyMsg kr) = some (h, mb, []) ∧
        ma.focused = (m.focused + 1) % 3 ∧ mr.focused = (m.focused + 2) % 3 ∧
        mb.focused = m.focused ∧ m.sameData ma ∧ m.sameData mr) := by
  constructor
  · intro hedit hlen h0 h4 hka hkr
    have hkr' : kr.String ≠ "tab" := by rw [hkr]; decide
    obtain ⟨ma, hua, hfa, hha, hea, hla, hda⟩ :=
      editing_step env h m ka hhelp hedit hlen h0 h4 (Or.inl hka)
    obtain ⟨mr, hur, hfr, _, _, _, hdr⟩ :=
      editing_step env h m kr hhelp hedit hlen h0 h4 (Or.inr hkr)
    rw [if_pos hka] at hfa
    rw [if_neg hkr'] at hfr
    obtain ⟨mb, hub, hfb, _⟩ :=
      editing_step env h ma kr hha hea hla (by omega) (by omega) (Or.inr hkr)
    rw [if_neg hkr'] at hfb
    exact ⟨ma, mr, mb, hua, hur, hub, hfa, hfr, by omega, hda, hdr⟩
  · intro hedit hlen h0 h3 hka hkr
    have hka1 : ka.String = "tab" ∨ ka.String = "shift+tab" ∨ ka.String = "up" ∨
        ka.String = "down" := by
      rcases hka with hka | hka
      · exact Or.inl hka
      · exact Or.inr (Or.inr (Or.inr hka))
    have hkr1 : kr.String = "tab" ∨ kr.String = "shift+tab" ∨ kr.String = "up" ∨
        kr.String = "down" := by
      rcases hkr with hkr | hkr
      · exact Or.inr (Or.inl hkr)
      · exact Or.inr (Or.inr (Or.inl hkr))
    have hka2 : ¬ (ka.String = "up" ∨ ka.String = "shift+tab") := by
      rcases hka with hka | hka <;> rw [hka] <;> decide
    have hkr2 : kr.String = "up" ∨ kr.String = "shift+tab" := hkr.symm
    obtain ⟨ma, hua, hfa, hha, hea, hla, hda⟩ :=
      closed_step env h m ka hhelp hedit hlen h0 h3 hka1
    obtain ⟨mr, hur, hfr, _, _, _, hdr⟩ :=
      closed_step env h m kr hhelp hedit hlen h0 h3 hkr1
    rw [if_neg hka2] at hfa
    rw [if_pos hkr2] at hfr
    obtain ⟨mb, hub, hfb, _⟩ :=
      closed_step env h ma kr hha hea hla (by omega) (by omega) hkr1
    rw [if_pos hkr2] at hfb
    exact ⟨ma, mr, mb, hua, hur, hub, hfa, hfr, by omega, hda, hdr⟩

/-- Witness of C29: tab and shift+tab on the Form just opened on the stored
record, whose focus index is 0. -/
theorem C29_focus_movement_is_cyclic_witness :
    (storedToolForm.showParameterHelp = false ∧ storedToolForm.editingParameters = false ∧
      storedToolForm.inputs.length = 3 ∧ storedToolForm.focused = 0 ∧
      tabKey.String = "tab" ∧ shiftTabKey.String = "shift+tab") ∧
    ∃ ma mr mb, storedToolForm.Update quietEnv oneToolWorld.heap (Msg.KeyMsg tabKey) =
        some (oneToolWorld.heap, ma, []) ∧
      storedToolForm.Update quietEnv oneToolWorld.heap (Msg.KeyMsg shiftTabKey) =
        some (oneToolWorld.heap, mr, []) ∧
      ma.Update quietEnv oneToolWorld.heap (Msg.KeyMsg shiftTabKey) =
        some (oneToolWorld.heap, mb, []) ∧
      ma.focused = 1 ∧ mr.focused = 2 ∧ mb.focused = 0 ∧
      storedToolForm.sameData ma ∧ storedToolForm.sameData mr := by
  refine ⟨by decide, ?_⟩
  obtain ⟨ma, mr, mb, h1, h2, h3, h4, h5, h6, h7, h8⟩ :=
    (C29_focus_movement_is_cyclic quietEnv oneToolWorld.heap storedToolForm tabKey shiftTabKey
      (by decide)).2 (by decide) (by decide) (by decide) (by decide)
      (Or.inl (by decide)) (Or.inl (by decide))
  exact ⟨ma, mr, mb, h1, h2, h3, h4.trans (by decide), h5.trans (by decide),
    h6.trans (by decide), h7, h8⟩

/-- C30: with the parameter editor closed and the help overlay hidden, the
keys alt+down and alt+up leave the record, the backing arrays and so the
parameter list as they are and return no command.  With n > 0 parameters and a
selection s in -1..n-1, alt+down sets the selection to (s+1) mod n, and alt+up
sets it to s-1 when s >= 1 and to n-1 when s is 0 or -1; with n = 0 both keys
return the state unchanged. -/
theorem C30_selection_wraps (env : Env) (h : Heap) (m : toolEditorModel) (k : KeyMsg)
    (hhelp : m.showParameterHelp = false) (hedit : m.editingParameters = false)
    (hk : k.String = "alt+down" ∨ k.String = "alt+up") :
    ∃ m', m.Update env h (Msg.KeyMsg k) = some (h, m', []) ∧
      m'.tool = m.tool ∧ h.readOpt m'.tool.Parameters = h.readOpt m.tool.Parameters ∧
      (sliceLen m.tool.Parameters = 0 → m' = m) ∧
      (0 < sliceLen m.tool.Parameters → -1 ≤ m.selectedParamIndex →
        m.selectedParamIndex < (sliceLen m.tool.Parameters : Int) →
        (k.String = "alt+down" →
          m'.selectedParamIndex =
            (m.selectedParamIndex + 1) % (sliceLen m.tool.Parameters : Int)) ∧
        (k.String = "alt+up" →
          (1 ≤ m.selectedParamIndex → m'.selectedParamIndex = m.selectedParamIndex - 1) ∧
          (m.selectedParamIndex ≤ 0 →
            m'.selectedParamIndex = (sliceLen m.tool.Parameters : Int) - 1))) := by
  have hq : k.String ≠ "q" := by
    rcases hk with hk | hk <;> rw [hk] <;> decide
  rw [Update_closed_key env h m k hhelp hedit hq]
  rcases hk with hk | hk
  · rw [updateSwitch_alt_down env h m k hk]
    have hne : k.String ≠ "alt+up" := by rw [hk]; decide
    by_cases hz : sliceLen m.tool.Parameters = 0
    · rw [if_pos hz]
      exact ⟨_, rfl, rfl, rfl, fun _ => rfl, fun hpos => absurd hz (by omega)⟩
    · rw [if_neg hz]
      by_cases hw : m.selectedParamIndex + 1 ≥ (sliceLen m.tool.Parameters : Int)
      · rw [if_pos hw]
        refine ⟨_, rfl, rfl, rfl, fun h0 => absurd h0 hz, fun _ _ hlt => ⟨fun _ => ?_,
          fun hu => absurd hu hne⟩⟩
        have he : m.selectedParamIndex + 1 = (sliceLen m.tool.Parameters : Int) := by omega
        rw [he, Int.emod_self]
      · rw [if_neg hw]
        refine ⟨_, rfl, rfl, rfl, fun h0 => absurd h0 hz, fun _ hge _ => ⟨fun _ => ?_,
          fun hu => absurd hu hne⟩⟩
        show m.selectedParamIndex + 1 = _
        exact (Int.emod_eq_of_lt (by omega) (by omega)).symm
  · rw [updateSwitch_alt_up env h m k hk]
    have hne : k.String ≠ "alt+down" := by rw [hk]; decide
    by_cases hz : sliceLen m.tool.Parameters = 0
    · rw [if_pos hz]
      exact ⟨_, rfl, rfl, rfl, fun _ => rfl, fun hpos => absurd hz (by omega)⟩
    · rw [if_neg hz]
      by_cases hw : m.selectedParamIndex - 1 < 0
      · rw [if_pos hw]
        exact ⟨_, rfl, rfl, rfl, fun h0 => absurd h0 hz, fun _ _ _ => ⟨fun hd => absurd hd hne,
          fun _ => ⟨fun h1 => absurd hw (by omega), fun _ => rfl⟩⟩⟩
      · rw [if_neg hw]
        exact ⟨_, rfl, rfl, rfl, fun h0 => absurd h0 hz, fun _ _ _ => ⟨fun hd => absurd hd hne,
          fun _ => ⟨fun _ => rfl, fun h0 => absurd hw (by omega)⟩⟩⟩

/-- Witness of C30: alt+down on the Form just opened on the stored record, with
two parameters and no selection, selects the first parameter. -/
theorem C30_selection_wraps_witness :
    (storedToolForm.showParameterHelp = false ∧ storedToolForm.editingParameters = false ∧
      (⟨.KeyNamed "down", [], true, false⟩ : KeyMsg).String = "alt+down" ∧
      sliceLen storedToolForm.tool.Parameters = 2 ∧ storedToolForm.selectedParamIndex = -1) ∧
    ∃ m', storedToolForm.Update quietEnv oneToolWorld.heap (altNamedKey "down") =
        some (oneToolWorld.heap, m', []) ∧
      m'.tool = storedToolForm.tool ∧ m'.selectedParamIndex = 0 :=
  ⟨by decide, by
    obtain ⟨m', hu, ht, _, _, hs⟩ := C30_selection_wraps quietEnv oneToolWorld.heap
      storedToolForm ⟨.KeyNamed "down", [], true, false⟩ (by decide) (by decide)
      (Or.inl (by decide))
    exact ⟨m', hu, ht, ((hs (by decide) (by decide) (by decide)).1 (by decide)).trans
      (by decide)⟩⟩

/-- C31: with the parameter editor closed and the help overlay hidden, the key
alt+e returns no command and leaves the backing arrays and the record as they
are.  When the selection is a valid index it does `editParameter` on it: the
editing flag is set, `currentParameter` is the selection, the focus index is 0
and four inputs are bound to that parameter.  When the selection is not a valid
index and there is a parameter, the selection becomes 0 and parameter 0 is
opened in the same way.  When there is no parameter the state is returned
unchanged. -/
theorem C31_edit_key_opens_selected_parameter (env : Env) (h : Heap) (m : toolEditorModel)
    (k : KeyMsg) (hhelp : m.showParameterHelp = false) (hedit : m.editingParameters = false)
    (hk : k.String = "alt+e") :
    (0 ≤ m.selectedParamIndex ∧ m.selectedParamIndex < (sliceLen m.tool.Parameters : Int) →
      ∃ m', m.Update env h (Msg.KeyMsg k) = some (h, m', []) ∧
        m' = m.editParameter h m.selectedParamIndex ∧
        m'.editingParameters = true ∧ m'.currentParameter = m.selectedParamIndex ∧
        m'.selectedParamIndex = m.selectedParamIndex ∧ m'.focused = 0 ∧ m'.tool = m.tool ∧
        m'.parameterInputs.length = 4 ∧
        ∀ p, (h.readOpt m.tool.Parameters)[m.selectedParamIndex.toNat]? = some p →
          m'.parameterInputs = focusOnly (createParameterInputs p false) 0) ∧
    (¬ (0 ≤ m.selectedParamIndex ∧
        m.selectedParamIndex < (sliceLen m.tool.Parameters : Int)) →
      0 < sliceLen m.tool.Parameters →
      ∃ m', m.Update env h (Msg.KeyMsg k) = some (h, m', []) ∧
        m' = ({ m with selectedParamIndex := 0 } : toolEditorModel).editParameter h 0 ∧
        m'.editingParameters = true ∧ m'.currentParameter = 0 ∧
        m'.selectedParamIndex = 0 ∧ m'.focused = 0 ∧ m'.tool = m.tool ∧
        m'.parameterInputs.length = 4 ∧
        ∀ p, (h.readOpt m.tool.Parameters)[0]? = some p →
          m'.parameterInputs = focusOnly (createParameterInputs p false) 0) ∧
    (sliceLen m.tool.Parameters = 0 → m.Update env h (Msg.KeyMsg k) = some (h, m, [])) := by
  rw [Update_closed_key env h m k hhelp hedit (by rw [hk]; decide),
    updateSwitch_alt_e env h m k hk]
  refine ⟨fun hv => ?_, fun hnv hpos => ?_, fun hz => ?_⟩
  · refine ⟨_, rfl, ?_, ?_⟩
    · unfold toolEditorModel.editSelected
      rw [if_pos (by exact ⟨hv.1, hv.2⟩)]
    · have he : m.editSelected h = m.editParameter h m.selectedParamIndex := by
        unfold toolEditorModel.editSelected
        rw [if_pos (by exact ⟨hv.1, hv.2⟩)]
      rw [he, editParameter_fields h m _ hv.1 hv.2]
      refine ⟨rfl, rfl, rfl, rfl, rfl, ?_, fun p hp => ?_⟩
      · show (focusOnly _ 0).length = 4
        rw [focusOnly_length, createParameterInputs_length]
      · show focusOnly (createParameterInputs _ false) 0 = _
        rw [List.getD_eq_getElem?_getD, hp]
        rfl
  · have he : m.editSelected h =
        ({ m with selectedParamIndex := 0 } : toolEditorModel).editParameter h 0 := by
      unfold toolEditorModel.editSelected
      rw [if_neg (by intro hc; exact hnv ⟨hc.1, hc.2⟩), if_pos (by omega)]
    refine ⟨_, rfl, he, ?_⟩
    rw [he, editParameter_fields h _ 0 (le_refl _)
      (by show (0 : Int) < (sliceLen m.tool.Parameters : Int); omega)]
    refine ⟨rfl, rfl, rfl, rfl, rfl, ?_, fun p hp => ?_⟩
    · show (focusOnly _ 0).length = 4
      rw [focusOnly_length, createParameterInputs_length]
    · show focusOnly (createParameterInputs _ false) 0 = _
      show focusOnly (createParameterInputs
        ((h.readOpt m.tool.Parameters).getD (0 : Int).toNat Parameter.zero) false) 0 = _
      rw [List.getD_eq_getElem?_getD]
      show focusOnly (createParameterInputs
        (((h.readOpt m.tool.Parameters)[0]?).getD Parameter.zero) false) 0 = _
      rw [hp]
      rfl
  · unfold toolEditorModel.editSelected
    rw [if_neg (by intro hc; omega), if_neg (by omega)]

/-- Witness of C31: alt+e on the Form just opened on the stored record, which
has two parameters and no selection, selects and opens the first parameter. -/
theorem C31_edit_key_opens_selected_parameter_witness :
    (storedToolForm.showParameterHelp = false ∧ storedToolForm.editingParameters = false ∧
      (⟨.KeyRunes, ['e'], true, false⟩ : KeyMsg).String = "alt+e" ∧
      storedToolForm.selectedParamIndex = -1 ∧ sliceLen storedToolForm.tool.Parameters = 2) ∧
    ∃ m', storedToolForm.Update quietEnv oneToolWorld.heap (altRuneKey 'e') =
        some (oneToolWorld.heap, m', []) ∧
      m'.editingParameters = true ∧ m'.currentParameter = 0 ∧ m'.selectedParamIndex = 0 ∧
      m'.focused = 0 ∧ m'.tool = storedToolForm.tool ∧
      m'.parameterInputs = focusOnly (createParameterInputs pathParam false) 0 := by
  refine ⟨by decide, ?_⟩
  obtain ⟨m', hu, _, h1, h2, h3, h4, h5, _, h7⟩ :=
    (C31_edit_key_opens_selected_parameter quietEnv oneToolWorld.heap storedToolForm
      ⟨.KeyRunes, ['e'], true, false⟩ (by decide) (by decide) (by decide)).2.1
      (by decide) (by decide)
  exact ⟨m', hu, h1, h2, h3, h4, h5, h7 pathParam (by decide)⟩

/-- C32: in every Form state reachable from `newToolEditorModel` or
`newToolEditorModelWithTool` through `Update`, the selection is -1 or an index
below `len(m.tool.Parameters)` (which is the length of the parameter list when
the slice lies within its backing array).  Whenever the editing flag is set,
exactly four parameter inputs are bound and `currentParameter` is such an
index; every key is handled without a panic and leaves the record, and so the
length of its parameter list, as it is; and an Enter key with the focus index
on the last parameter input does `saveParameter`, which passes its guard and
performs its write: the four values go into element `currentParameter`, the
editing flag is cleared and `parameterChanged` is set. -/
theorem C32_indices_stay_valid (h : Heap) (m : toolEditorModel) (hr : FormReachable h m) :
    (m.selectedParamIndex = -1 ∨
      (0 ≤ m.selectedParamIndex ∧
        m.selectedParamIndex < (sliceLen m.tool.Parameters : Int))) ∧
    ((∀ s, m.tool.Parameters = some s → s.within h) →
      (h.readOpt m.tool.Parameters).length = sliceLen m.tool.Parameters) ∧
    (m.editingParameters = true →
      m.parameterInputs.length = 4 ∧
      0 ≤ m.currentParameter ∧ m.currentParameter < (sliceLen m.tool.Parameters : Int) ∧
      (∀ (env : Env) (k : KeyMsg), ∃ h' m' c,
        m.Update env h (Msg.KeyMsg k) = some (h', m', c) ∧ m'.tool = m.tool) ∧
      (∀ (env : Env) (k : KeyMsg), k.String = "enter" → m.focused = 3 →
        ¬ ((m.parameterInputs.length : Int) < 4 ∨ m.currentParameter < 0 ∨
          m.currentParameter ≥ (sliceLen m.tool.Parameters : Int)) ∧
        m.Update env h (Msg.KeyMsg k) =
          some ((m.saveParameter h).1, (m.saveParameter h).2, []) ∧
        ∃ i0 i1 i2 i3 s, m.parameterInputs = [i0, i1, i2, i3] ∧ m.tool.Parameters = some s ∧
          m.saveParameter h =
            (h.modifyAt s m.currentParameter.toNat (fun p =>
              { p with Name := i0.Value,
                       Type_ := if ParameterTypes.contains i1.Value then i1.Value
                         else "string",
                       Description := i2.Value,
                       Required := if ToLower i3.Value = "false" then false else true }),
            { m with
              editingParameters := false
              parameterChanged := true
              focused := 0
              inputs := focusOnly m.inputs 0 }))) := by
  have hf := FormReachable_focusInv h m hr
  have hp := FormReachable_paramInv h m hr
  refine ⟨?_, fun hv => readOpt_length h _ hv, fun hedit => ?_⟩
  · obtain ⟨h1, h2⟩ := hp.1
    by_cases hs : m.selectedParamIndex = -1
    · exact Or.inl hs
    · exact Or.inr ⟨by omega, h2⟩
  · have hlen := focusInv_parameterInputs_length m hf hedit
    obtain ⟨hc0, hc1⟩ := hp.2 hedit
    have hhelp : m.showParameterHelp = false := by
      by_contra hc
      have := FormReachable_inv h m hr (by simpa using hc)
      rw [hedit] at this
      exact absurd this (by decide)
    refine ⟨hlen, hc0, hc1, fun env k => ?_, fun env k hk hfoc => ?_⟩
    · rw [Update_editing env h m k hhelp hedit]
      exact ⟨_, _, _, rfl, (updateEditing_tool env h m k).1⟩
    · refine ⟨fun hc => ?_, ?_, ?_⟩
      · rcases hc with hc | hc | hc
        · rw [hlen] at hc
          exact absurd hc (by decide)
        · omega
        · omega
      · rw [Update_editing env h m k hhelp hedit, updateEditing_enter env h m k hk,
          if_pos (by rw [hlen, hfoc]; rfl)]
      · obtain ⟨i0, i1, i2, i3, hin⟩ := list_length_four m.parameterInputs hlen
        obtain ⟨s, hs, hlt⟩ := sliceLen_pos m.tool.Parameters m.currentParameter hc0 hc1
        exact ⟨i0, i1, i2, i3, s, hin, hs, saveParameter_eq h m s i0 i1 i2 i3 [] hin hs hc0 hlt⟩

/-- Witness of C32: the state Editing the first parameter of the stored
record, reached by alt+e. -/
theorem C32_indices_stay_valid_witness :
    FormReachable oneToolWorld.heap editingForm ∧
    editingForm.editingParameters = true ∧
    editingForm.selectedParamIndex = 0 ∧ editingForm.currentParameter = 0 ∧
    sliceLen editingForm.tool.Parameters = 2 ∧
    editingForm.parameterInputs.length = 4 ∧
    0 ≤ editingForm.currentParameter ∧
    editingForm.currentParameter < (sliceLen editingForm.tool.Parameters : Int) :=
  ⟨FormReachable.update quietEnv (altRuneKey 'e') oneToolWorld.heap oneToolWorld.heap
      storedToolForm editingForm [] (FormReachable.withTool oneToolWorld.heap storedTool)
      (by decide),
    by decide, by decide, by decide, by decide,
    ((C32_indices_stay_valid oneToolWorld.heap editingForm
      (FormReachable.update quietEnv (altRuneKey 'e') oneToolWorld.heap oneToolWorld.heap
        storedToolForm editingForm [] (FormReachable.withTool oneToolWorld.heap storedTool)
        (by decide))).2.2 (by decide)).1,
    ((C32_indices_stay_valid oneToolWorld.heap editingForm
      (FormReachable.update quietEnv (altRuneKey 'e') oneToolWorld.heap oneToolWorld.heap
        storedToolForm editingForm [] (FormReachable.withTool oneToolWorld.heap storedTool)
        (by decide))).2.2 (by decide)).2.1,
    ((C32_indices_stay_valid oneToolWorld.heap editingForm
      (FormReachable.update quietEnv (altRuneKey 'e') oneToolWorld.heap oneToolWorld.heap
        storedToolForm editingForm [] (FormReachable.withTool oneToolWorld.heap storedTool)
        (by decide))).2.2 (by decide)).2.2.1⟩

/-- C33 as stated fails: the only parameter of the record has the type
"string", an empty description and the name a, U+FFFD, b: three characters,
none of them a control character, U+FFFD being the printable symbol that stands
in for an undecodable character.  `editParameter(0)` binds the name input to
"ab", the text input dropping U+FFFD, and `saveParameter` writes that name: the
parameter list is changed. -/
theorem C33_counterexample_replacement_character_is_dropped :
    (Heap.readOpt [[replacementParam]] longNameForm.tool.Parameters = [replacementParam] ∧
      replacementParam.Type_ ∈ ParameterTypes ∧ replacementParam.Name.length = 3 ∧
      replacementParam.Description.length = 0 ∧
      replacementParam.Name.data.map textinput.IsControl = [false, false, false]) ∧
    (longNameForm.editParameter [[replacementParam]] 0).parameterInputs.map
      textinput.Model.Value = ["ab", "string", "", "false"] ∧
    (Heap.readOpt ((longNameForm.editParameter [[replacementParam]] 0).saveParameter
        [[replacementParam]]).1
      ((longNameForm.editParameter [[replacementParam]] 0).saveParameter
        [[replacementParam]]).2.tool.Parameters)
      = [{ replacementParam with Name := "ab" }] ∧
    ({ replacementParam with Name := "ab" } : Parameter) ≠ replacementParam := by
  decide

/-- C33, amended: for a valid index i whose parameter has a type of the
enumeration, a name of at most 30 and a description of at most 100 characters,
none of them a control character or the replacement character U+FFFD (so the
text input keeps every one of them), `editParameter(i)` immediately followed by
`saveParameter` leaves the parameter list and the record unchanged; the
parameter editor is closed again. -/
theorem C33_edit_then_save_is_identity (h : Heap) (m : toolEditorModel) (i : Int)
    (p : Parameter) (h0 : 0 ≤ i) (hp : (h.readOpt m.tool.Parameters)[i.toNat]? = some p)
    (ht : p.Type_ ∈ ParameterTypes)
    (hn : p.Name.length ≤ 30) (hd : p.Description.length ≤ 100)
    (hnp : ∀ c ∈ p.Name.data, textinput.IsControl c = false ∧ c ≠ Char.ofNat 0xFFFD)
    (hdp : ∀ c ∈ p.Description.data,
      textinput.IsControl c = false ∧ c ≠ Char.ofNat 0xFFFD) :
    ((m.editParameter h i).saveParameter h).1.readOpt
        ((m.editParameter h i).saveParameter h).2.tool.Parameters =
      h.readOpt m.tool.Parameters ∧
    ((m.editParameter h i).saveParameter h).2.tool = m.tool ∧
    ((m.editParameter h i).saveParameter h).2.editingParameters = false := by
  have hlt : (i : Int) < (sliceLen m.tool.Parameters : Int) := by
    have := readOpt_index_lt h m.tool.Parameters i.toNat p hp
    omega
  obtain ⟨s, hs, hsl⟩ := sliceLen_pos m.tool.Parameters i h0 hlt
  have he := editParameter_eq h m i p h0 hp
  obtain ⟨i0, i1, i2, i3, hin⟩ := list_length_four
    (focusOnly (createParameterInputs p false) 0)
    (by rw [focusOnly_length, createParameterInputs_length])
  have hv := (createParameterInputs_edit p).1
  rw [hin] at hv
  simp only [List.map_cons, List.map_nil, List.cons.injEq, and_true] at hv
  obtain ⟨v0, v1, v2, v3⟩ := hv
  have e0 : i0.Value = p.Name := by
    show String.mk i0.value = _
    rw [v0]
    exact take_data_fits _ _ (Sanitize_keeps _ hnp) hn
  have e1 : i1.Value = p.Type_ := by
    show String.mk i1.value = _
    rw [v1]
    exact type_fits _ ht
  have e2 : i2.Value = p.Description := by
    show String.mk i2.value = _
    rw [v2]
    exact take_data_fits _ _ (Sanitize_keeps _ hdp) hd
  have e3 : (if ToLower i3.Value = "false" then false else true) = p.Required := by
    show (if ToLower (String.mk i3.value) = "false" then false else true) = _
    rw [v3]
    exact required_roundtrip _
  have hin' : (m.editParameter h i).parameterInputs = [i0, i1, i2, i3] := by
    rw [he]
    exact hin
  have hs' : (m.editParameter h i).tool.Parameters = some s := by
    rw [he]
    exact hs
  have hc : (m.editParameter h i).currentParameter = i := by rw [he]
  have hread := saveParameter_read h (m.editParameter h i) s i0 i1 i2 i3 [] hin' hs'
    (by rw [hc]; exact h0) (by rw [hc]; exact hsl)
  have hst := saveParameter_eq h (m.editParameter h i) s i0 i1 i2 i3 [] hin' hs'
    (by rw [hc]; exact h0) (by rw [hc]; exact hsl)
  refine ⟨?_, ?_, ?_⟩
  · rw [hread, hc]
    have ht' : (m.editParameter h i).tool.Parameters = m.tool.Parameters := by rw [hs', hs]
    rw [ht']
    apply modify_fixed _ _ _ p hp
    rw [e0, e1, e2, e3, coerced_type_eq, if_pos ht]
  · rw [hst, he]
  · rw [hst]

/-- Witness of C33: the first parameter of the stored record, opened and saved
without typing. -/
theorem C33_edit_then_save_is_identity_witness :
    ((0 : Int) ≤ 0 ∧
      (oneToolWorld.heap.readOpt storedToolForm.tool.Parameters)[(0 : Int).toNat]? =
        some pathParam ∧
      pathParam.Type_ ∈ ParameterTypes ∧ pathParam.Name.length ≤ 30 ∧
      pathParam.Description.length ≤ 100) ∧
    ((storedToolForm.editParameter oneToolWorld.heap 0).saveParameter oneToolWorld.heap).1.readOpt
        ((storedToolForm.editParameter oneToolWorld.heap 0).saveParameter
          oneToolWorld.heap).2.tool.Parameters =
      oneToolWorld.heap.readOpt storedToolForm.tool.Parameters ∧
    ((storedToolForm.editParameter oneToolWorld.heap 0).saveParameter
      oneToolWorld.heap).2.tool = storedToolForm.tool ∧
    ((storedToolForm.editParameter oneToolWorld.heap 0).saveParameter
      oneToolWorld.heap).2.editingParameters = false :=
  ⟨by decide,
    C33_edit_then_save_is_identity oneToolWorld.heap storedToolForm 0 pathParam
      (by decide) (by decide) (by decide) (by decide) (by decide) (by decide) (by decide)⟩

end ForgedHeroes
